import Mathlib

/-! RpT server core: Service Event / Request protocol.

A shallow embedding of `rpt-core/src/ServiceEventRequestProtocol.cpp` and of
`rpt-core/src/Executor.cpp` (the chat service and the main loop).

Conventions of the embedding:

* `std::uint64_t` / `std::size_t` values are natural numbers; where the source converts text
  to a 64-bit value the bound `2 ^ 64` is explicit (`stoull`).
* a C++ function that may throw returns an `Except Thrown _` next to the state it leaves behind.
* objects held by reference (the services, the shared `ServiceContext`) are kept inside the
  protocol state; a `Service*` is the (unique) name of the service it points to.
-/

namespace RpT

/-! ## Exceptions -/

/-- Exceptions that travel through the embedded code.  `InvalidRequestFormat` is a kind of
`BadServiceRequest` (both are the format errors of the SER protocol). -/
inductive Thrown
  | NotEnoughWords
  | invalid_argument
  | out_of_range
  | BadServiceRequest (reason : String)
  | InvalidRequestFormat (sr_command reason : String)
  | ServiceNotFound (name : String)
  | ServiceNameAlreadyRegistered (name : String)
  | assertion_failed
  deriving DecidableEq, Repr

/-- Modelled from the spec: what `catch (const BadServiceRequest&)` catches, the format errors.
The class `InvalidRequestFormat` thrown by `handleServiceRequest` is not declared in the sources
at hand; being a format error, it is taken to derive from `BadServiceRequest`. -/
def Thrown.isBadServiceRequest : Thrown → Bool
  | .BadServiceRequest _ => true
  | .InvalidRequestFormat _ _ => true
  | _ => false

deriving instance DecidableEq for Except

/-! ## Text helpers of the C++ standard library -/

/-- The decimal digit character of `d` (for `d < 10`). -/
def digitChar : Nat → Char
  | 0 => '0'
  | 1 => '1'
  | 2 => '2'
  | 3 => '3'
  | 4 => '4'
  | 5 => '5'
  | 6 => '6'
  | 7 => '7'
  | 8 => '8'
  | _ => '9'

/-- Digits of `n`, most significant first, pushed in front of `acc`; `fuel` bounds the number of
digits written. -/
def to_string_digits : Nat → Nat → List Char → List Char
  | 0, _, acc => acc
  | fuel + 1, n, acc =>
    if n < 10 then digitChar n :: acc
    else to_string_digits fuel (n / 10) (digitChar (n % 10) :: acc)

/-- The function `std::to_string` on an unsigned 64-bit value: its decimal text, no sign, no
leading zero (a 64-bit value has at most 20 digits). -/
def to_string (n : Nat) : String :=
  String.mk (to_string_digits 20 n [])

/-- The predicate `isspace` of the C locale. -/
def isspace (c : Char) : Bool :=
  c == ' ' || c == '\t' || c == '\n' || c == '\x0b' || c == '\x0c' || c == '\r'

/-- The predicate `isdigit`. -/
def isdigit (c : Char) : Bool :=
  decide ('0'.toNat ≤ c.toNat) && decide (c.toNat ≤ '9'.toNat)

/-- Value of a run of decimal digits. -/
def digitsValue (ds : List Char) : Nat :=
  ds.foldl (fun acc c => 10 * acc + (c.toNat - '0'.toNat)) 0

/-- Result of `std::stoull`: the converted value or the exception it throws. -/
inductive StoullResult
  | value (n : Nat)
  | invalid_argument
  | out_of_range
  deriving DecidableEq, Repr

/-- The sign accepted by `strtoull` in front of the digits: `(negative, rest)`. -/
def stoullSign : List Char → Bool × List Char
  | '-' :: rest => (true, rest)
  | '+' :: rest => (false, rest)
  | cs => (false, cs)

/-- The function `std::stoull(str)` (base 10, no `pos` argument), as defined through `strtoull`:
leading white space is skipped, one sign is accepted, then the longest run of digits is
converted and whatever follows is ignored.  No digit at all is `std::invalid_argument`; a
magnitude that does not fit 64 bits is `std::out_of_range`; a minus sign negates the value in
the unsigned type. -/
def stoull (str : List Char) : StoullResult :=
  let signed := stoullSign (str.dropWhile isspace)
  let ds := signed.2.takeWhile isdigit
  if ds.isEmpty then .invalid_argument
  else if 2 ^ 64 ≤ digitsValue ds then .out_of_range
  else .value (if signed.1 then (2 ^ 64 - digitsValue ds) % 2 ^ 64 else digitsValue ds)

/-! ## `Utils::TextProtocolParser` and `Utils::HandlingResult` -/

/-- Characters of `cs` after its leading separators (the separator is the char `' '`). -/
def skipSeparators (cs : List Char) : List Char :=
  cs.dropWhile (fun c => c == ' ')

/-- First word of `cs`: the characters before the next separator. -/
def wordOf (cs : List Char) : List Char :=
  cs.takeWhile (fun c => c != ' ')

/-- What follows the first word of `cs`. -/
def afterWord (cs : List Char) : List Char :=
  cs.dropWhile (fun c => c != ' ')

/-- Modelled from the spec: the word splitting of `Utils::TextProtocolParser`, whose source file
is not part of the sources at hand.  The command is split on its first `expected_words`
tokens, tokens being delimited by the char `' '`; the remainder, left unsplit, starts at the
next token.  `none` stands for `Utils::NotEnoughWords`. -/
def parseWords : Nat → List Char → Option (List (List Char) × List Char)
  | 0, cs => some ([], skipSeparators cs)
  | expected_words + 1, cs =>
    if (skipSeparators cs).isEmpty then none
    else
      match parseWords expected_words (afterWord (skipSeparators cs)) with
      | none => none
      | some (words, unparsed) => some (wordOf (skipSeparators cs) :: words, unparsed)

/-- All the tokens of a text: its maximal runs of characters other than `' '`.  The fuel is the
length of the text, which bounds the number of its tokens. -/
def tokensAux : Nat → List Char → List (List Char)
  | 0, _ => []
  | fuel + 1, cs =>
    if (skipSeparators cs).isEmpty then []
    else wordOf (skipSeparators cs) :: tokensAux fuel (afterWord (skipSeparators cs))

/-- The tokens of a command text. -/
def tokens (s : String) : List String :=
  (tokensAux s.data.length s.data).map String.mk

/-- Modelled from the spec: `Utils::TextProtocolParser`, the parsed words and the unparsed
remainder of a command. -/
structure TextProtocolParser where
  parsed_words_ : List String
  unparsed_words_ : String
  deriving DecidableEq, Repr

/-- Constructor `TextProtocolParser { protocol_command, expected_words }`. -/
def TextProtocolParser.create (protocol_command : String) (expected_words : Nat) :
    Except Thrown TextProtocolParser :=
  match parseWords expected_words protocol_command.data with
  | none => .error .NotEnoughWords
  | some (words, unparsed) => .ok ⟨words.map String.mk, String.mk unparsed⟩

/-- Accessor `getParsedWord(i)`. -/
def TextProtocolParser.getParsedWord (parser : TextProtocolParser) (i : Nat) : String :=
  parser.parsed_words_.getD i ""

/-- Accessor `unparsedWords()`. -/
def TextProtocolParser.unparsedWords (parser : TextProtocolParser) : String :=
  parser.unparsed_words_

/-- Modelled from the spec: `Utils::HandlingResult`, a success flag with an optional failure
message.  `HandlingResult {}` is `⟨none⟩`, `HandlingResult { msg }` is `⟨some msg⟩`. -/
structure HandlingResult where
  error_message_ : Option String
  deriving DecidableEq, Repr

/-- Conversion `operator bool`: the handling was done successfully. -/
def HandlingResult.success (r : HandlingResult) : Bool :=
  r.error_message_.isNone

/-- Accessor `errorMessage()`. -/
def HandlingResult.errorMessage (r : HandlingResult) : String :=
  r.error_message_.getD ""

/-! ## `Service` and `ServiceContext` -/

/-- Modelled from the spec: the Event Context shared by every service of a run, the counter of
the ids given to emitted events (`Service.hpp` is not part of the sources at hand). -/
structure ServiceContext where
  events_count_ : Nat
  deriving DecidableEq, Repr

/-- Modelled from the spec: `nextEventId()`, a fresh id greater than every id given before. -/
def ServiceContext.newEventPushed (ctx : ServiceContext) : Nat × ServiceContext :=
  (ctx.events_count_, { events_count_ := ctx.events_count_ + 1 })

/-- What one call of a request handler did: the private state it leaves, the event commands it
emitted (in emission order) and how it ended; `Except.error d` is a thrown `std::exception`
whose `what()` is `d`. -/
structure HandlerRun (σ : Type) where
  state : σ
  emitted : List String
  outcome : Except String HandlingResult

/-- Modelled from the spec: a `Service`, a named unit with a request handler, a private state
and a FIFO queue of emitted events, each with the id it got from the Event Context.  The
handler is the virtual `handleRequestCommand(actor, sr_command_data)` run on the private
state. -/
structure Service (σ : Type) where
  name : String
  handleRequestCommand : Nat → String → σ → HandlerRun σ
  state : σ
  events_queue_ : List (Nat × String)

/-- Modelled from the spec: `checkEvent()`, the id of the oldest event not consumed yet. -/
def Service.checkEvent {σ : Type} (s : Service σ) : Option Nat :=
  s.events_queue_.head?.map Prod.fst

/-- Modelled from the spec: `pollEvent()`, removes the oldest event and returns its command;
`none` when the queue is empty, where the call is not allowed. -/
def Service.pollEvent {σ : Type} (s : Service σ) : Option (String × Service σ) :=
  match s.events_queue_ with
  | [] => none
  | (_, event_command) :: rest => some (event_command, { s with events_queue_ := rest })

/-- Modelled from the spec: `emitEvent(event_command)`, queues the event with the next id of the
Event Context. -/
def Service.emitEvent {σ : Type} (ctx : ServiceContext) (s : Service σ) (event_command : String) :
    ServiceContext × Service σ :=
  ((ctx.newEventPushed).2,
    { s with events_queue_ := s.events_queue_ ++ [((ctx.newEventPushed).1, event_command)] })

/-- Emission of several events, in order. -/
def Service.emitEvents {σ : Type} (ctx : ServiceContext) (s : Service σ) :
    List String → ServiceContext × Service σ
  | [] => (ctx, s)
  | event_command :: rest =>
    Service.emitEvents (Service.emitEvent ctx s event_command).1
      (Service.emitEvent ctx s event_command).2 rest

/-! ## `ServiceEventRequestProtocol` -/

/-- Literal `REQUEST_PREFIX`. -/
def REQUEST_PREFIX : String := "REQUEST"

/-- Literal `RESPONSE_PREFIX`. -/
def RESPONSE_PREFIX : String := "RESPONSE"

/-- Literal `EVENT_PREFIX`. -/
def EVENT_PREFIX : String := "EVENT"

/-- A parsed Service Request command: `ServiceRequestCommandParser`. -/
structure ServiceRequestCommandParser where
  words : TextProtocolParser
  parsed_ruid_ : Nat
  deriving DecidableEq, Repr

/-- Constructor of `ServiceRequestCommandParser`: three words are parsed, then the second one is
converted with `std::stoull`.  Only `std::invalid_argument` is caught and turned into
`BadServiceRequest`; `std::out_of_range` is not caught. -/
def ServiceRequestCommandParser.create (sr_command : String) :
    Except Thrown ServiceRequestCommandParser :=
  match TextProtocolParser.create sr_command 3 with
  | .error e => .error e
  | .ok words =>
    match stoull (words.getParsedWord 1).data with
    | .value n => .ok ⟨words, n⟩
    | .invalid_argument =>
      .error (.BadServiceRequest "Request UID must be an unsigned integer of 64 bits")
    | .out_of_range => .error .out_of_range

/-- Method `isValidRequest()`. -/
def ServiceRequestCommandParser.isValidRequest (parser : ServiceRequestCommandParser) : Bool :=
  parser.words.getParsedWord 0 == REQUEST_PREFIX

/-- Method `ruid()`. -/
def ServiceRequestCommandParser.ruid (parser : ServiceRequestCommandParser) : Nat :=
  parser.parsed_ruid_

/-- Method `intendedServiceName()`. -/
def ServiceRequestCommandParser.intendedServiceName (parser : ServiceRequestCommandParser) :
    String :=
  parser.words.getParsedWord 2

/-- Method `commandData()`. -/
def ServiceRequestCommandParser.commandData (parser : ServiceRequestCommandParser) : String :=
  parser.words.unparsedWords

/-- An entry of the emitters cache: the id of the event the service reported and the service
(a `Service*`, here its name). -/
structure CachedServiceEventEmitter where
  emittedEventId : Nat
  queuedEmitter : String
  deriving DecidableEq, Repr

/-- Comparison `operator>`: the greater entry is the one with the lower event id.  The source
asserts that the two ids differ. -/
def CachedServiceEventEmitter.gt (lhs rhs : CachedServiceEventEmitter) : Bool :=
  decide (lhs.emittedEventId < rhs.emittedEventId)

/-- Comparison `operator<`: the negation of `operator>`. -/
def CachedServiceEventEmitter.lt (lhs rhs : CachedServiceEventEmitter) : Bool :=
  !(lhs.gt rhs)

/-- Method `top()` of the `std::priority_queue` of cached emitters: an entry that no other entry
is greater than, under `operator<`. -/
def cacheTop : List CachedServiceEventEmitter → Option CachedServiceEventEmitter
  | [] => none
  | e :: es => some (es.foldl (fun best x => if best.lt x then x else best) e)

/-- Method `pop()` of the `std::priority_queue`: removes the top entry. -/
def cachePop (cache : List CachedServiceEventEmitter) : List CachedServiceEventEmitter :=
  match cacheTop cache with
  | none => cache
  | some e => cache.erase e

/-- Method `push()` of the `std::priority_queue`. -/
def cachePush (cache : List CachedServiceEventEmitter) (e : CachedServiceEventEmitter) :
    List CachedServiceEventEmitter :=
  cache ++ [e]

/-- The protocol object together with the objects it refers to: the shared Event Context, the
registered services (`running_services_`, in the iteration order of the map) and the cache of
event emitters. -/
structure ServiceEventRequestProtocol (σ : Type) where
  run_context : ServiceContext
  running_services_ : List (Service σ)
  latest_se_emitters_cache_ : List CachedServiceEventEmitter

namespace ServiceEventRequestProtocol

variable {σ : Type}

/-- Lookup `running_services_.count(service)`. -/
def count (services : List (Service σ)) (service : String) : Nat :=
  services.countP (fun s => s.name == service)

/-- Lookup `running_services_.at(service)`. -/
def at_ (services : List (Service σ)) (service : String) : Option (Service σ) :=
  services.find? (fun s => s.name == service)

/-- Method `isRegistered(service)`. -/
def isRegistered (p : ServiceEventRequestProtocol σ) (service : String) : Bool :=
  count p.running_services_ service == 1

/-- The registration loop of the constructor over the services still to register.  The order in
which an `std::unordered_map` is iterated is not specified; here it is the order of
registration. -/
def registerServices (p : ServiceEventRequestProtocol σ) :
    List (Service σ) → Except Thrown (ServiceEventRequestProtocol σ)
  | [] => .ok p
  | service_ref :: rest =>
    if p.isRegistered service_ref.name then
      .error (.ServiceNameAlreadyRegistered service_ref.name)
    else
      registerServices { p with running_services_ := p.running_services_ ++ [service_ref] } rest

/-- The constructor: registers each given service under its name, in the context the services
run in. -/
def create (services : List (Service σ)) (run_context : ServiceContext) :
    Except Thrown (ServiceEventRequestProtocol σ) :=
  registerServices ⟨run_context, [], []⟩ services

/-- Replaces the registered service `svc.name` refers to by `svc`: a write through the
reference. -/
def store (p : ServiceEventRequestProtocol σ) (ctx : ServiceContext) (svc : Service σ) :
    ServiceEventRequestProtocol σ :=
  { p with
    run_context := ctx
    running_services_ := p.running_services_.map (fun s => if s.name == svc.name then svc else s) }

/-- What a call of `handleServiceRequest` gives: the response or the exception that escapes, the
calls of `handleRequestCommand` it made (service name, actor, command data) and the state it
leaves. -/
structure RequestHandling (σ : Type) where
  result : Except Thrown String
  invoked : List (String × Nat × String)
  protocol : ServiceEventRequestProtocol σ

/-- What a call of `pollServiceEvent` gives: the optional event command, or the failure of an
assertion of the source, and the state it leaves. -/
structure EventPolling (σ : Type) where
  result : Except Thrown (Option String)
  protocol : ServiceEventRequestProtocol σ

/-- The parsing block of `handleServiceRequest`: `Utils::NotEnoughWords` is caught and replaced
by `InvalidRequestFormat`; any other exception of the parser goes through. -/
def parseServiceRequest (service_request : String) : Except Thrown ServiceRequestCommandParser :=
  match ServiceRequestCommandParser.create service_request with
  | .error .NotEnoughWords =>
    .error (.InvalidRequestFormat service_request
      "Expected SER command prefix and request service name")
  | .error e => .error e
  | .ok sr_command =>
    if !sr_command.isValidRequest then
      .error (.InvalidRequestFormat service_request
        "Expected SER command prefix \"REQUEST\" for SR command")
    else .ok sr_command

/-- Method `handleServiceRequest(actor, service_request)`. -/
def handleServiceRequest (p : ServiceEventRequestProtocol σ) (actor : Nat)
    (service_request : String) : RequestHandling σ :=
  match parseServiceRequest service_request with
  | .error e => ⟨.error e, [], p⟩
  | .ok sr_command =>
    if !p.isRegistered sr_command.intendedServiceName then
      ⟨.error (.ServiceNotFound sr_command.intendedServiceName), [], p⟩
    else
      match at_ p.running_services_ sr_command.intendedServiceName with
      | none => ⟨.error .out_of_range, [], p⟩
      | some intended_service =>
        let sr_response_start :=
          RESPONSE_PREFIX ++ " " ++ to_string sr_command.ruid ++ " "
        let run :=
          intended_service.handleRequestCommand actor sr_command.commandData
            intended_service.state
        let emitted :=
          Service.emitEvents p.run_context { intended_service with state := run.state } run.emitted
        let invoked := [(intended_service.name, actor, sr_command.commandData)]
        match run.outcome with
        | .ok command_result =>
          if command_result.success then
            ⟨.ok (sr_response_start ++ "OK"), invoked, p.store emitted.1 emitted.2⟩
          else
            ⟨.ok (sr_response_start ++ "KO " ++ command_result.errorMessage), invoked,
              p.store emitted.1 emitted.2⟩
        | .error what =>
          ⟨.ok (sr_response_start ++ to_string sr_command.ruid ++ " KO " ++ what), invoked,
            p.store emitted.1 emitted.2⟩

/-- Method `latestEventEmitter()`: the emitter of the top entry of the cache, which is removed.
The source asserts that the cache is not empty. -/
def latestEventEmitter (p : ServiceEventRequestProtocol σ) :
    Except Thrown (Option String) × ServiceEventRequestProtocol σ :=
  match cacheTop p.latest_se_emitters_cache_ with
  | none => (.error .assertion_failed, p)
  | some top =>
    (.ok (some top.queuedEmitter),
      { p with latest_se_emitters_cache_ := cachePop p.latest_se_emitters_cache_ })

/-- The scan loop of `pollServiceEvent`: every service that reports an event id is pushed into
the cache with that id. -/
def cacheEmitters (cache : List CachedServiceEventEmitter) :
    List (Service σ) → List CachedServiceEventEmitter
  | [] => cache
  | registered_service :: rest =>
    match registered_service.checkEvent with
    | some next_event_id => cacheEmitters (cachePush cache ⟨next_event_id, registered_service.name⟩) rest
    | none => cacheEmitters cache rest

/-- First half of `pollServiceEvent`: the choice of `latest_event_emitter` (`none` is the null
pointer).  A cache that is not empty is used as it is; an empty one is filled by a scan of the
services first. -/
def selectEmitter (p : ServiceEventRequestProtocol σ) :
    Except Thrown (Option String) × ServiceEventRequestProtocol σ :=
  if !p.latest_se_emitters_cache_.isEmpty then latestEventEmitter p
  else
    let scanned : ServiceEventRequestProtocol σ :=
      { p with
        latest_se_emitters_cache_ := cacheEmitters p.latest_se_emitters_cache_ p.running_services_ }
    if !scanned.latest_se_emitters_cache_.isEmpty then latestEventEmitter scanned
    else (.ok none, scanned)

/-- Second half of `pollServiceEvent`: when an emitter was selected its oldest event is polled
and formatted as `EVENT <SERVICE_NAME> <command_data>`.  `pollEvent()` on an empty queue, which
the source must never do, is reported as a failed assertion. -/
def pollSelected (selection : Except Thrown (Option String) × ServiceEventRequestProtocol σ) :
    EventPolling σ :=
  match selection with
  | (.error e, selected) => ⟨.error e, selected⟩
  | (.ok none, selected) => ⟨.ok none, selected⟩
  | (.ok (some latest_event_emitter), selected) =>
    match at_ selected.running_services_ latest_event_emitter with
    | none => ⟨.error .assertion_failed, selected⟩
    | some emitter =>
      match emitter.pollEvent with
      | none => ⟨.error .assertion_failed, selected⟩
      | some (event_command, polled) =>
        ⟨.ok (some (EVENT_PREFIX ++ " " ++ emitter.name ++ " " ++ event_command)),
          selected.store selected.run_context polled⟩

/-- Method `pollServiceEvent()`. -/
def pollServiceEvent (p : ServiceEventRequestProtocol σ) : EventPolling σ :=
  pollSelected (selectEmitter p)

/-- Id of the event the next `pollServiceEvent()` returns, if it returns one: the id at the front
of the queue of the emitter it selects. -/
def polledEventId (p : ServiceEventRequestProtocol σ) : Option Nat :=
  match selectEmitter p with
  | (.ok (some latest_event_emitter), selected) =>
    (at_ selected.running_services_ latest_event_emitter).bind Service.checkEvent
  | _ => none

/-- A registered service emits an event outside of any poll: `emitEvent` on the service called
`service`. -/
def emit (p : ServiceEventRequestProtocol σ) (service event_command : String) :
    ServiceEventRequestProtocol σ :=
  match at_ p.running_services_ service with
  | none => p
  | some svc =>
    p.store (Service.emitEvent p.run_context svc event_command).1
      (Service.emitEvent p.run_context svc event_command).2

/-- States of a run: the protocol is constructed over services that have not emitted yet, then
services emit and `handleServiceRequest` and `pollServiceEvent` are called in any order. -/
inductive Reachable : ServiceEventRequestProtocol σ → Prop
  | constructed (services : List (Service σ)) (run_context : ServiceContext)
      (p : ServiceEventRequestProtocol σ) :
      (∀ s ∈ services, s.events_queue_ = []) → create services run_context = .ok p → Reachable p
  | emitted (p : ServiceEventRequestProtocol σ) (service event_command : String) :
      Reachable p → Reachable (p.emit service event_command)
  | requested (p : ServiceEventRequestProtocol σ) (actor : Nat) (service_request : String) :
      Reachable p → Reachable (p.handleServiceRequest actor service_request).protocol
  | polled (p : ServiceEventRequestProtocol σ) :
      Reachable p → Reachable p.pollServiceEvent.protocol

/-- What the code keeps true of the emitters cache: registered names are distinct, no service
is cached twice, and every entry names a registered service whose `checkEvent()` reports the
cached id. -/
def CacheInvariant (p : ServiceEventRequestProtocol σ) : Prop :=
  (p.running_services_.map (fun s => s.name)).Nodup ∧
  (p.latest_se_emitters_cache_.map (fun e => e.queuedEmitter)).Nodup ∧
  ∀ e ∈ p.latest_se_emitters_cache_, ∃ s ∈ p.running_services_,
    s.name = e.queuedEmitter ∧ s.checkEvent = some e.emittedEventId

/-- A token of the SER protocol: a text that is not empty and holds no separator. -/
def isWord (s : String) : Bool :=
  !s.data.isEmpty && s.data.all (fun c => c != ' ')

/-- The Service Request command `REQUEST <RUID> <SERVICE_NAME> <command_data>`, the RUID written
in decimal. -/
def serviceRequestCommand (ruid : Nat) (service command_data : String) : String :=
  REQUEST_PREFIX ++ " " ++ to_string ruid ++ " " ++ service ++ " " ++ command_data

end ServiceEventRequestProtocol

/-! ## `ChatService` (Executor.cpp) -/

namespace ChatService

/-- Method `isAdmin(actor)`. -/
def isAdmin (actor : Nat) : Bool :=
  actor == 0

/-- Method `ChatCommandParser::isToggle()`. -/
def isToggle (chat_msg : TextProtocolParser) : Bool :=
  chat_msg.getParsedWord 0 == "/toggle"

/-- Method `ChatCommandParser::extraArgs()`. -/
def extraArgs (chat_msg : TextProtocolParser) : Bool :=
  !chat_msg.unparsedWords.data.isEmpty

/-- Method `ChatService::handleRequestCommand(actor, sr_command_data)` on the private state
`enabled_`.  The parser of one word throws `Utils::NotEnoughWords` only, which is caught. -/
def handleRequestCommand (actor : Nat) (sr_command_data : String) (enabled_ : Bool) :
    HandlerRun Bool :=
  match TextProtocolParser.create sr_command_data 1 with
  | .error _ => ⟨enabled_, [], .ok ⟨some "Message cannot be empty"⟩⟩
  | .ok chat_msg =>
    if isToggle chat_msg then
      if extraArgs chat_msg then
        ⟨enabled_, [], .ok ⟨some "Invalid arguments for /toggle: command hasn't any args"⟩⟩
      else if !isAdmin actor then
        ⟨enabled_, [], .ok ⟨some "Permission denied: you must be admin to use that command"⟩⟩
      else
        ⟨!enabled_, [if !enabled_ then "ENABLED" else "DISABLED"], .ok ⟨none⟩⟩
    else if enabled_ then
      ⟨enabled_, ["MESSAGE_FROM " ++ to_string actor ++ " " ++ sr_command_data], .ok ⟨none⟩⟩
    else
      ⟨enabled_, [], .ok ⟨some "Chat disabled by admin."⟩⟩

/-- The service `ChatService { run_context }`: named `Chat`, enabled, nothing emitted yet. -/
def service : Service Bool :=
  ⟨"Chat", handleRequestCommand, true, []⟩

end ChatService

/-! ## Services used to run the protocol on concrete inputs -/

/-- A service whose handler emits the command data it is given as an event and succeeds. -/
def relayService (name : String) : Service Bool :=
  ⟨name, fun _ sr_command_data st => ⟨st, [sr_command_data], .ok ⟨none⟩⟩, true, []⟩

/-- A service whose handler throws a `std::exception` described by `what`. -/
def throwingService (name what : String) : Service Bool :=
  ⟨name, fun _ _ st => ⟨st, [], .error what⟩, true, []⟩

/-- The protocol constructed over the relay services `A` and `B`, after `A` handled two requests
and then `B` one: `A` holds the events of ids 0 and 1 and `B` the event of id 2. -/
def relayRun : ServiceEventRequestProtocol Bool :=
  (((ServiceEventRequestProtocol.handleServiceRequest
    ⟨⟨0⟩, [relayService "A", relayService "B"], []⟩ 0 "REQUEST 1 A first"
    ).protocol.handleServiceRequest 0 "REQUEST 2 A second"
    ).protocol.handleServiceRequest 0 "REQUEST 3 B third").protocol

/-- The protocol of `Executor::run()`, constructed over the chat service alone, after the admin
toggled the chat. -/
def chatRun : ServiceEventRequestProtocol Bool :=
  (ServiceEventRequestProtocol.handleServiceRequest
    ⟨⟨0⟩, [ChatService.service], []⟩ 0 "REQUEST 1 Chat /toggle").protocol

/-! ## Sequences of calls -/

namespace ServiceEventRequestProtocol

variable {σ : Type}

/-- A call made on a constructed protocol. -/
inductive Call
  | handleServiceRequest (actor : Nat) (service_request : String)
  | pollServiceEvent
  deriving DecidableEq, Repr

/-- State left by one call, whether it returns or raises. -/
def afterCall (p : ServiceEventRequestProtocol σ) : Call → ServiceEventRequestProtocol σ
  | .handleServiceRequest actor service_request =>
    (p.handleServiceRequest actor service_request).protocol
  | .pollServiceEvent => p.pollServiceEvent.protocol

/-- State left by a sequence of calls. -/
def afterCalls (p : ServiceEventRequestProtocol σ) : List Call → ServiceEventRequestProtocol σ
  | [] => p
  | call :: rest => afterCalls (p.afterCall call) rest

/-- What the registry maps each name to: the registered services by name and behaviour, in the
order of the registry, their mutable state left out. -/
def registry (p : ServiceEventRequestProtocol σ) :
    List (String × (Nat → String → σ → HandlerRun σ)) :=
  p.running_services_.map (fun s => (s.name, s.handleRequestCommand))

/-- Number of events pending in the queues of the registered services. -/
def pendingEvents (p : ServiceEventRequestProtocol σ) : Nat :=
  (p.running_services_.map (fun s => s.events_queue_.length)).sum

end ServiceEventRequestProtocol

/-! ## `Executor` (Executor.cpp) -/

/-- Modelled from the spec: the input events of `InputEvent.cpp` as the variant `AnyInputEvent`,
whose declaration is not part of the sources at hand. -/
inductive AnyInputEvent
  | NoneEvent (actor : Nat)
  | ServiceRequestEvent (actor : Nat) (service_request : String)
  | TimerEvent (actor : Nat)
  | StopEvent (actor : Nat) (caught_signal : Nat)
  | JoinedEvent (actor : Nat) (new_actor_name : String)
  | LeftEvent (actor : Nat) (disconnection_reason : Option String)
  deriving DecidableEq, Repr

/-- A call the executor makes on its `InputOutputInterface`, in the trace of a run.
`waitForInput` records the number of events pending in the services when it is called;
`closePipelineWith` records the caught exception whose `what()` is the reason given. -/
inductive IOCall
  | waitForInput (pending : Nat)
  | replyTo (actor : Nat) (sr_response : String)
  | closePipelineWith (actor : Nat) (err : Thrown)
  | outputEvent (event : String)
  deriving DecidableEq, Repr

/-- How `Executor::run()` ends: it returns a value, an assertion of the protocol stops the
process, or the event loop was not over when the fuel of the model ran out. -/
inductive RunEnd
  | returned (done_successfully : Bool)
  | aborted
  | unfinished
  deriving DecidableEq, Repr

namespace Executor

open ServiceEventRequestProtocol

variable {σ : Type}

/-- The visitor `InputHandler` applied to an input event: the calls made on the IO interface and
the state left, or the exception that escapes.  Only `BadServiceRequest` is caught.  The visitor
has no call operator for `StopEvent`, which has no effect here. -/
def InputHandler (ser_protocol : ServiceEventRequestProtocol σ) :
    AnyInputEvent → List IOCall × Except Thrown (ServiceEventRequestProtocol σ)
  | .ServiceRequestEvent actor service_request =>
    match (ser_protocol.handleServiceRequest actor service_request).result with
    | .ok sr_command_response =>
      ([.replyTo actor sr_command_response],
        .ok (ser_protocol.handleServiceRequest actor service_request).protocol)
    | .error err =>
      if err.isBadServiceRequest then
        ([.closePipelineWith actor err],
          .ok (ser_protocol.handleServiceRequest actor service_request).protocol)
      else ([], .error err)
  | _ => ([], .ok ser_protocol)

/-- The inner loop of `Executor::run()`: events are polled and output until a poll returns
nothing.  `none` as second component means that `fuel` polls did not reach the end. -/
def pollEvents : Nat → ServiceEventRequestProtocol σ →
    List IOCall × Option (Except Thrown (ServiceEventRequestProtocol σ))
  | 0, _ => ([], none)
  | fuel + 1, ser_protocol =>
    match ser_protocol.pollServiceEvent.result with
    | .error err => ([], some (.error err))
    | .ok none => ([], some (.ok ser_protocol.pollServiceEvent.protocol))
    | .ok (some next_svc_event) =>
      (.outputEvent next_svc_event :: (pollEvents fuel ser_protocol.pollServiceEvent.protocol).1,
        (pollEvents fuel ser_protocol.pollServiceEvent.protocol).2)

/-- The main loop of `Executor::run()` over the input events the IO interface delivers, which
reports `closed()` once they are used up: an input is waited for and handled, then the events
of the services are polled, one poll more than there are pending events being enough.  A
`std::exception` that escapes the handler ends the run with `false`. -/
def mainLoop : List AnyInputEvent → ServiceEventRequestProtocol σ → List IOCall × RunEnd
  | [], _ => ([], .returned true)
  | input_event :: rest, ser_protocol =>
    match InputHandler ser_protocol input_event with
    | (handled, .error _) => (.waitForInput ser_protocol.pendingEvents :: handled, .returned false)
    | (handled, .ok after_input) =>
      match pollEvents (after_input.pendingEvents + 1) after_input with
      | (output, none) =>
        (.waitForInput ser_protocol.pendingEvents :: (handled ++ output), .unfinished)
      | (output, some (.error _)) =>
        (.waitForInput ser_protocol.pendingEvents :: (handled ++ output), .aborted)
      | (output, some (.ok after_events)) =>
        (.waitForInput ser_protocol.pendingEvents ::
            (handled ++ output ++ (mainLoop rest after_events).1),
          (mainLoop rest after_events).2)

/-- Method `Executor::run()`: the protocol is constructed over the chat service in a fresh
context, then the main loop runs.  The constructor is called outside of the `try` block; over
one service it does not raise. -/
def run (inputs : List AnyInputEvent) : List IOCall × RunEnd :=
  match ServiceEventRequestProtocol.create [ChatService.service] ⟨0⟩ with
  | .error _ => ([], .aborted)
  | .ok ser_protocol => mainLoop inputs ser_protocol

end Executor

/-- The protocol of `Executor::run()` in any state of the chat service: the chat service alone
is registered, with the flag `enabled_`, the pending events `events_queue_` and the emitters
cache given. -/
def chatProtocol (run_context : ServiceContext) (enabled_ : Bool)
    (events_queue_ : List (Nat × String)) (cache : List CachedServiceEventEmitter) :
    ServiceEventRequestProtocol Bool :=
  ⟨run_context, [{ ChatService.service with state := enabled_, events_queue_ := events_queue_ }],
    cache⟩

/-! ## Polls in sequence -/

namespace ServiceEventRequestProtocol

variable {σ : Type}

/-- The cache `pollServiceEvent()` takes its emitter from: the cache it finds when that one is
not empty, else the cache as the scan of the services fills it. -/
def usedCache (p : ServiceEventRequestProtocol σ) : List CachedServiceEventEmitter :=
  if !p.latest_se_emitters_cache_.isEmpty then p.latest_se_emitters_cache_
  else cacheEmitters p.latest_se_emitters_cache_ p.running_services_

/-- The event the next `pollServiceEvent()` returns, if it returns one: the name of the emitter
it selects with the id and the command at the front of the queue of that emitter. -/
def polledEvent (p : ServiceEventRequestProtocol σ) : Option (String × Nat × String) :=
  match selectEmitter p with
  | (.ok (some latest_event_emitter), selected) =>
    match at_ selected.running_services_ latest_event_emitter with
    | some emitter => emitter.events_queue_.head?.map (fun ev => (emitter.name, ev.1, ev.2))
    | none => none
  | _ => none

/-- The events that up to `polls` successive `pollServiceEvent()` calls return, with nothing
emitted in between. -/
def drainedEvents : Nat → ServiceEventRequestProtocol σ → List (String × Nat × String)
  | 0, _ => []
  | polls + 1, p =>
    match polledEvent p with
    | none => []
    | some ev => ev :: drainedEvents polls p.pollServiceEvent.protocol

/-- The Service Event command `EVENT <SERVICE_NAME> <command_data>` of a polled event. -/
def eventCommand (ev : String × Nat × String) : String :=
  EVENT_PREFIX ++ " " ++ ev.1 ++ " " ++ ev.2.2

/-- What happens to a protocol and its services during a run: a registered service emits an
event, or one of the two methods of the protocol is called. -/
inductive Action
  | emitEvent (service event_command : String)
  | handleServiceRequest (actor : Nat) (service_request : String)
  | pollServiceEvent
  deriving DecidableEq, Repr

/-- State left by an action. -/
def afterAction (p : ServiceEventRequestProtocol σ) : Action → ServiceEventRequestProtocol σ
  | .emitEvent service event_command => p.emit service event_command
  | .handleServiceRequest actor service_request =>
    (p.handleServiceRequest actor service_request).protocol
  | .pollServiceEvent => p.pollServiceEvent.protocol

/-- What the `pollServiceEvent()` calls of a sequence of actions return, in order. -/
def pollResults (p : ServiceEventRequestProtocol σ) :
    List Action → List (Except Thrown (Option String))
  | [] => []
  | .pollServiceEvent :: rest =>
    p.pollServiceEvent.result :: pollResults p.pollServiceEvent.protocol rest
  | .emitEvent service event_command :: rest =>
    pollResults (p.afterAction (.emitEvent service event_command)) rest
  | .handleServiceRequest actor service_request :: rest =>
    pollResults (p.afterAction (.handleServiceRequest actor service_request)) rest

/-- What the Event Context keeps true of the pending events: an id is queued in one service
only, and every queued id was given by the context already. -/
def DistinctIds (p : ServiceEventRequestProtocol σ) : Prop :=
  (∀ s1 ∈ p.running_services_, ∀ s2 ∈ p.running_services_, ∀ ev1 ∈ s1.events_queue_,
    ∀ ev2 ∈ s2.events_queue_, ev1.1 = ev2.1 → s1.name = s2.name) ∧
  ∀ s ∈ p.running_services_, ∀ ev ∈ s.events_queue_, ev.1 < p.run_context.events_count_

/-- Two states that differ by the order in which the registry and the cache are iterated. -/
def SameUpToOrder (p1 p2 : ServiceEventRequestProtocol σ) : Prop :=
  p1.run_context = p2.run_context ∧ List.Perm p1.running_services_ p2.running_services_ ∧
  List.Perm p1.latest_se_emitters_cache_ p2.latest_se_emitters_cache_

end ServiceEventRequestProtocol

end RpT

/-! # Theorems -/

/-! ## Decimal text and `std::stoull` -/

namespace RpT

theorem isdigit_digitChar (d : Nat) : isdigit (digitChar d) = true := by
  unfold digitChar
  split <;> decide

theorem to_string_digits_append (fuel : Nat) : ∀ (n : Nat) (acc : List Char),
    to_string_digits fuel n acc = to_string_digits fuel n [] ++ acc := by
  induction fuel with
  | zero => intro n acc; simp [to_string_digits]
  | succ fuel ih =>
    intro n acc
    unfold to_string_digits
    by_cases h : n < 10
    · simp [h]
    · simp only [h, if_false]
      rw [ih (n / 10) (digitChar (n % 10) :: acc), ih (n / 10) [digitChar (n % 10)]]
      simp

theorem to_string_digits_isdigit (fuel : Nat) : ∀ (n : Nat) (acc : List Char),
    (∀ c ∈ acc, isdigit c = true) → ∀ c ∈ to_string_digits fuel n acc, isdigit c = true := by
  induction fuel with
  | zero => intro n acc hacc c hc; exact hacc c (by simpa [to_string_digits] using hc)
  | succ fuel ih =>
    intro n acc hacc c hc
    unfold to_string_digits at hc
    by_cases h : n < 10
    · simp only [h, if_true, List.mem_cons] at hc
      rcases hc with rfl | hc
      · exact isdigit_digitChar n
      · exact hacc c hc
    · simp only [h, if_false] at hc
      refine ih (n / 10) _ ?_ c hc
      intro c' hc'
      rcases List.mem_cons.1 hc' with rfl | hc'
      · exact isdigit_digitChar _
      · exact hacc c' hc'

theorem to_string_digits_ne_nil (fuel n : Nat) (acc : List Char) :
    to_string_digits (fuel + 1) n acc ≠ [] := by
  rw [to_string_digits_append]
  unfold to_string_digits
  by_cases h : n < 10
  · simp [h]
  · simp only [h, if_false]
    rw [to_string_digits_append]
    simp

theorem toNat_digitChar (d : Nat) (h : d < 10) : (digitChar d).toNat - '0'.toNat = d := by
  interval_cases d <;> decide

theorem foldl_to_string_digits (fuel : Nat) : ∀ (n : Nat) (acc : List Char), n < 10 ^ fuel →
    List.foldl (fun a c => 10 * a + (c.toNat - '0'.toNat)) 0 (to_string_digits fuel n acc) =
      List.foldl (fun a c => 10 * a + (c.toNat - '0'.toNat)) n acc := by
  induction fuel with
  | zero =>
    intro n acc h
    have : n = 0 := by simpa using h
    subst this
    simp [to_string_digits]
  | succ fuel ih =>
    intro n acc h
    unfold to_string_digits
    by_cases h10 : n < 10
    · simp only [h10, if_true, List.foldl_cons]
      rw [toNat_digitChar n h10]
      simp
    · simp only [h10, if_false]
      have hlt : n / 10 < 10 ^ fuel := by
        rw [Nat.div_lt_iff_lt_mul (by norm_num)]
        calc n < 10 ^ (fuel + 1) := h
          _ = 10 ^ fuel * 10 := by ring
      rw [ih (n / 10) _ hlt]
      simp only [List.foldl_cons]
      rw [toNat_digitChar (n % 10) (Nat.mod_lt _ (by norm_num))]
      congr 1
      omega

theorem digitsValue_to_string (n : Nat) (h : n < 2 ^ 64) :
    digitsValue (to_string n).data = n := by
  unfold digitsValue to_string
  rw [foldl_to_string_digits 20 n [] (lt_trans h (by norm_num))]
  rfl

theorem isdigit_to_string (n : Nat) : ∀ c ∈ (to_string n).data, isdigit c = true :=
  to_string_digits_isdigit 20 n [] (by simp)

theorem to_string_ne_nil (n : Nat) : (to_string n).data ≠ [] :=
  to_string_digits_ne_nil 19 n []

theorem isspace_of_isdigit {c : Char} (h : isdigit c = true) : isspace c = false := by
  unfold isdigit at h
  simp only [Bool.and_eq_true, decide_eq_true_eq] at h
  unfold isspace
  simp only [Bool.or_eq_false_iff, beq_eq_false_iff_ne, ne_eq]
  refine ⟨⟨⟨⟨⟨?_, ?_⟩, ?_⟩, ?_⟩, ?_⟩, ?_⟩ <;> (rintro rfl; revert h; decide)

theorem stoullSign_of_isdigit {c : Char} (cs : List Char) (h : isdigit c = true) :
    stoullSign (c :: cs) = (false, c :: cs) := by
  unfold stoullSign
  split
  · rename_i heq
    simp only [List.cons.injEq] at heq
    obtain ⟨rfl, _⟩ := heq
    exact absurd h (by decide)
  · rename_i heq
    simp only [List.cons.injEq] at heq
    obtain ⟨rfl, _⟩ := heq
    exact absurd h (by decide)
  · rfl

theorem stoull_to_string (n : Nat) (h : n < 2 ^ 64) : stoull (to_string n).data = .value n := by
  have hd := isdigit_to_string n
  have hv := digitsValue_to_string n h
  have hne := to_string_ne_nil n
  generalize (to_string n).data = ds at hd hv hne
  cases ds with
  | nil => exact absurd rfl hne
  | cons c cs =>
    have hc : isdigit c = true := hd c (List.mem_cons_self _ _)
    have hdrop : (c :: cs).dropWhile isspace = c :: cs := by
      simp [List.dropWhile, isspace_of_isdigit hc]
    have htake : (c :: cs).takeWhile isdigit = c :: cs := by
      rw [List.takeWhile_eq_self_iff]
      exact hd
    unfold stoull
    simp only [hdrop, stoullSign_of_isdigit cs hc, htake, hv]
    have h2 : n < 18446744073709551616 := by norm_num at h; exact h
    simp [h2]

/-! ## Word splitting -/

theorem skipSeparators_space (r : List Char) : skipSeparators (' ' :: r) = skipSeparators r := by
  simp [skipSeparators, List.dropWhile_cons]

theorem skipSeparators_word (w r : List Char) (hne : w ≠ []) (hw : ∀ c ∈ w, c ≠ ' ') :
    skipSeparators (w ++ r) = w ++ r := by
  cases w with
  | nil => exact absurd rfl hne
  | cons c cs =>
    have hc : c ≠ ' ' := hw c (List.mem_cons_self _ _)
    simp [skipSeparators, List.dropWhile_cons, hc]

theorem wordOf_word (w r : List Char) (hw : ∀ c ∈ w, c ≠ ' ') :
    wordOf (w ++ ' ' :: r) = w := by
  induction w with
  | nil => simp [wordOf, List.takeWhile_cons]
  | cons c cs ih =>
    have hc : c ≠ ' ' := hw c (List.mem_cons_self _ _)
    have ih' := ih (fun x hx => hw x (List.mem_cons_of_mem _ hx))
    unfold wordOf at ih' ⊢
    simp [List.takeWhile_cons, hc, ih']

theorem afterWord_word (w r : List Char) (hw : ∀ c ∈ w, c ≠ ' ') :
    afterWord (w ++ ' ' :: r) = ' ' :: r := by
  induction w with
  | nil => simp [afterWord, List.dropWhile_cons]
  | cons c cs ih =>
    have hc : c ≠ ' ' := hw c (List.mem_cons_self _ _)
    have ih' := ih (fun x hx => hw x (List.mem_cons_of_mem _ hx))
    unfold afterWord at ih' ⊢
    simp [List.dropWhile_cons, hc, ih']

theorem parseWords_space (k : Nat) (r : List Char) : parseWords k (' ' :: r) = parseWords k r := by
  cases k with
  | zero => simp [parseWords, skipSeparators_space]
  | succ k => simp [parseWords, skipSeparators_space]

theorem parseWords_word (k : Nat) (w r : List Char) (hne : w ≠ []) (hw : ∀ c ∈ w, c ≠ ' ') :
    parseWords (k + 1) (w ++ ' ' :: r) =
      match parseWords k r with
      | none => none
      | some (words, unparsed) => some (w :: words, unparsed) := by
  have hskip := skipSeparators_word w (' ' :: r) hne hw
  have hne' : (w ++ ' ' :: r).isEmpty = false := by simp
  simp only [parseWords, hskip, hne', wordOf_word w r hw, afterWord_word w r hw, parseWords_space]
  simp

theorem parseWords_three (w0 w1 w2 payload : List Char)
    (h0 : w0 ≠ [] ∧ ∀ c ∈ w0, c ≠ ' ') (h1 : w1 ≠ [] ∧ ∀ c ∈ w1, c ≠ ' ')
    (h2 : w2 ≠ [] ∧ ∀ c ∈ w2, c ≠ ' ') :
    parseWords 3 (w0 ++ ' ' :: (w1 ++ ' ' :: (w2 ++ ' ' :: payload))) =
      some ([w0, w1, w2], skipSeparators payload) := by
  rw [parseWords_word 2 w0 _ h0.1 h0.2, parseWords_word 1 w1 _ h1.1 h1.2,
    parseWords_word 0 w2 _ h2.1 h2.2]
  simp [parseWords]

theorem length_afterWord_skipSeparators (cs : List Char) (h : (skipSeparators cs).isEmpty = false) :
    (afterWord (skipSeparators cs)).length < cs.length := by
  have h1 : (skipSeparators cs).length ≤ cs.length := by
    unfold skipSeparators
    exact (List.dropWhile_sublist _).length_le
  cases hs : skipSeparators cs with
  | nil => simp [hs] at h
  | cons c rest =>
    have hc : (c != ' ') = true := by
      have := List.head_dropWhile_not (fun c => c == ' ') cs
        (by unfold skipSeparators at hs; simp [hs])
      unfold skipSeparators at hs
      simp only [hs, List.head_cons] at this
      simpa using this
    have h2 : (afterWord (c :: rest)).length ≤ rest.length := by
      unfold afterWord
      simp only [List.dropWhile_cons, hc, if_true]
      exact (List.dropWhile_sublist _).length_le
    rw [hs] at h1
    simp only [List.length_cons] at h1
    omega

theorem parseWords_eq_none_iff (k : Nat) : ∀ (fuel : Nat) (cs : List Char), cs.length ≤ fuel →
    (parseWords k cs = none ↔ (tokensAux fuel cs).length < k) := by
  induction k with
  | zero => intro fuel cs _; simp [parseWords]
  | succ k ih =>
    intro fuel cs hfuel
    by_cases hs : (skipSeparators cs).isEmpty = true
    · have : tokensAux fuel cs = [] := by
        cases fuel with
        | zero => rfl
        | succ fuel => simp [tokensAux, hs]
      simp [parseWords, hs, this]
    · have hs' : (skipSeparators cs).isEmpty = false := by simpa using hs
      have hlen := length_afterWord_skipSeparators cs hs'
      cases fuel with
      | zero => omega
      | succ fuel =>
        have ih' := ih fuel (afterWord (skipSeparators cs)) (by omega)
        simp only [parseWords, hs', tokensAux, Bool.false_eq_true, if_false, List.length_cons,
          Nat.succ_lt_succ_iff]
        rw [← ih']
        cases parseWords k (afterWord (skipSeparators cs)) <;> simp

theorem parseWords_eq_some (k : Nat) : ∀ (fuel : Nat) (cs : List Char) (words unparsed : List _),
    cs.length ≤ fuel → parseWords k cs = some (words, unparsed) →
    (tokensAux fuel cs).take k = words := by
  induction k with
  | zero => intro fuel cs words unparsed _ h; simp [parseWords] at h; simp [h.1]
  | succ k ih =>
    intro fuel cs words unparsed hfuel h
    by_cases hs : (skipSeparators cs).isEmpty = true
    · simp [parseWords, hs] at h
    · have hs' : (skipSeparators cs).isEmpty = false := by simpa using hs
      have hlen := length_afterWord_skipSeparators cs hs'
      cases fuel with
      | zero => omega
      | succ fuel =>
        simp only [parseWords, hs', Bool.false_eq_true, if_false] at h
        cases hp : parseWords k (afterWord (skipSeparators cs)) with
        | none => simp [hp] at h
        | some r =>
          obtain ⟨ws, u⟩ := r
          simp only [hp, Option.some.injEq, Prod.mk.injEq] at h
          have ih' := ih fuel (afterWord (skipSeparators cs)) ws u (by omega) hp
          simp only [tokensAux, hs', Bool.false_eq_true, if_false, List.take_succ_cons, ih']
          exact h.1

end RpT

/-! ## Parsing of a well-formed request -/

namespace RpT
namespace ServiceEventRequestProtocol
variable {σ : Type}

theorem isWord_iff (s : String) : isWord s = true ↔ s.data ≠ [] ∧ ∀ c ∈ s.data, c ≠ ' ' := by
  unfold isWord
  cases s.data <;> simp

theorem isWord_to_string (n : Nat) : isWord (to_string n) = true := by
  rw [isWord_iff]
  refine ⟨to_string_ne_nil n, ?_⟩
  intro c hc
  have := isdigit_to_string n c hc
  rintro rfl
  exact absurd this (by decide)

theorem data_serviceRequestCommand (n : Nat) (service command_data : String) :
    (serviceRequestCommand n service command_data).data =
      REQUEST_PREFIX.data ++ ' ' :: ((to_string n).data ++ ' ' :: (service.data ++ ' ' ::
        command_data.data)) := by
  simp [serviceRequestCommand, String.data_append]

theorem create_serviceRequestCommand (n : Nat) (service command_data : String)
    (hS : isWord service = true) :
    TextProtocolParser.create (serviceRequestCommand n service command_data) 3 =
      .ok ⟨[REQUEST_PREFIX, to_string n, service], String.mk (skipSeparators command_data.data)⟩ := by
  unfold TextProtocolParser.create
  rw [data_serviceRequestCommand,
    parseWords_three _ _ _ _ ((isWord_iff _).1 (by decide)) ((isWord_iff _).1 (isWord_to_string n))
      ((isWord_iff _).1 hS)]
  rfl

theorem parseServiceRequest_serviceRequestCommand (n : Nat) (service command_data : String)
    (hn : n < 2 ^ 64) (hS : isWord service = true) :
    parseServiceRequest (serviceRequestCommand n service command_data) =
      .ok ⟨⟨[REQUEST_PREFIX, to_string n, service],
        String.mk (skipSeparators command_data.data)⟩, n⟩ := by
  unfold parseServiceRequest ServiceRequestCommandParser.create
  rw [create_serviceRequestCommand n service command_data hS]
  have : stoull (TextProtocolParser.getParsedWord
      ⟨[REQUEST_PREFIX, to_string n, service], String.mk (skipSeparators command_data.data)⟩ 1).data
      = .value n := stoull_to_string n hn
  simp only [this]
  simp [ServiceRequestCommandParser.isValidRequest, TextProtocolParser.getParsedWord]

/-! ## Responses of `handleServiceRequest` -/

theorem exists_at_of_isRegistered (p : ServiceEventRequestProtocol σ) (service : String)
    (h : p.isRegistered service = true) : ∃ svc, at_ p.running_services_ service = some svc := by
  unfold isRegistered count at h
  have hpos : 0 < List.countP (fun s : Service σ => s.name == service) p.running_services_ := by
    have := beq_iff_eq.1 h
    omega
  obtain ⟨svc, hmem, hsvc⟩ := List.countP_pos_iff.1 hpos
  cases hf : at_ p.running_services_ service with
  | some svc' => exact ⟨svc', rfl⟩
  | none =>
    unfold at_ at hf
    have := List.find?_eq_none.1 hf svc hmem
    exact absurd hsvc this

theorem result_handleServiceRequest (p : ServiceEventRequestProtocol σ) (actor : Nat)
    (service_request : String) (q : ServiceRequestCommandParser) (svc : Service σ)
    (hparse : parseServiceRequest service_request = .ok q)
    (hreg : p.isRegistered q.intendedServiceName = true)
    (hat : at_ p.running_services_ q.intendedServiceName = some svc) :
    (p.handleServiceRequest actor service_request).result =
      match (svc.handleRequestCommand actor q.commandData svc.state).outcome with
      | .ok command_result =>
        if command_result.success then
          .ok (RESPONSE_PREFIX ++ " " ++ to_string q.ruid ++ " " ++ "OK")
        else
          .ok (RESPONSE_PREFIX ++ " " ++ to_string q.ruid ++ " " ++ "KO " ++
            command_result.errorMessage)
      | .error what =>
        .ok (RESPONSE_PREFIX ++ " " ++ to_string q.ruid ++ " " ++ to_string q.ruid ++ " KO " ++
          what) := by
  unfold handleServiceRequest
  simp only [hparse, hreg, hat, Bool.not_true, Bool.false_eq_true, if_false]
  cases (svc.handleRequestCommand actor q.commandData svc.state).outcome with
  | error what => rfl
  | ok command_result =>
    by_cases hs : command_result.success = true <;> simp [hs]

/-- C3: a well-formed request `REQUEST <n> <S> <p>` (n below 2^64 written in decimal, S a
registered service name that is one token) is answered `RESPONSE <n> OK` when the handler of S
returns success and `RESPONSE <n> KO <message>` when it returns a failure with that message. -/
theorem handleServiceRequest_response (p : ServiceEventRequestProtocol σ) (actor n : Nat)
    (S payload : String) (svc : Service σ) (hn : n < 2 ^ 64) (hS : isWord S = true)
    (hreg : p.isRegistered S = true) (hat : at_ p.running_services_ S = some svc) :
    ((svc.handleRequestCommand actor (String.mk (skipSeparators payload.data)) svc.state).outcome
        = .ok ⟨none⟩ →
      (p.handleServiceRequest actor (serviceRequestCommand n S payload)).result =
        .ok ("RESPONSE " ++ to_string n ++ " OK")) ∧
    (∀ message : String,
      (svc.handleRequestCommand actor (String.mk (skipSeparators payload.data)) svc.state).outcome
        = .ok ⟨some message⟩ →
      (p.handleServiceRequest actor (serviceRequestCommand n S payload)).result =
        .ok ("RESPONSE " ++ to_string n ++ " KO " ++ message)) := by
  have hparse := parseServiceRequest_serviceRequestCommand n S payload hn hS
  have hres := result_handleServiceRequest p actor _ _ svc hparse hreg hat
  constructor
  · intro hok
    rw [hres]
    simp only [ServiceRequestCommandParser.commandData, TextProtocolParser.unparsedWords, hok]
    simp [HandlingResult.success, ServiceRequestCommandParser.ruid, RESPONSE_PREFIX,
      String.append_assoc]
  · intro message hko
    rw [hres]
    simp only [ServiceRequestCommandParser.commandData, TextProtocolParser.unparsedWords, hko]
    simp [HandlingResult.success, HandlingResult.errorMessage, ServiceRequestCommandParser.ruid,
      RESPONSE_PREFIX, String.append_assoc]

/-- C3, on the request `REQUEST 42 Chat hello` sent to the chat service. -/
theorem handleServiceRequest_response_witness :
    ((⟨⟨0⟩, [ChatService.service], []⟩ : ServiceEventRequestProtocol Bool).handleServiceRequest 7
        "REQUEST 42 Chat hello").result = .ok "RESPONSE 42 OK" :=
  (handleServiceRequest_response ⟨⟨0⟩, [ChatService.service], []⟩ 7 42 "Chat" "hello"
    ChatService.service (by decide) (by decide) (by decide) rfl).1 (by decide)

/-- C4: on the request `REQUEST 42 Faulty x`, whose handler throws an exception described by
`boom`, the response is `RESPONSE 42 42 KO boom`: the RUID is written twice, so it is not the
failure response `RESPONSE 42 KO boom`. -/
theorem handleServiceRequest_fault_repeats_ruid :
    ((⟨⟨0⟩, [throwingService "Faulty" "boom"], []⟩ :
        ServiceEventRequestProtocol Bool).handleServiceRequest 7 "REQUEST 42 Faulty x").result
      = .ok "RESPONSE 42 42 KO boom" ∧
    ((⟨⟨0⟩, [throwingService "Faulty" "boom"], []⟩ :
        ServiceEventRequestProtocol Bool).handleServiceRequest 7 "REQUEST 42 Faulty x").result
      ≠ .ok "RESPONSE 42 KO boom" := by
  decide

/-- C5: a request that parses and names a registered service never raises; whatever the handler
does, the response starts with `RESPONSE `, the decimal RUID of the request and a space. -/
theorem handleServiceRequest_never_raises (p : ServiceEventRequestProtocol σ) (actor : Nat)
    (service_request : String) (q : ServiceRequestCommandParser)
    (hparse : parseServiceRequest service_request = .ok q)
    (hreg : p.isRegistered q.intendedServiceName = true) :
    ∃ rest : String, (p.handleServiceRequest actor service_request).result =
      .ok ("RESPONSE " ++ to_string q.ruid ++ " " ++ rest) := by
  obtain ⟨svc, hat⟩ := exists_at_of_isRegistered p _ hreg
  rw [result_handleServiceRequest p actor service_request q svc hparse hreg hat]
  cases (svc.handleRequestCommand actor q.commandData svc.state).outcome with
  | error what =>
    exact ⟨to_string q.ruid ++ " KO " ++ what, by simp [RESPONSE_PREFIX, String.append_assoc]⟩
  | ok command_result =>
    by_cases hs : command_result.success = true
    · exact ⟨"OK", by simp [hs, RESPONSE_PREFIX]⟩
    · refine ⟨"KO " ++ command_result.errorMessage, ?_⟩
      simp only [hs, Bool.false_eq_true, if_false, String.append_assoc]
      rfl

/-- C5, on a request whose handler throws. -/
theorem handleServiceRequest_never_raises_witness :
    ∃ rest : String,
      ((⟨⟨0⟩, [throwingService "Faulty" "boom"], []⟩ :
        ServiceEventRequestProtocol Bool).handleServiceRequest 7 "REQUEST 42 Faulty x").result
      = .ok ("RESPONSE " ++ to_string 42 ++ " " ++ rest) :=
  handleServiceRequest_never_raises ⟨⟨0⟩, [throwingService "Faulty" "boom"], []⟩ 7
    "REQUEST 42 Faulty x" ⟨⟨["REQUEST", "42", "Faulty"], "x"⟩, 42⟩ (by decide) (by decide)

/-! ## Requests that are refused -/

theorem create_of_few_tokens (command : String) (k : Nat) (h : (tokens command).length < k) :
    TextProtocolParser.create command k = .error .NotEnoughWords := by
  unfold tokens at h
  rw [List.length_map] at h
  have := (parseWords_eq_none_iff k command.data.length command.data (le_refl _)).2 h
  simp [TextProtocolParser.create, this]

theorem create_of_tokens (command : String) (k : Nat) (h : k ≤ (tokens command).length) :
    ∃ unparsed : String,
      TextProtocolParser.create command k = .ok ⟨(tokens command).take k, unparsed⟩ := by
  unfold tokens at h ⊢
  rw [List.length_map] at h
  cases hp : parseWords k command.data with
  | none =>
    have := (parseWords_eq_none_iff k command.data.length command.data (le_refl _)).1 hp
    omega
  | some r =>
    obtain ⟨words, unparsed⟩ := r
    have := parseWords_eq_some k command.data.length command.data words unparsed (le_refl _) hp
    refine ⟨String.mk unparsed, ?_⟩
    simp [TextProtocolParser.create, hp, ← this, List.map_take]

/-- C6: a request of at least three tokens with the marker `REQUEST` and a RUID that converts,
whose third token is not a registered name, raises `ServiceNotFound` for that name; no handler
is invoked and the state of the protocol and of the services is left as it was. -/
theorem handleServiceRequest_unknown_service (p : ServiceEventRequestProtocol σ) (actor n : Nat)
    (service_request ruid_word name : String) (more : List String)
    (htokens : tokens service_request = REQUEST_PREFIX :: ruid_word :: name :: more)
    (hruid : stoull ruid_word.data = .value n)
    (hreg : p.isRegistered name = false) :
    (p.handleServiceRequest actor service_request).result = .error (.ServiceNotFound name) ∧
    (p.handleServiceRequest actor service_request).invoked = [] ∧
    (p.handleServiceRequest actor service_request).protocol = p := by
  obtain ⟨unparsed, hcreate⟩ := create_of_tokens service_request 3 (by simp [htokens])
  simp only [htokens, List.take_succ_cons, List.take_zero] at hcreate
  have hparse : parseServiceRequest service_request =
      .ok ⟨⟨[REQUEST_PREFIX, ruid_word, name], unparsed⟩, n⟩ := by
    unfold parseServiceRequest ServiceRequestCommandParser.create
    simp only [hcreate]
    have : stoull (TextProtocolParser.getParsedWord
        ⟨[REQUEST_PREFIX, ruid_word, name], unparsed⟩ 1).data = .value n := hruid
    simp only [this]
    simp [ServiceRequestCommandParser.isValidRequest, TextProtocolParser.getParsedWord]
  have hname : ServiceRequestCommandParser.intendedServiceName
      ⟨⟨[REQUEST_PREFIX, ruid_word, name], unparsed⟩, n⟩ = name := rfl
  unfold handleServiceRequest
  simp [hparse, hname, hreg]

/-- C6, on the request `REQUEST 7 Foo x` when only `Chat` is registered. -/
theorem handleServiceRequest_unknown_service_witness :
    ((⟨⟨0⟩, [ChatService.service], []⟩ : ServiceEventRequestProtocol Bool).handleServiceRequest 3
        "REQUEST 7 Foo x").result = .error (.ServiceNotFound "Foo") :=
  (handleServiceRequest_unknown_service ⟨⟨0⟩, [ChatService.service], []⟩ 3 7 "REQUEST 7 Foo x"
    "7" "Foo" ["x"] (by decide) (by decide) (by decide)).1

/-- C7: a command of fewer than three tokens raises the format error `InvalidRequestFormat`; no
handler is invoked and the state is left as it was. -/
theorem handleServiceRequest_not_enough_words (p : ServiceEventRequestProtocol σ) (actor : Nat)
    (service_request : String) (hfew : (tokens service_request).length < 3) :
    (p.handleServiceRequest actor service_request).result =
      .error (.InvalidRequestFormat service_request
        "Expected SER command prefix and request service name") ∧
    (Thrown.InvalidRequestFormat service_request
        "Expected SER command prefix and request service name").isBadServiceRequest = true ∧
    (p.handleServiceRequest actor service_request).invoked = [] ∧
    (p.handleServiceRequest actor service_request).protocol = p := by
  have hcreate := create_of_few_tokens service_request 3 hfew
  have hparse : parseServiceRequest service_request =
      .error (.InvalidRequestFormat service_request
        "Expected SER command prefix and request service name") := by
    unfold parseServiceRequest ServiceRequestCommandParser.create
    simp only [hcreate]
  unfold handleServiceRequest
  simp [hparse, Thrown.isBadServiceRequest]

/-- C7, on the command `REQUEST 1` sent while `Chat` is registered. -/
theorem handleServiceRequest_not_enough_words_witness :
    ((⟨⟨0⟩, [ChatService.service], []⟩ : ServiceEventRequestProtocol Bool).handleServiceRequest 3
        "REQUEST 1").result =
      .error (.InvalidRequestFormat "REQUEST 1"
        "Expected SER command prefix and request service name") :=
  (handleServiceRequest_not_enough_words ⟨⟨0⟩, [ChatService.service], []⟩ 3 "REQUEST 1"
    (by decide)).1

/-- C8: second tokens that are no unsigned 64-bit integer and yet raise no format error.
`12abc` is taken as RUID 12 and `-1` as RUID 2^64 - 1, the handler being invoked in both cases;
`18446744073709551616` (2^64) makes `std::out_of_range` escape, which is no
`BadServiceRequest`.  Only a token without leading digit, such as `abc`, raises the format
error. -/
theorem handleServiceRequest_ruid_not_rejected :
    ((⟨⟨0⟩, [ChatService.service], []⟩ : ServiceEventRequestProtocol Bool).handleServiceRequest 3
        "REQUEST 12abc Chat hello").result = .ok "RESPONSE 12 OK" ∧
    ((⟨⟨0⟩, [ChatService.service], []⟩ : ServiceEventRequestProtocol Bool).handleServiceRequest 3
        "REQUEST 12abc Chat hello").invoked = [("Chat", 3, "hello")] ∧
    ((⟨⟨0⟩, [ChatService.service], []⟩ : ServiceEventRequestProtocol Bool).handleServiceRequest 3
        "REQUEST -1 Chat hello").result = .ok "RESPONSE 18446744073709551615 OK" ∧
    ((⟨⟨0⟩, [ChatService.service], []⟩ : ServiceEventRequestProtocol Bool).handleServiceRequest 3
        "REQUEST 18446744073709551616 Chat hello").result = .error .out_of_range ∧
    Thrown.out_of_range.isBadServiceRequest = false ∧
    ((⟨⟨0⟩, [ChatService.service], []⟩ : ServiceEventRequestProtocol Bool).handleServiceRequest 3
        "REQUEST abc Chat hello").result =
      .error (.BadServiceRequest "Request UID must be an unsigned integer of 64 bits") := by
  decide

/-- C9: the command `FOO 18446744073709551616 Chat hello` has three tokens and a first token
other than `REQUEST`, yet what escapes is `std::out_of_range`, not a format error: the RUID is
converted before the marker is looked at.  With a RUID that converts, `FOO 1 Chat hello`, the
format error is raised. -/
theorem handleServiceRequest_marker_after_ruid :
    ((⟨⟨0⟩, [ChatService.service], []⟩ : ServiceEventRequestProtocol Bool).handleServiceRequest 3
        "FOO 18446744073709551616 Chat hello").result = .error .out_of_range ∧
    Thrown.out_of_range.isBadServiceRequest = false ∧
    ((⟨⟨0⟩, [ChatService.service], []⟩ : ServiceEventRequestProtocol Bool).handleServiceRequest 3
        "FOO 1 Chat hello").result =
      .error (.InvalidRequestFormat "FOO 1 Chat hello"
        "Expected SER command prefix \"REQUEST\" for SR command") := by
  decide

/-! ## Construction -/

theorem count_eq_count_names (services : List (Service σ)) (service : String) :
    count services service = (services.map (fun s => s.name)).count service := by
  unfold count
  rw [List.count, List.countP_map]
  rfl

theorem isRegistered_iff_mem (p : ServiceEventRequestProtocol σ) (service : String)
    (hnodup : (p.running_services_.map (fun s => s.name)).Nodup) :
    p.isRegistered service = true ↔ service ∈ p.running_services_.map (fun s => s.name) := by
  unfold isRegistered
  rw [count_eq_count_names, List.count_eq_of_nodup hnodup]
  by_cases h : service ∈ p.running_services_.map (fun s => s.name) <;> simp [h]

theorem registerServices_spec (rest : List (Service σ)) :
    ∀ p : ServiceEventRequestProtocol σ, (p.running_services_.map (fun s => s.name)).Nodup →
    (((p.running_services_ ++ rest).map (fun s => s.name)).Nodup →
      registerServices p rest =
        .ok { p with running_services_ := p.running_services_ ++ rest }) ∧
    (¬ ((p.running_services_ ++ rest).map (fun s => s.name)).Nodup →
      ∃ name, registerServices p rest = .error (.ServiceNameAlreadyRegistered name)) := by
  induction rest with
  | nil =>
    intro p hp
    refine ⟨fun _ => by simp [registerServices], fun h => absurd (by simpa using hp) h⟩
  | cons s rest ih =>
    intro p hp
    have hreg := isRegistered_iff_mem p s.name hp
    by_cases hmem : s.name ∈ p.running_services_.map (fun s => s.name)
    · have hr : p.isRegistered s.name = true := hreg.2 hmem
      refine ⟨fun hnd => ?_, fun _ => ⟨s.name, by simp [registerServices, hr]⟩⟩
      exfalso
      rw [List.map_append, List.map_cons] at hnd
      have := (List.nodup_append.1 hnd).2.2
      exact this hmem (List.mem_cons_self _ _)
    · have hr : p.isRegistered s.name = false := by
        cases h : p.isRegistered s.name with
        | false => rfl
        | true => exact absurd (hreg.1 h) hmem
      have hp' : (({ p with running_services_ := p.running_services_ ++ [s] } :
          ServiceEventRequestProtocol σ).running_services_.map (fun s => s.name)).Nodup := by
        simp only [List.map_append, List.map_cons, List.map_nil]
        rw [List.nodup_append]
        refine ⟨hp, by simp, ?_⟩
        intro a ha hb
        simp only [List.mem_singleton] at hb
        exact hmem (hb ▸ ha)
      have ih' := ih _ hp'
      simp only [List.append_assoc, List.singleton_append] at ih'
      simp only [registerServices, hr, Bool.false_eq_true, if_false]
      exact ih'

theorem create_spec (services : List (Service σ)) (run_context : ServiceContext) :
    ((services.map (fun s => s.name)).Nodup →
      create services run_context = .ok ⟨run_context, services, []⟩) ∧
    (¬ (services.map (fun s => s.name)).Nodup →
      ∃ name, create services run_context = .error (.ServiceNameAlreadyRegistered name)) := by
  have := registerServices_spec services ⟨run_context, [], []⟩ (by simp)
  simpa [create] using this

/-- C10: the constructor raises `ServiceNameAlreadyRegistered` exactly when a name occurs twice
among the names of the listed services; it then produces no protocol object, and otherwise
produces the one that holds the listed services. -/
theorem create_raises_iff (services : List (Service σ)) (run_context : ServiceContext) :
    ((∃ name, create services run_context = .error (.ServiceNameAlreadyRegistered name)) ↔
      ¬ (services.map (fun s => s.name)).Nodup) ∧
    ((∃ name, create services run_context = .error (.ServiceNameAlreadyRegistered name)) →
      ∀ p, create services run_context ≠ .ok p) ∧
    ((services.map (fun s => s.name)).Nodup →
      create services run_context = .ok ⟨run_context, services, []⟩) := by
  have hspec := create_spec services run_context
  refine ⟨⟨?_, hspec.2⟩, ?_, hspec.1⟩
  · rintro ⟨name, hname⟩ hnodup
    rw [hspec.1 hnodup] at hname
    exact absurd hname (by simp)
  · rintro ⟨name, hname⟩ p hp
    rw [hname] at hp
    exact absurd hp (by simp)

/-- C10, on two services named `Chat`. -/
theorem create_raises_iff_witness :
    ∃ name, create [ChatService.service, ChatService.service] ⟨0⟩ =
      .error (.ServiceNameAlreadyRegistered name) :=
  (create_raises_iff [ChatService.service, ChatService.service] ⟨0⟩).1.2 (by decide)

/-! ## The emitters cache -/

theorem names_store (p : ServiceEventRequestProtocol σ) (ctx : ServiceContext) (svc : Service σ) :
    (p.store ctx svc).running_services_.map (fun s => s.name) =
      p.running_services_.map (fun s => s.name) := by
  unfold store
  simp only [List.map_map]
  apply List.map_congr_left
  intro s _
  by_cases h : s.name = svc.name <;> simp [h]

theorem cache_store (p : ServiceEventRequestProtocol σ) (ctx : ServiceContext) (svc : Service σ) :
    (p.store ctx svc).latest_se_emitters_cache_ = p.latest_se_emitters_cache_ := rfl

theorem mem_store (p : ServiceEventRequestProtocol σ) (ctx : ServiceContext) (svc s : Service σ)
    (h : s ∈ p.running_services_) :
    (if s.name == svc.name then svc else s) ∈ (p.store ctx svc).running_services_ := by
  unfold store
  exact List.mem_map_of_mem (fun s => if s.name == svc.name then svc else s) h

theorem mem_store_iff (p : ServiceEventRequestProtocol σ) (ctx : ServiceContext)
    (svc s' : Service σ) :
    s' ∈ (p.store ctx svc).running_services_ ↔
      ∃ s ∈ p.running_services_, (if s.name == svc.name then svc else s) = s' := by
  unfold store
  simp [List.mem_map]

theorem at_eq_some (services : List (Service σ)) (service : String) (svc : Service σ)
    (h : at_ services service = some svc) : svc ∈ services ∧ svc.name = service := by
  unfold at_ at h
  exact ⟨List.mem_of_find?_eq_some h, by simpa using List.find?_some h⟩

theorem at_of_mem (services : List (Service σ)) (svc : Service σ)
    (hnodup : (services.map (fun s => s.name)).Nodup) (h : svc ∈ services) :
    at_ services svc.name = some svc := by
  cases hf : at_ services svc.name with
  | none =>
    unfold at_ at hf
    have := List.find?_eq_none.1 hf svc h
    simp at this
  | some svc' =>
    obtain ⟨hmem, hname⟩ := at_eq_some services _ svc' hf
    rw [List.inj_on_of_nodup_map hnodup hmem h hname]

theorem foldl_top_mem (es : List CachedServiceEventEmitter) : ∀ e : CachedServiceEventEmitter,
    es.foldl (fun best x => if best.lt x then x else best) e ∈ e :: es := by
  induction es with
  | nil => intro e; simp
  | cons x xs ih =>
    intro e
    simp only [List.foldl_cons]
    by_cases h : e.lt x = true
    · simp only [h, if_true]
      exact List.mem_cons_of_mem _ (ih x)
    · have h' : e.lt x = false := by simpa using h
      simp only [h', Bool.false_eq_true, if_false]
      rcases List.mem_cons.1 (ih e) with h1 | h1
      · rw [h1]; exact List.mem_cons_self _ _
      · exact List.mem_cons_of_mem _ (List.mem_cons_of_mem _ h1)

theorem cacheTop_mem (cache : List CachedServiceEventEmitter) (e : CachedServiceEventEmitter)
    (h : cacheTop cache = some e) : e ∈ cache := by
  cases cache with
  | nil => simp [cacheTop] at h
  | cons x xs =>
    simp only [cacheTop, Option.some.injEq] at h
    rw [← h]
    exact foldl_top_mem xs x

theorem cacheTop_of_ne_nil (cache : List CachedServiceEventEmitter) (h : cache ≠ []) :
    ∃ e, cacheTop cache = some e := by
  cases cache with
  | nil => exact absurd rfl h
  | cons x xs => exact ⟨_, rfl⟩

theorem checkEvent_eq_none_iff (s : Service σ) : s.checkEvent = none ↔ s.events_queue_ = [] := by
  unfold Service.checkEvent
  cases s.events_queue_ <;> simp

theorem store_entries (p : ServiceEventRequestProtocol σ) (ctx : ServiceContext) (svc : Service σ)
    (cache : List CachedServiceEventEmitter)
    (h : ∀ e ∈ cache, ∃ s ∈ p.running_services_, s.name = e.queuedEmitter ∧
      s.checkEvent = some e.emittedEventId ∧
      (s.name = svc.name → svc.checkEvent = some e.emittedEventId)) :
    ∀ e ∈ cache, ∃ s ∈ (p.store ctx svc).running_services_, s.name = e.queuedEmitter ∧
      s.checkEvent = some e.emittedEventId := by
  intro e he
  obtain ⟨s, hs, hname, hcheck, hsvc⟩ := h e he
  have hmem := mem_store p ctx svc s hs
  by_cases hn : s.name = svc.name
  · simp only [hn, beq_self_eq_true, if_true] at hmem
    exact ⟨svc, hmem, by rw [← hn, hname], hsvc hn⟩
  · have : (s.name == svc.name) = false := by simpa using hn
    simp only [this, Bool.false_eq_true, if_false] at hmem
    exact ⟨s, hmem, hname, hcheck⟩

theorem pollSelected_latestEventEmitter (q : ServiceEventRequestProtocol σ)
    (hinv : CacheInvariant q) (hne : q.latest_se_emitters_cache_ ≠ []) :
    (∃ text, (pollSelected (latestEventEmitter q)).result = .ok (some text)) ∧
    CacheInvariant (pollSelected (latestEventEmitter q)).protocol := by
  obtain ⟨hnames, hcache, hentries⟩ := hinv
  obtain ⟨top, htop⟩ := cacheTop_of_ne_nil _ hne
  have htopmem := cacheTop_mem _ _ htop
  obtain ⟨s, hs, hsname, hscheck⟩ := hentries top htopmem
  have hat : at_ q.running_services_ top.queuedEmitter = some s := by
    rw [← hsname]; exact at_of_mem _ s hnames hs
  have hq : ∃ id event_command rest, s.events_queue_ = (id, event_command) :: rest := by
    cases hqueue : s.events_queue_ with
    | nil => simp [Service.checkEvent, hqueue] at hscheck
    | cons ev rest => exact ⟨ev.1, ev.2, rest, rfl⟩
  obtain ⟨id, event_command, rest, hqueue⟩ := hq
  have hpoll : s.pollEvent = some (event_command, { s with events_queue_ := rest }) := by
    simp [Service.pollEvent, hqueue]
  have hsel : latestEventEmitter q = (.ok (some top.queuedEmitter),
      { q with latest_se_emitters_cache_ := q.latest_se_emitters_cache_.erase top }) := by
    simp [latestEventEmitter, htop, cachePop]
  rw [hsel]
  simp only [pollSelected, hat, hpoll]
  refine ⟨⟨_, rfl⟩, ?_, ?_, ?_⟩
  · rw [names_store]; exact hnames
  · rw [cache_store]
    exact hcache.sublist ((List.erase_sublist top _).map _)
  · rw [cache_store]
    apply store_entries
    intro e he
    have hnd : q.latest_se_emitters_cache_.Nodup := List.Nodup.of_map _ hcache
    obtain ⟨hne', hemem⟩ := (List.Nodup.mem_erase_iff hnd).1 he
    obtain ⟨s1, hs1, hs1name, hs1check⟩ := hentries e hemem
    refine ⟨s1, hs1, hs1name, hs1check, ?_⟩
    intro hsame
    exfalso
    apply hne'
    apply List.inj_on_of_nodup_map hcache hemem htopmem
    show e.queuedEmitter = top.queuedEmitter
    rw [← hs1name, ← hsname]
    exact hsame

theorem cacheEmitters_eq (services : List (Service σ)) :
    ∀ cache : List CachedServiceEventEmitter, cacheEmitters cache services =
      cache ++ services.filterMap
        (fun s => s.checkEvent.map (fun id => (⟨id, s.name⟩ : CachedServiceEventEmitter))) := by
  induction services with
  | nil => intro cache; simp [cacheEmitters]
  | cons s rest ih =>
    intro cache
    unfold cacheEmitters
    cases hc : s.checkEvent with
    | none => simp [ih, List.filterMap_cons, hc]
    | some id => simp [ih, List.filterMap_cons, hc, cachePush]

theorem scanned_names_sublist (services : List (Service σ)) :
    List.Sublist
      ((services.filterMap (fun s => s.checkEvent.map
        (fun id => (⟨id, s.name⟩ : CachedServiceEventEmitter)))).map (fun e => e.queuedEmitter))
      (services.map (fun s => s.name)) := by
  induction services with
  | nil => simp
  | cons s rest ih =>
    cases hc : s.checkEvent with
    | none =>
      simp only [List.filterMap_cons, hc, Option.map_none', List.map_cons]
      exact ih.cons _
    | some id =>
      simp only [List.filterMap_cons, hc, Option.map_some', List.map_cons]
      exact ih.cons₂ _

theorem scan_invariant (p : ServiceEventRequestProtocol σ) (hinv : CacheInvariant p)
    (hempty : p.latest_se_emitters_cache_ = []) :
    CacheInvariant { p with
      latest_se_emitters_cache_ :=
        cacheEmitters p.latest_se_emitters_cache_ p.running_services_ } := by
  obtain ⟨hnames, _, _⟩ := hinv
  refine ⟨hnames, ?_, ?_⟩
  · simp only [hempty, cacheEmitters_eq, List.nil_append]
    exact hnames.sublist (scanned_names_sublist _)
  · intro e he
    simp only [hempty, cacheEmitters_eq, List.nil_append, List.mem_filterMap] at he
    obtain ⟨s, hs, hse⟩ := he
    cases hc : s.checkEvent with
    | none => simp [hc] at hse
    | some id =>
      simp only [hc, Option.map_some', Option.some.injEq] at hse
      subst hse
      exact ⟨s, hs, rfl, hc⟩

theorem scan_eq_nil_iff (services : List (Service σ)) :
    cacheEmitters [] services = [] ↔ ∀ s ∈ services, s.events_queue_ = [] := by
  rw [cacheEmitters_eq, List.nil_append, List.filterMap_eq_nil_iff]
  constructor
  · intro h s hs
    have := h s hs
    rw [← checkEvent_eq_none_iff]
    cases hc : s.checkEvent with
    | none => rfl
    | some id => simp [hc] at this
  · intro h s hs
    rw [(checkEvent_eq_none_iff s).2 (h s hs)]
    rfl

/-! ## Reachable states and `pollServiceEvent` -/

theorem emitEvent_keeps (ctx : ServiceContext) (s : Service σ) (event_command : String) :
    (Service.emitEvent ctx s event_command).2.name = s.name ∧
    ∀ id, s.checkEvent = some id →
      (Service.emitEvent ctx s event_command).2.checkEvent = some id := by
  refine ⟨rfl, ?_⟩
  intro id h
  unfold Service.checkEvent Service.emitEvent at *
  cases hq : s.events_queue_ with
  | nil => simp [hq] at h
  | cons ev rest => simpa [hq] using h

theorem emitEvents_keeps (events : List String) : ∀ (ctx : ServiceContext) (s : Service σ),
    (Service.emitEvents ctx s events).2.name = s.name ∧
    ∀ id, s.checkEvent = some id → (Service.emitEvents ctx s events).2.checkEvent = some id := by
  induction events with
  | nil => intro ctx s; exact ⟨rfl, fun _ h => h⟩
  | cons event_command rest ih =>
    intro ctx s
    have h1 := emitEvent_keeps ctx s event_command
    have h2 := ih (Service.emitEvent ctx s event_command).1 (Service.emitEvent ctx s event_command).2
    unfold Service.emitEvents
    exact ⟨h2.1.trans h1.1, fun id h => h2.2 id (h1.2 id h)⟩

theorem store_invariant (p : ServiceEventRequestProtocol σ) (ctx : ServiceContext)
    (svc0 svc : Service σ) (hinv : CacheInvariant p) (hmem : svc0 ∈ p.running_services_)
    (hname : svc.name = svc0.name)
    (hcheck : ∀ id, svc0.checkEvent = some id → svc.checkEvent = some id) :
    CacheInvariant (p.store ctx svc) := by
  obtain ⟨hnames, hcache, hentries⟩ := hinv
  refine ⟨by rw [names_store]; exact hnames, hcache, ?_⟩
  rw [cache_store]
  apply store_entries
  intro e he
  obtain ⟨s, hs, hsname, hscheck⟩ := hentries e he
  refine ⟨s, hs, hsname, hscheck, ?_⟩
  intro hsame
  have : s = svc0 := List.inj_on_of_nodup_map hnames hs hmem (hsame.trans hname)
  subst this
  exact hcheck _ hscheck

theorem emit_invariant (p : ServiceEventRequestProtocol σ) (service event_command : String)
    (hinv : CacheInvariant p) : CacheInvariant (p.emit service event_command) := by
  unfold emit
  cases hat : at_ p.running_services_ service with
  | none => exact hinv
  | some svc =>
    have hk := emitEvent_keeps p.run_context svc event_command
    exact store_invariant p _ svc _ hinv (at_eq_some _ _ _ hat).1 hk.1 hk.2

theorem handleServiceRequest_invariant (p : ServiceEventRequestProtocol σ) (actor : Nat)
    (service_request : String) (hinv : CacheInvariant p) :
    CacheInvariant (p.handleServiceRequest actor service_request).protocol := by
  unfold handleServiceRequest
  cases parseServiceRequest service_request with
  | error e => exact hinv
  | ok q =>
    simp only
    by_cases hreg : p.isRegistered q.intendedServiceName = true
    · simp only [hreg, Bool.not_true, Bool.false_eq_true, if_false]
      cases hat : at_ p.running_services_ q.intendedServiceName with
      | none => exact hinv
      | some svc =>
        have hk := emitEvents_keeps
          (svc.handleRequestCommand actor q.commandData svc.state).emitted p.run_context
          { svc with state := (svc.handleRequestCommand actor q.commandData svc.state).state }
        have hstore := store_invariant p
          (Service.emitEvents p.run_context
            { svc with state := (svc.handleRequestCommand actor q.commandData svc.state).state }
            (svc.handleRequestCommand actor q.commandData svc.state).emitted).1 svc
          (Service.emitEvents p.run_context
            { svc with state := (svc.handleRequestCommand actor q.commandData svc.state).state }
            (svc.handleRequestCommand actor q.commandData svc.state).emitted).2
          hinv (at_eq_some _ _ _ hat).1 hk.1 hk.2
        simp only
        cases (svc.handleRequestCommand actor q.commandData svc.state).outcome with
        | error what => exact hstore
        | ok command_result =>
          by_cases hs : command_result.success = true
          · simp only [hs, if_true]; exact hstore
          · simp only [hs, Bool.false_eq_true, if_false]; exact hstore
    · have hreg' : p.isRegistered q.intendedServiceName = false := by simpa using hreg
      simp only [hreg', Bool.not_false, if_true]
      exact hinv

theorem isEmpty_eq_false_iff {α : Type} (l : List α) : l.isEmpty = false ↔ l ≠ [] := by
  cases l <;> simp

theorem pollServiceEvent_spec (p : ServiceEventRequestProtocol σ) (hinv : CacheInvariant p) :
    CacheInvariant p.pollServiceEvent.protocol ∧
    ((∀ s ∈ p.running_services_, s.events_queue_ = []) → p.pollServiceEvent.result = .ok none) ∧
    ((¬ ∀ s ∈ p.running_services_, s.events_queue_ = []) →
      ∃ text, p.pollServiceEvent.result = .ok (some text)) := by
  unfold pollServiceEvent selectEmitter
  by_cases hc : p.latest_se_emitters_cache_.isEmpty = true
  · have hnil : p.latest_se_emitters_cache_ = [] := List.isEmpty_iff.1 hc
    simp only [hc, Bool.not_true, Bool.false_eq_true, if_false]
    have hscan := scan_invariant p hinv hnil
    by_cases hs : (cacheEmitters p.latest_se_emitters_cache_ p.running_services_).isEmpty = true
    · simp only [hs, Bool.not_true, Bool.false_eq_true, if_false]
      have hall : ∀ s ∈ p.running_services_, s.events_queue_ = [] := by
        have := List.isEmpty_iff.1 hs
        rw [hnil] at this
        exact (scan_eq_nil_iff _).1 this
      exact ⟨hscan, fun _ => rfl, fun h => absurd hall h⟩
    · have hs' : (cacheEmitters p.latest_se_emitters_cache_ p.running_services_).isEmpty = false := by
        simpa using hs
      simp only [hs', Bool.not_false, if_true]
      have hnotall : ¬ ∀ s ∈ p.running_services_, s.events_queue_ = [] := by
        have := (isEmpty_eq_false_iff _).1 hs'
        rw [hnil] at this
        exact fun hall => this ((scan_eq_nil_iff _).2 hall)
      have hpoll := pollSelected_latestEventEmitter _ hscan ((isEmpty_eq_false_iff _).1 hs')
      refine ⟨hpoll.2, fun h => absurd h hnotall, fun _ => hpoll.1⟩
  · have hc' : p.latest_se_emitters_cache_.isEmpty = false := by simpa using hc
    simp only [hc', Bool.not_false, if_true]
    have hne := (isEmpty_eq_false_iff _).1 hc'
    have hpoll := pollSelected_latestEventEmitter p hinv hne
    have hnotall : ¬ ∀ s ∈ p.running_services_, s.events_queue_ = [] := by
      intro hall
      obtain ⟨e, he⟩ := List.exists_mem_of_ne_nil _ hne
      obtain ⟨s, hs, _, hcheck⟩ := hinv.2.2 e he
      rw [(checkEvent_eq_none_iff s).2 (hall s hs)] at hcheck
      exact absurd hcheck (by simp)
    exact ⟨hpoll.2, fun h => absurd h hnotall, fun _ => hpoll.1⟩

theorem create_invariant (services : List (Service σ)) (run_context : ServiceContext)
    (p : ServiceEventRequestProtocol σ) (h : create services run_context = .ok p) :
    CacheInvariant p := by
  have hspec := create_spec services run_context
  by_cases hnodup : (services.map (fun s => s.name)).Nodup
  · rw [hspec.1 hnodup] at h
    simp only [Except.ok.injEq] at h
    subst h
    exact ⟨hnodup, by simp, by simp⟩
  · obtain ⟨name, hname⟩ := hspec.2 hnodup
    rw [hname] at h
    exact absurd h (by simp)

theorem reachable_invariant (p : ServiceEventRequestProtocol σ) (h : Reachable p) :
    CacheInvariant p := by
  induction h with
  | constructed services run_context p _ hcreate => exact create_invariant services run_context p hcreate
  | emitted p service event_command _ ih => exact emit_invariant p service event_command ih
  | requested p actor service_request _ ih =>
    exact handleServiceRequest_invariant p actor service_request ih
  | polled p _ ih => exact (pollServiceEvent_spec p ih).1

/-- C2: in every reachable state `pollServiceEvent()` returns empty exactly when the queue of
every registered service is empty; otherwise it returns an event text, so the service popped
from the cache always has an event to poll and no assertion fails. -/
theorem pollServiceEvent_empty_iff (p : ServiceEventRequestProtocol σ) (h : Reachable p) :
    (p.pollServiceEvent.result = .ok none ↔ ∀ s ∈ p.running_services_, s.events_queue_ = []) ∧
    ((¬ ∀ s ∈ p.running_services_, s.events_queue_ = []) →
      ∃ text, p.pollServiceEvent.result = .ok (some text)) := by
  have hspec := pollServiceEvent_spec p (reachable_invariant p h)
  refine ⟨⟨?_, hspec.2.1⟩, hspec.2.2⟩
  intro hnone
  by_contra hnot
  obtain ⟨text, htext⟩ := hspec.2.2 hnot
  rw [htext] at hnone
  exact absurd hnone (by simp)

/-! ## Runs on concrete inputs -/

theorem reachable_chatRun : Reachable chatRun :=
  Reachable.requested _ 0 "REQUEST 1 Chat /toggle"
    (Reachable.constructed [ChatService.service] ⟨0⟩ _ (by simp [ChatService.service]) rfl)

theorem reachable_relayRun : Reachable relayRun :=
  Reachable.requested _ 0 "REQUEST 3 B third"
    (Reachable.requested _ 0 "REQUEST 2 A second"
      (Reachable.requested _ 0 "REQUEST 1 A first"
        (Reachable.constructed [relayService "A", relayService "B"] ⟨0⟩ _
          (by simp [relayService]) rfl)))

/-- C2, on the protocol of the chat service after a toggle. -/
theorem pollServiceEvent_empty_iff_witness :
    Reachable chatRun ∧
    (chatRun.pollServiceEvent.result = .ok none ↔
      ∀ s ∈ chatRun.running_services_, s.events_queue_ = []) :=
  ⟨reachable_chatRun, (pollServiceEvent_empty_iff chatRun reachable_chatRun).1⟩

/-- C1: with two services, `A` holding the events of ids 0 and 1 and `B` the event of id 2,
three successive `pollServiceEvent()` calls return the events of ids 0, 2 and 1 in that order:
the ids do not increase. -/
theorem pollServiceEvent_out_of_order :
    relayRun.running_services_.map (fun s => (s.name, s.events_queue_)) =
      [("A", [(0, "first"), (1, "second")]), ("B", [(2, "third")])] ∧
    polledEventId relayRun = some 0 ∧
    relayRun.pollServiceEvent.result = .ok (some "EVENT A first") ∧
    polledEventId relayRun.pollServiceEvent.protocol = some 2 ∧
    relayRun.pollServiceEvent.protocol.pollServiceEvent.result = .ok (some "EVENT B third") ∧
    polledEventId relayRun.pollServiceEvent.protocol.pollServiceEvent.protocol = some 1 ∧
    relayRun.pollServiceEvent.protocol.pollServiceEvent.protocol.pollServiceEvent.result =
      .ok (some "EVENT A second") := by
  decide

/-! ## The registry after construction -/

theorem names_registry (p : ServiceEventRequestProtocol σ) :
    p.registry.map Prod.fst = p.running_services_.map (fun s => s.name) := by
  simp [registry, List.map_map, Function.comp_def]

theorem isRegistered_of_registry (p q : ServiceEventRequestProtocol σ)
    (h : q.registry = p.registry) (service : String) :
    q.isRegistered service = p.isRegistered service := by
  unfold isRegistered
  rw [count_eq_count_names, count_eq_count_names, ← names_registry, ← names_registry, h]

theorem registry_store (p : ServiceEventRequestProtocol σ) (ctx : ServiceContext)
    (svc0 svc : Service σ) (hnodup : (p.running_services_.map (fun s => s.name)).Nodup)
    (hmem : svc0 ∈ p.running_services_) (hname : svc.name = svc0.name)
    (hhandler : svc.handleRequestCommand = svc0.handleRequestCommand) :
    (p.store ctx svc).registry = p.registry := by
  unfold registry store
  simp only [List.map_map]
  apply List.map_congr_left
  intro s hs
  by_cases h : s.name = svc.name
  · have : s = svc0 := List.inj_on_of_nodup_map hnodup hs hmem (h.trans hname)
    subst this
    simp [h, hhandler]
  · simp [h]

theorem emitEvents_handler (events : List String) : ∀ (ctx : ServiceContext) (s : Service σ),
    (Service.emitEvents ctx s events).2.handleRequestCommand = s.handleRequestCommand := by
  induction events with
  | nil => intro ctx s; rfl
  | cons event_command rest ih =>
    intro ctx s
    unfold Service.emitEvents
    rw [ih]
    rfl

theorem registry_handleServiceRequest (p : ServiceEventRequestProtocol σ) (actor : Nat)
    (service_request : String) (hnodup : (p.running_services_.map (fun s => s.name)).Nodup) :
    (p.handleServiceRequest actor service_request).protocol.registry = p.registry := by
  unfold handleServiceRequest
  cases parseServiceRequest service_request with
  | error e => rfl
  | ok q =>
    simp only
    by_cases hreg : p.isRegistered q.intendedServiceName = true
    · simp only [hreg, Bool.not_true, Bool.false_eq_true, if_false]
      cases hat : at_ p.running_services_ q.intendedServiceName with
      | none => rfl
      | some svc =>
        have hk := emitEvents_keeps
          (svc.handleRequestCommand actor q.commandData svc.state).emitted p.run_context
          { svc with state := (svc.handleRequestCommand actor q.commandData svc.state).state }
        have hh := emitEvents_handler
          (svc.handleRequestCommand actor q.commandData svc.state).emitted p.run_context
          { svc with state := (svc.handleRequestCommand actor q.commandData svc.state).state }
        have hstore := registry_store p
          (Service.emitEvents p.run_context
            { svc with state := (svc.handleRequestCommand actor q.commandData svc.state).state }
            (svc.handleRequestCommand actor q.commandData svc.state).emitted).1 svc
          (Service.emitEvents p.run_context
            { svc with state := (svc.handleRequestCommand actor q.commandData svc.state).state }
            (svc.handleRequestCommand actor q.commandData svc.state).emitted).2
          hnodup (at_eq_some _ _ _ hat).1 hk.1 hh
        simp only
        cases (svc.handleRequestCommand actor q.commandData svc.state).outcome with
        | error what => exact hstore
        | ok command_result =>
          by_cases hs : command_result.success = true
          · simp only [hs, if_true]; exact hstore
          · simp only [hs, Bool.false_eq_true, if_false]; exact hstore
    · have hreg' : p.isRegistered q.intendedServiceName = false := by simpa using hreg
      simp only [hreg', Bool.not_false, if_true]

theorem services_latestEventEmitter (q : ServiceEventRequestProtocol σ) :
    (latestEventEmitter q).2.running_services_ = q.running_services_ := by
  unfold latestEventEmitter
  cases cacheTop q.latest_se_emitters_cache_ <;> rfl

theorem services_selectEmitter (p : ServiceEventRequestProtocol σ) :
    (selectEmitter p).2.running_services_ = p.running_services_ := by
  unfold selectEmitter
  by_cases hc : p.latest_se_emitters_cache_.isEmpty = true
  · simp only [hc, Bool.not_true, Bool.false_eq_true, if_false]
    split
    · rw [services_latestEventEmitter]
    · rfl
  · have hc' : p.latest_se_emitters_cache_.isEmpty = false := by simpa using hc
    simp only [hc', Bool.not_false, if_true]
    rw [services_latestEventEmitter]

theorem pollEvent_keeps (s polled : Service σ) (event_command : String)
    (h : s.pollEvent = some (event_command, polled)) :
    polled.name = s.name ∧ polled.handleRequestCommand = s.handleRequestCommand ∧
    polled.state = s.state ∧
    ∃ id, s.events_queue_ = (id, event_command) :: polled.events_queue_ := by
  unfold Service.pollEvent at h
  cases hq : s.events_queue_ with
  | nil => simp [hq] at h
  | cons ev rest =>
    simp only [hq, Option.some.injEq, Prod.mk.injEq] at h
    obtain ⟨h1, h2⟩ := h
    subst h2
    exact ⟨rfl, rfl, rfl, ev.1, by rw [← h1]⟩

theorem registry_pollSelected
    (selection : Except Thrown (Option String) × ServiceEventRequestProtocol σ)
    (hnodup : (selection.2.running_services_.map (fun s => s.name)).Nodup) :
    (pollSelected selection).protocol.registry = selection.2.registry := by
  obtain ⟨chosen, selected⟩ := selection
  cases chosen with
  | error e => rfl
  | ok emitter_name =>
    cases emitter_name with
    | none => rfl
    | some latest_event_emitter =>
      simp only [pollSelected]
      cases hat : at_ selected.running_services_ latest_event_emitter with
      | none => rfl
      | some emitter =>
        simp only
        cases hpoll : emitter.pollEvent with
        | none => rfl
        | some r =>
          obtain ⟨event_command, polled⟩ := r
          have hk := pollEvent_keeps emitter polled event_command hpoll
          exact registry_store selected _ emitter polled hnodup (at_eq_some _ _ _ hat).1 hk.1 hk.2.1

theorem registry_pollServiceEvent (p : ServiceEventRequestProtocol σ)
    (hnodup : (p.running_services_.map (fun s => s.name)).Nodup) :
    p.pollServiceEvent.protocol.registry = p.registry := by
  unfold pollServiceEvent
  rw [registry_pollSelected _ (by rw [services_selectEmitter]; exact hnodup)]
  unfold registry
  rw [services_selectEmitter]

theorem registry_afterCalls (calls : List Call) : ∀ p : ServiceEventRequestProtocol σ,
    (p.running_services_.map (fun s => s.name)).Nodup → (p.afterCalls calls).registry = p.registry := by
  induction calls with
  | nil => intro p _; rfl
  | cons call rest ih =>
    intro p hnodup
    have hstep : (p.afterCall call).registry = p.registry := by
      cases call with
      | handleServiceRequest actor service_request =>
        exact registry_handleServiceRequest p actor service_request hnodup
      | pollServiceEvent => exact registry_pollServiceEvent p hnodup
    have hnodup' : ((p.afterCall call).running_services_.map (fun s => s.name)).Nodup := by
      rw [← names_registry, hstep, names_registry]
      exact hnodup
    unfold afterCalls
    rw [ih _ hnodup', hstep]

/-- C11: a construction over services with pairwise distinct names succeeds; the registered names
are then exactly the names of the listed services, and after any sequence of
`handleServiceRequest` and `pollServiceEvent` calls, raising or not, the same names are
registered and each maps to the same service. -/
theorem registry_immutable (services : List (Service σ)) (run_context : ServiceContext)
    (hnodup : (services.map (fun s => s.name)).Nodup) :
    ∃ p, create services run_context = .ok p ∧
      (∀ name, p.isRegistered name = true ↔ ∃ s ∈ services, s.name = name) ∧
      ∀ calls : List Call,
        (∀ name, (p.afterCalls calls).isRegistered name = p.isRegistered name) ∧
        (p.afterCalls calls).registry =
          services.map (fun s => (s.name, s.handleRequestCommand)) := by
  refine ⟨⟨run_context, services, []⟩, (create_spec services run_context).1 hnodup, ?_, ?_⟩
  · intro name
    rw [isRegistered_iff_mem _ _ hnodup]
    simp [List.mem_map]
  · intro calls
    have h := registry_afterCalls calls (⟨run_context, services, []⟩ : ServiceEventRequestProtocol σ) hnodup
    exact ⟨isRegistered_of_registry _ _ h, h⟩

/-- C11, on the protocol of the chat service. -/
theorem registry_immutable_witness :
    ∃ p, create [ChatService.service] ⟨0⟩ = .ok p ∧
      (∀ name, p.isRegistered name = true ↔ ∃ s ∈ [ChatService.service], s.name = name) ∧
      ∀ calls : List Call,
        (∀ name, (p.afterCalls calls).isRegistered name = p.isRegistered name) ∧
        (p.afterCalls calls).registry =
          [ChatService.service].map (fun s => (s.name, s.handleRequestCommand)) :=
  registry_immutable [ChatService.service] ⟨0⟩ (by decide)

/-! ## Round trip of the RUID -/

theorem tokens_of_create (command : String) (k : Nat) (parsed : TextProtocolParser)
    (h : TextProtocolParser.create command k = .ok parsed) :
    (tokens command).take k = parsed.parsed_words_ := by
  unfold TextProtocolParser.create at h
  cases hp : parseWords k command.data with
  | none => simp [hp] at h
  | some r =>
    obtain ⟨words, unparsed⟩ := r
    simp only [hp, Except.ok.injEq] at h
    have := parseWords_eq_some k command.data.length command.data words unparsed (le_refl _) hp
    rw [← h]
    simp [tokens, ← this, List.map_take]

theorem create_two_words (w0 w1 rest : String) (h0 : isWord w0 = true) (h1 : isWord w1 = true) :
    TextProtocolParser.create (w0 ++ " " ++ w1 ++ " " ++ rest) 2 =
      .ok ⟨[w0, w1], String.mk (skipSeparators rest.data)⟩ := by
  have hdata : (w0 ++ " " ++ w1 ++ " " ++ rest).data =
      w0.data ++ ' ' :: (w1.data ++ ' ' :: rest.data) := by
    simp [String.data_append]
  unfold TextProtocolParser.create
  rw [hdata, parseWords_word 1 w0.data _ ((isWord_iff _).1 h0).1 ((isWord_iff _).1 h0).2,
    parseWords_word 0 w1.data _ ((isWord_iff _).1 h1).1 ((isWord_iff _).1 h1).2]
  simp [parseWords]

theorem response_handleServiceRequest (p : ServiceEventRequestProtocol σ) (actor : Nat)
    (service_request : String) (q : ServiceRequestCommandParser)
    (hparse : parseServiceRequest service_request = .ok q)
    (hreg : p.isRegistered q.intendedServiceName = true) :
    ∃ rest : String, (p.handleServiceRequest actor service_request).result =
      .ok (RESPONSE_PREFIX ++ " " ++ to_string q.ruid ++ " " ++ rest) := by
  obtain ⟨svc, hat⟩ := exists_at_of_isRegistered p _ hreg
  rw [result_handleServiceRequest p actor service_request q svc hparse hreg hat]
  cases (svc.handleRequestCommand actor q.commandData svc.state).outcome with
  | error what =>
    refine ⟨to_string q.ruid ++ " KO " ++ what, ?_⟩
    simp only [String.append_assoc]
  | ok command_result =>
    by_cases hs : command_result.success = true
    · exact ⟨"OK", by simp only [hs, if_true]⟩
    · refine ⟨"KO " ++ command_result.errorMessage, ?_⟩
      simp only [hs, Bool.false_eq_true, if_false, String.append_assoc]

/-- C12: for every n below 2^64, the request whose second token is the decimal text of n and
that names a registered service is answered, whatever the handler does, by a response whose
second token is the same decimal text of n; that text converts back to n. -/
theorem ruid_round_trip (p : ServiceEventRequestProtocol σ) (actor n : Nat)
    (S payload : String) (hn : n < 2 ^ 64) (hS : isWord S = true)
    (hreg : p.isRegistered S = true) :
    (tokens (serviceRequestCommand n S payload)).take 3 = ["REQUEST", to_string n, S] ∧
    stoull (to_string n).data = .value n ∧
    ∃ response : String,
      (p.handleServiceRequest actor (serviceRequestCommand n S payload)).result = .ok response ∧
      (tokens response).take 2 = ["RESPONSE", to_string n] := by
  have hparse := parseServiceRequest_serviceRequestCommand n S payload hn hS
  refine ⟨?_, stoull_to_string n hn, ?_⟩
  · exact tokens_of_create _ 3 _ (create_serviceRequestCommand n S payload hS)
  · obtain ⟨rest, hrest⟩ := response_handleServiceRequest p actor _ _ hparse hreg
    refine ⟨_, hrest, ?_⟩
    exact tokens_of_create _ 2 _
      (create_two_words RESPONSE_PREFIX (to_string n) rest (by decide) (isWord_to_string n))

/-- C12, on the largest 64-bit RUID sent to a service whose handler throws. -/
theorem ruid_round_trip_witness :
    ∃ response : String,
      ((⟨⟨0⟩, [throwingService "Faulty" "boom"], []⟩ :
        ServiceEventRequestProtocol Bool).handleServiceRequest 7
          (serviceRequestCommand 18446744073709551615 "Faulty" "x")).result = .ok response ∧
      (tokens response).take 2 = ["RESPONSE", to_string 18446744073709551615] :=
  (ruid_round_trip ⟨⟨0⟩, [throwingService "Faulty" "boom"], []⟩ 7 18446744073709551615
    "Faulty" "x" (by decide) (by decide) (by decide)).2.2

/-! ## Invocation of the handler -/

theorem effects_handleServiceRequest (p : ServiceEventRequestProtocol σ) (actor : Nat)
    (service_request : String) (q : ServiceRequestCommandParser) (svc : Service σ)
    (hparse : parseServiceRequest service_request = .ok q)
    (hreg : p.isRegistered q.intendedServiceName = true)
    (hat : at_ p.running_services_ q.intendedServiceName = some svc) :
    (p.handleServiceRequest actor service_request).invoked =
      [(svc.name, actor, q.commandData)] ∧
    (p.handleServiceRequest actor service_request).protocol =
      p.store
        (Service.emitEvents p.run_context
          { svc with state := (svc.handleRequestCommand actor q.commandData svc.state).state }
          (svc.handleRequestCommand actor q.commandData svc.state).emitted).1
        (Service.emitEvents p.run_context
          { svc with state := (svc.handleRequestCommand actor q.commandData svc.state).state }
          (svc.handleRequestCommand actor q.commandData svc.state).emitted).2 := by
  unfold handleServiceRequest
  simp only [hparse, hreg, hat, Bool.not_true, Bool.false_eq_true, if_false]
  cases (svc.handleRequestCommand actor q.commandData svc.state).outcome with
  | error what => exact ⟨rfl, rfl⟩
  | ok command_result =>
    by_cases hs : command_result.success = true <;> simp [hs]

theorem mem_store_of_ne (p : ServiceEventRequestProtocol σ) (ctx : ServiceContext)
    (svc s : Service σ) (hs : s ∈ p.running_services_) (hne : s.name ≠ svc.name) :
    s ∈ (p.store ctx svc).running_services_ := by
  have hmem := mem_store p ctx svc s hs
  have hneq : (s.name == svc.name) = false := by simpa using hne
  simpa only [hneq, Bool.false_eq_true, if_false] using hmem

theorem others_handleServiceRequest (p : ServiceEventRequestProtocol σ) (actor : Nat)
    (service_request : String) (q : ServiceRequestCommandParser) (svc : Service σ)
    (hparse : parseServiceRequest service_request = .ok q)
    (hreg : p.isRegistered q.intendedServiceName = true)
    (hat : at_ p.running_services_ q.intendedServiceName = some svc) :
    ∀ s ∈ p.running_services_, s.name ≠ svc.name →
      s ∈ (p.handleServiceRequest actor service_request).protocol.running_services_ := by
  intro s hs hne
  rw [(effects_handleServiceRequest p actor service_request q svc hparse hreg hat).2]
  apply mem_store_of_ne p _ _ s hs
  rw [(emitEvents_keeps _ _ _).1]
  exact hne

end ServiceEventRequestProtocol
end RpT

/-! ## The chat service -/

namespace RpT
namespace ServiceEventRequestProtocol

theorem chat_toggle_parsed :
    TextProtocolParser.create (String.mk (skipSeparators "/toggle".data)) 1 =
      .ok ⟨["/toggle"], ""⟩ := by
  decide

theorem chat_toggle_admin (enabled_ : Bool) :
    ChatService.handleRequestCommand 0 (String.mk (skipSeparators "/toggle".data)) enabled_ =
      ⟨!enabled_, [if !enabled_ then "ENABLED" else "DISABLED"], .ok ⟨none⟩⟩ := by
  cases enabled_ <;> rfl

theorem chat_toggle_other (actor : Nat) (enabled_ : Bool) (hactor : actor ≠ 0) :
    ChatService.handleRequestCommand actor (String.mk (skipSeparators "/toggle".data)) enabled_ =
      ⟨enabled_, [],
        .ok ⟨some "Permission denied: you must be admin to use that command"⟩⟩ := by
  have hadmin : ChatService.isAdmin actor = false := by
    simp [ChatService.isAdmin, hactor]
  unfold ChatService.handleRequestCommand
  rw [chat_toggle_parsed]
  have h1 : ChatService.isToggle ⟨["/toggle"], ""⟩ = true := by decide
  have h2 : ChatService.extraArgs ⟨["/toggle"], ""⟩ = false := by decide
  simp [h1, h2, hadmin]

theorem chat_registered (run_context : ServiceContext) (enabled_ : Bool)
    (events_queue_ : List (Nat × String)) (cache : List CachedServiceEventEmitter) :
    (chatProtocol run_context enabled_ events_queue_ cache).isRegistered "Chat" = true := by
  rfl

/-- C14: in the protocol of the executor, where the chat service has no event pending, the admin
(actor 0) sending `REQUEST <n> Chat /toggle` gets `RESPONSE <n> OK`, the flag `enabled_` is
negated, and the next `pollServiceEvent()` yields `EVENT Chat DISABLED` when the chat was enabled
and `EVENT Chat ENABLED` when it was disabled. -/
theorem chat_toggle_by_admin (run_context : ServiceContext) (enabled_ : Bool) (n : Nat)
    (hn : n < 2 ^ 64) :
    ((chatProtocol run_context enabled_ [] []).handleServiceRequest 0
        (serviceRequestCommand n "Chat" "/toggle")).result =
      .ok ("RESPONSE " ++ to_string n ++ " OK") ∧
    ((chatProtocol run_context enabled_ [] []).handleServiceRequest 0
        (serviceRequestCommand n "Chat" "/toggle")).protocol.running_services_.map
          (fun s => s.state) = [!enabled_] ∧
    ((chatProtocol run_context enabled_ [] []).handleServiceRequest 0
        (serviceRequestCommand n "Chat" "/toggle")).protocol.pollServiceEvent.result =
      .ok (some (if enabled_ then "EVENT Chat DISABLED" else "EVENT Chat ENABLED")) := by
  have hparse := parseServiceRequest_serviceRequestCommand n "Chat" "/toggle" hn (by decide)
  have hreg := chat_registered run_context enabled_ [] []
  have hat : at_ (chatProtocol run_context enabled_ [] []).running_services_ "Chat" =
      some { ChatService.service with state := enabled_, events_queue_ := [] } := rfl
  have hres := result_handleServiceRequest _ 0 _ _ _ hparse hreg hat
  have heff := (effects_handleServiceRequest _ 0 _ _ _ hparse hreg hat).2
  have hrun := chat_toggle_admin enabled_
  simp only [ServiceRequestCommandParser.commandData, TextProtocolParser.unparsedWords,
    ChatService.service] at hres heff
  rw [hrun] at hres heff
  refine ⟨?_, ?_, ?_⟩
  · rw [hres]
    simp [HandlingResult.success, ServiceRequestCommandParser.ruid, RESPONSE_PREFIX,
      String.append_assoc]
  · rw [heff]
    cases enabled_ <;> rfl
  · rw [heff]
    cases enabled_ <;> rfl

/-- C14, on the first toggle of a run: the chat starts enabled and the event is `DISABLED`. -/
theorem chat_toggle_by_admin_witness :
    ((chatProtocol ⟨0⟩ true [] []).handleServiceRequest 0 "REQUEST 1 Chat /toggle").result =
      .ok "RESPONSE 1 OK" ∧
    ((chatProtocol ⟨0⟩ true [] []).handleServiceRequest 0
        "REQUEST 1 Chat /toggle").protocol.pollServiceEvent.result =
      .ok (some "EVENT Chat DISABLED") :=
  ⟨(chat_toggle_by_admin ⟨0⟩ true 1 (by decide)).1,
    (chat_toggle_by_admin ⟨0⟩ true 1 (by decide)).2.2⟩

/-- C15: in the protocol of the executor, whatever the state of the chat service, an actor other
than 0 sending `REQUEST <n> Chat /toggle` gets
`RESPONSE <n> KO Permission denied: you must be admin to use that command`; no event is emitted
and the flag `enabled_` is unchanged, the whole state being left as it was. -/
theorem chat_toggle_denied (run_context : ServiceContext) (enabled_ : Bool)
    (events_queue_ : List (Nat × String)) (cache : List CachedServiceEventEmitter)
    (actor n : Nat) (hactor : actor ≠ 0) (hn : n < 2 ^ 64) :
    ((chatProtocol run_context enabled_ events_queue_ cache).handleServiceRequest actor
        (serviceRequestCommand n "Chat" "/toggle")).result =
      .ok ("RESPONSE " ++ to_string n ++
        " KO Permission denied: you must be admin to use that command") ∧
    ((chatProtocol run_context enabled_ events_queue_ cache).handleServiceRequest actor
        (serviceRequestCommand n "Chat" "/toggle")).protocol =
      chatProtocol run_context enabled_ events_queue_ cache := by
  have hparse := parseServiceRequest_serviceRequestCommand n "Chat" "/toggle" hn (by decide)
  have hreg := chat_registered run_context enabled_ events_queue_ cache
  have hat : at_ (chatProtocol run_context enabled_ events_queue_ cache).running_services_ "Chat" =
      some { ChatService.service with state := enabled_, events_queue_ := events_queue_ } := rfl
  have hres := result_handleServiceRequest _ actor _ _ _ hparse hreg hat
  have heff := (effects_handleServiceRequest _ actor _ _ _ hparse hreg hat).2
  have hrun := chat_toggle_other actor enabled_ hactor
  simp only [ServiceRequestCommandParser.commandData, TextProtocolParser.unparsedWords,
    ChatService.service] at hres heff
  rw [hrun] at hres heff
  refine ⟨?_, ?_⟩
  · rw [hres]
    simp [HandlingResult.success, HandlingResult.errorMessage, ServiceRequestCommandParser.ruid,
      RESPONSE_PREFIX, String.append_assoc]
  · rw [heff]
    rfl

/-- C15, on actor 5 and RUID 2. -/
theorem chat_toggle_denied_witness :
    ((chatProtocol ⟨0⟩ true [] []).handleServiceRequest 5 "REQUEST 2 Chat /toggle").result =
      .ok "RESPONSE 2 KO Permission denied: you must be admin to use that command" :=
  (chat_toggle_denied ⟨0⟩ true [] [] 5 2 (by decide) (by decide)).1

/-! ## Pending events and `pollServiceEvent` -/

theorem pollSelected_latestEventEmitter_eq (q : ServiceEventRequestProtocol σ)
    (hinv : CacheInvariant q) (hne : q.latest_se_emitters_cache_ ≠ []) :
    ∃ (top : CachedServiceEventEmitter) (s : Service σ) (event_command : String)
      (rest : List (Nat × String)),
      cacheTop q.latest_se_emitters_cache_ = some top ∧ s ∈ q.running_services_ ∧
      s.name = top.queuedEmitter ∧
      s.events_queue_ = (top.emittedEventId, event_command) :: rest ∧
      (pollSelected (latestEventEmitter q)).result =
        .ok (some (EVENT_PREFIX ++ " " ++ s.name ++ " " ++ event_command)) ∧
      (pollSelected (latestEventEmitter q)).protocol =
        ({ q with latest_se_emitters_cache_ := q.latest_se_emitters_cache_.erase top } :
          ServiceEventRequestProtocol σ).store q.run_context { s with events_queue_ := rest } := by
  obtain ⟨hnames, hcache, hentries⟩ := hinv
  obtain ⟨top, htop⟩ := cacheTop_of_ne_nil _ hne
  have htopmem := cacheTop_mem _ _ htop
  obtain ⟨s, hs, hsname, hscheck⟩ := hentries top htopmem
  have hat : at_ q.running_services_ top.queuedEmitter = some s := by
    rw [← hsname]; exact at_of_mem _ s hnames hs
  have hq : ∃ event_command rest,
      s.events_queue_ = (top.emittedEventId, event_command) :: rest := by
    cases hqueue : s.events_queue_ with
    | nil => simp [Service.checkEvent, hqueue] at hscheck
    | cons ev rest =>
      obtain ⟨id, event_command⟩ := ev
      simp only [Service.checkEvent, hqueue, List.head?_cons, Option.map_some',
        Option.some.injEq] at hscheck
      exact ⟨event_command, rest, by rw [hscheck]⟩
  obtain ⟨event_command, rest, hqueue⟩ := hq
  have hpoll : s.pollEvent = some (event_command, { s with events_queue_ := rest }) := by
    simp [Service.pollEvent, hqueue]
  have hsel : latestEventEmitter q = (.ok (some top.queuedEmitter),
      { q with latest_se_emitters_cache_ := q.latest_se_emitters_cache_.erase top }) := by
    simp [latestEventEmitter, htop, cachePop]
  refine ⟨top, s, event_command, rest, htop, hs, hsname, hqueue, ?_, ?_⟩
  · rw [hsel]
    simp only [pollSelected, hat, hpoll]
  · rw [hsel]
    simp only [pollSelected, hat, hpoll]

theorem sum_lengths_store (services : List (Service σ)) (svc0 svc : Service σ)
    (hnodup : (services.map (fun s => s.name)).Nodup) (hmem : svc0 ∈ services)
    (hname : svc.name = svc0.name) :
    ((services.map (fun s => if s.name == svc.name then svc else s)).map
        (fun s => s.events_queue_.length)).sum + svc0.events_queue_.length =
      (services.map (fun s => s.events_queue_.length)).sum + svc.events_queue_.length := by
  induction services with
  | nil => simp at hmem
  | cons x xs ih =>
    simp only [List.map_cons, List.nodup_cons] at hnodup
    obtain ⟨hx, hxs⟩ := hnodup
    rcases List.mem_cons.1 hmem with rfl | hmem'
    · have hrest : xs.map (fun s => if s.name == svc.name then svc else s) = xs := by
        conv_rhs => rw [← List.map_id xs]
        apply List.map_congr_left
        intro s hs
        have : s.name ≠ svc.name := by
          intro h
          apply hx
          rw [← hname, ← h]
          exact List.mem_map_of_mem (fun s => s.name) hs
        simp [this]
      have hb : (svc0.name == svc.name) = true := by simp [hname]
      simp only [List.map_cons, hb, if_true, List.sum_cons, hrest]
      omega
    · have hne : x.name ≠ svc.name := by
        intro h
        apply hx
        rw [h, hname]
        exact List.mem_map_of_mem (fun s => s.name) hmem'
      have hb : (x.name == svc.name) = false := by simpa using hne
      have ih' := ih hxs hmem'
      simp only [List.map_cons, hb, Bool.false_eq_true, if_false, List.sum_cons]
      omega

theorem pendingEvents_store (p : ServiceEventRequestProtocol σ) (ctx : ServiceContext)
    (svc0 svc : Service σ) (hnodup : (p.running_services_.map (fun s => s.name)).Nodup)
    (hmem : svc0 ∈ p.running_services_) (hname : svc.name = svc0.name) :
    (p.store ctx svc).pendingEvents + svc0.events_queue_.length =
      p.pendingEvents + svc.events_queue_.length :=
  sum_lengths_store p.running_services_ svc0 svc hnodup hmem hname

theorem pendingEvents_eq_zero_iff (p : ServiceEventRequestProtocol σ) :
    p.pendingEvents = 0 ↔ ∀ s ∈ p.running_services_, s.events_queue_ = [] := by
  unfold pendingEvents
  induction p.running_services_ with
  | nil => simp
  | cons x xs ih =>
    simp only [List.map_cons, List.sum_cons, Nat.add_eq_zero_iff, ih, List.length_eq_zero,
      List.mem_cons, forall_eq_or_imp]

theorem pendingEvents_latest (q : ServiceEventRequestProtocol σ)
    (hinv : CacheInvariant q) (hne : q.latest_se_emitters_cache_ ≠ []) :
    (pollSelected (latestEventEmitter q)).protocol.pendingEvents + 1 = q.pendingEvents := by
  obtain ⟨top, s, event_command, rest, _, hs, _, hqueue, _, hprot⟩ :=
    pollSelected_latestEventEmitter_eq q hinv hne
  rw [hprot]
  have := pendingEvents_store
    ({ q with latest_se_emitters_cache_ := q.latest_se_emitters_cache_.erase top } :
      ServiceEventRequestProtocol σ) q.run_context s { s with events_queue_ := rest }
    hinv.1 hs rfl
  simp only [hqueue, List.length_cons] at this
  have hq : ({ q with latest_se_emitters_cache_ := q.latest_se_emitters_cache_.erase top } :
      ServiceEventRequestProtocol σ).pendingEvents = q.pendingEvents := rfl
  omega

theorem pollServiceEvent_pending (p : ServiceEventRequestProtocol σ) (hinv : CacheInvariant p) :
    (p.pollServiceEvent.result = .ok none ∧ p.pendingEvents = 0 ∧
      p.pollServiceEvent.protocol.pendingEvents = 0) ∨
    ((∃ text, p.pollServiceEvent.result = .ok (some text)) ∧
      p.pollServiceEvent.protocol.pendingEvents + 1 = p.pendingEvents) := by
  have hspec := pollServiceEvent_spec p hinv
  unfold pollServiceEvent selectEmitter at hspec ⊢
  by_cases hc : p.latest_se_emitters_cache_.isEmpty = true
  · have hnil : p.latest_se_emitters_cache_ = [] := List.isEmpty_iff.1 hc
    simp only [hc, Bool.not_true, Bool.false_eq_true, if_false] at hspec ⊢
    have hscan := scan_invariant p hinv hnil
    by_cases hs : (cacheEmitters p.latest_se_emitters_cache_ p.running_services_).isEmpty = true
    · simp only [hs, Bool.not_true, Bool.false_eq_true, if_false]
      have hall : ∀ s ∈ p.running_services_, s.events_queue_ = [] := by
        have := List.isEmpty_iff.1 hs
        rw [hnil] at this
        exact (scan_eq_nil_iff _).1 this
      have hzero := (pendingEvents_eq_zero_iff p).2 hall
      exact Or.inl ⟨rfl, hzero, hzero⟩
    · have hs' : (cacheEmitters p.latest_se_emitters_cache_ p.running_services_).isEmpty = false := by
        simpa using hs
      simp only [hs', Bool.not_false, if_true]
      have hne := (isEmpty_eq_false_iff _).1 hs'
      exact Or.inr ⟨(pollSelected_latestEventEmitter _ hscan hne).1,
        pendingEvents_latest _ hscan hne⟩
  · have hc' : p.latest_se_emitters_cache_.isEmpty = false := by simpa using hc
    simp only [hc', Bool.not_false, if_true]
    have hne := (isEmpty_eq_false_iff _).1 hc'
    exact Or.inr ⟨(pollSelected_latestEventEmitter p hinv hne).1, pendingEvents_latest p hinv hne⟩

end ServiceEventRequestProtocol
end RpT

/-! ## The polling loop and the main loop of the executor -/

namespace RpT
namespace Executor
open ServiceEventRequestProtocol
variable {σ : Type}

theorem pollEvents_finishes (fuel : Nat) : ∀ p : ServiceEventRequestProtocol σ,
    CacheInvariant p → p.pendingEvents < fuel →
    ∃ output after_events, pollEvents fuel p = (output, some (.ok after_events)) ∧
      CacheInvariant after_events ∧ after_events.pendingEvents = 0 ∧
      output.length = p.pendingEvents ∧ ∀ c ∈ output, ∃ event, c = IOCall.outputEvent event := by
  induction fuel with
  | zero => intro p _ h; omega
  | succ fuel ih =>
    intro p hinv hfuel
    have hnext := (pollServiceEvent_spec p hinv).1
    rcases pollServiceEvent_pending p hinv with ⟨hres, hzero, hzero'⟩ | ⟨⟨text, hres⟩, hdec⟩
    · refine ⟨[], p.pollServiceEvent.protocol, ?_, hnext, hzero', by simp [hzero], by simp⟩
      simp only [pollEvents, hres]
    · obtain ⟨output, after_events, hrec, hinv', hz, hlen, hout⟩ :=
        ih p.pollServiceEvent.protocol hnext (by omega)
      refine ⟨IOCall.outputEvent text :: output, after_events, ?_, hinv', hz, ?_, ?_⟩
      · simp only [pollEvents, hres, hrec]
      · simp only [List.length_cons, hlen]
        omega
      · intro c hc
        rcases List.mem_cons.1 hc with rfl | hc
        · exact ⟨text, rfl⟩
        · exact hout c hc

theorem protocol_of_error (p : ServiceEventRequestProtocol σ) (actor : Nat)
    (service_request : String) (err : Thrown)
    (h : (p.handleServiceRequest actor service_request).result = .error err) :
    (p.handleServiceRequest actor service_request).protocol = p ∧
    (p.handleServiceRequest actor service_request).invoked = [] := by
  unfold handleServiceRequest at h ⊢
  cases hparse : parseServiceRequest service_request with
  | error e => exact ⟨rfl, rfl⟩
  | ok q =>
    simp only [hparse] at h ⊢
    by_cases hreg : p.isRegistered q.intendedServiceName = true
    · simp only [hreg, Bool.not_true, Bool.false_eq_true, if_false] at h ⊢
      cases hat : at_ p.running_services_ q.intendedServiceName with
      | none => exact ⟨rfl, rfl⟩
      | some svc =>
        simp only [hat] at h
        exfalso
        cases hout : (svc.handleRequestCommand actor q.commandData svc.state).outcome with
        | error what => simp [hout] at h
        | ok command_result =>
          by_cases hs : command_result.success = true <;> simp [hout, hs] at h
    · have hreg' : p.isRegistered q.intendedServiceName = false := by simpa using hreg
      simp only [hreg', Bool.not_false, if_true]
      exact ⟨trivial, trivial⟩

theorem InputHandler_invariant (p after_input : ServiceEventRequestProtocol σ)
    (input_event : AnyInputEvent) (handled : List IOCall) (hinv : CacheInvariant p)
    (h : InputHandler p input_event = (handled, .ok after_input)) :
    CacheInvariant after_input ∧ ∀ k, IOCall.waitForInput k ∉ handled := by
  cases input_event with
  | ServiceRequestEvent actor service_request =>
    have hafter := handleServiceRequest_invariant p actor service_request hinv
    unfold InputHandler at h
    cases hres : (p.handleServiceRequest actor service_request).result with
    | ok response =>
      simp only [hres, Prod.mk.injEq, Except.ok.injEq] at h
      obtain ⟨h1, h2⟩ := h
      subst h1 h2
      exact ⟨hafter, by simp⟩
    | error err =>
      simp only [hres] at h
      by_cases hbad : err.isBadServiceRequest = true
      · simp only [hbad, if_true, Prod.mk.injEq, Except.ok.injEq] at h
        obtain ⟨h1, h2⟩ := h
        subst h1 h2
        exact ⟨hafter, by simp⟩
      · simp [hbad] at h
  | NoneEvent actor =>
    simp only [InputHandler, Prod.mk.injEq, Except.ok.injEq] at h
    obtain ⟨h1, h2⟩ := h
    subst h1 h2
    exact ⟨hinv, by simp⟩
  | TimerEvent actor =>
    simp only [InputHandler, Prod.mk.injEq, Except.ok.injEq] at h
    obtain ⟨h1, h2⟩ := h
    subst h1 h2
    exact ⟨hinv, by simp⟩
  | StopEvent actor caught_signal =>
    simp only [InputHandler, Prod.mk.injEq, Except.ok.injEq] at h
    obtain ⟨h1, h2⟩ := h
    subst h1 h2
    exact ⟨hinv, by simp⟩
  | JoinedEvent actor new_actor_name =>
    simp only [InputHandler, Prod.mk.injEq, Except.ok.injEq] at h
    obtain ⟨h1, h2⟩ := h
    subst h1 h2
    exact ⟨hinv, by simp⟩
  | LeftEvent actor disconnection_reason =>
    simp only [InputHandler, Prod.mk.injEq, Except.ok.injEq] at h
    obtain ⟨h1, h2⟩ := h
    subst h1 h2
    exact ⟨hinv, by simp⟩

theorem InputHandler_error (p : ServiceEventRequestProtocol σ)
    (input_event : AnyInputEvent) (handled : List IOCall) (err : Thrown)
    (h : InputHandler p input_event = (handled, .error err)) : handled = [] := by
  cases input_event with
  | ServiceRequestEvent actor service_request =>
    unfold InputHandler at h
    cases hres : (p.handleServiceRequest actor service_request).result with
    | ok response => simp [hres] at h
    | error e =>
      simp only [hres] at h
      by_cases hbad : e.isBadServiceRequest = true
      · simp [hbad] at h
      · simp only [hbad, Bool.false_eq_true, if_false, Prod.mk.injEq] at h
        exact h.1.symm
  | NoneEvent actor => simp [InputHandler] at h
  | TimerEvent actor => simp [InputHandler] at h
  | StopEvent actor caught_signal => simp [InputHandler] at h
  | JoinedEvent actor new_actor_name => simp [InputHandler] at h
  | LeftEvent actor disconnection_reason => simp [InputHandler] at h

theorem mainLoop_waits (inputs : List AnyInputEvent) : ∀ p : ServiceEventRequestProtocol σ,
    CacheInvariant p → p.pendingEvents = 0 →
    (∀ k, IOCall.waitForInput k ∈ (mainLoop inputs p).1 → k = 0) ∧
    ∃ done_successfully, (mainLoop inputs p).2 = .returned done_successfully := by
  induction inputs with
  | nil => intro p _ _; exact ⟨by simp [mainLoop], true, rfl⟩
  | cons input_event rest ih =>
    intro p hinv hzero
    unfold mainLoop
    cases hhandled : InputHandler p input_event with
    | mk handled outcome =>
      cases outcome with
      | error err =>
        have hnil := InputHandler_error p input_event handled err hhandled
        subst hnil
        refine ⟨?_, false, rfl⟩
        intro k hk
        simp only [List.mem_singleton, IOCall.waitForInput.injEq] at hk
        omega
      | ok after_input =>
        obtain ⟨hinv1, hnowait⟩ := InputHandler_invariant p after_input input_event handled hinv hhandled
        obtain ⟨output, after_events, hpoll, hinv2, hz2, _, hout⟩ :=
          pollEvents_finishes (after_input.pendingEvents + 1) after_input hinv1 (by omega)
        obtain ⟨hwait, hend⟩ := ih after_events hinv2 hz2
        simp only [hpoll]
        refine ⟨?_, hend⟩
        intro k hk
        simp only [List.mem_cons, IOCall.waitForInput.injEq, List.mem_append] at hk
        rcases hk with hk | (hk | hk) | hk
        · omega
        · exact absurd hk (hnowait k)
        · obtain ⟨event, hev⟩ := hout _ hk
          exact absurd hev (by simp)
        · exact hwait k hk

end Executor
end RpT

/-! ## The executor on service requests, empty polls and the base of the RUID -/

namespace RpT
namespace Executor
open ServiceEventRequestProtocol
variable {σ : Type}

theorem reachable_constructed_chat :
    Reachable (⟨⟨0⟩, [ChatService.service], []⟩ : ServiceEventRequestProtocol Bool) :=
  Reachable.constructed [ChatService.service] ⟨0⟩ _ (by simp [ChatService.service]) rfl

/-- C16: when the executor handles a service request of actor `a` in a reachable state, a
response of the protocol gives exactly one `replyTo(a, response)` and nothing else; a format
error (`BadServiceRequest`) gives exactly one `closePipelineWith(a, error)`, no reply, leaves
the protocol as it was, and the loop goes on with the polling of events and the next inputs. -/
theorem executor_service_request (p : ServiceEventRequestProtocol σ) (actor : Nat)
    (service_request : String) (rest : List AnyInputEvent) (hreach : Reachable p) :
    (∀ response, (p.handleServiceRequest actor service_request).result = .ok response →
      InputHandler p (.ServiceRequestEvent actor service_request) =
        ([.replyTo actor response],
          .ok (p.handleServiceRequest actor service_request).protocol)) ∧
    (∀ err, (p.handleServiceRequest actor service_request).result = .error err →
      err.isBadServiceRequest = true →
      InputHandler p (.ServiceRequestEvent actor service_request) =
        ([.closePipelineWith actor err], .ok p) ∧
      ∃ output after_events,
        pollEvents (p.pendingEvents + 1) p = (output, some (.ok after_events)) ∧
        mainLoop (.ServiceRequestEvent actor service_request :: rest) p =
          (.waitForInput p.pendingEvents :: .closePipelineWith actor err ::
              (output ++ (mainLoop rest after_events).1),
            (mainLoop rest after_events).2)) := by
  constructor
  · intro response hres
    simp only [InputHandler, hres]
  · intro err hres hbad
    have hprot := (protocol_of_error p actor service_request err hres).1
    have hhandled : InputHandler p (.ServiceRequestEvent actor service_request) =
        ([.closePipelineWith actor err], .ok p) := by
      simp only [InputHandler, hres, hbad, if_true, hprot]
    refine ⟨hhandled, ?_⟩
    obtain ⟨output, after_events, hpoll, _⟩ :=
      pollEvents_finishes (p.pendingEvents + 1) p (reachable_invariant p hreach) (by omega)
    refine ⟨output, after_events, hpoll, ?_⟩
    rw [mainLoop]
    simp only [hhandled, hpoll, List.singleton_append, List.cons_append, List.nil_append]

/-- C16, on the command `REQUEST 1` of actor 5, which has too few tokens. -/
theorem executor_service_request_witness :
    InputHandler (⟨⟨0⟩, [ChatService.service], []⟩ : ServiceEventRequestProtocol Bool)
        (.ServiceRequestEvent 5 "REQUEST 1") =
      ([.closePipelineWith 5 (.InvalidRequestFormat "REQUEST 1"
          "Expected SER command prefix and request service name")],
        .ok ⟨⟨0⟩, [ChatService.service], []⟩) :=
  ((executor_service_request ⟨⟨0⟩, [ChatService.service], []⟩ 5 "REQUEST 1" []
    reachable_constructed_chat).2 _ (by decide) (by decide)).1

theorem result_of_unknown_service (p : ServiceEventRequestProtocol σ) (actor n : Nat)
    (service_request ruid_word name : String) (more : List String)
    (htokens : tokens service_request = REQUEST_PREFIX :: ruid_word :: name :: more)
    (hruid : stoull ruid_word.data = .value n)
    (hreg : p.isRegistered name = false) :
    (p.handleServiceRequest actor service_request).result = .error (.ServiceNotFound name) := by
  obtain ⟨unparsed, hcreate⟩ := create_of_tokens service_request 3 (by simp [htokens])
  simp only [htokens, List.take_succ_cons, List.take_zero] at hcreate
  have hparse : parseServiceRequest service_request =
      .ok ⟨⟨[REQUEST_PREFIX, ruid_word, name], unparsed⟩, n⟩ := by
    unfold parseServiceRequest ServiceRequestCommandParser.create
    simp only [hcreate]
    have : stoull (TextProtocolParser.getParsedWord
        ⟨[REQUEST_PREFIX, ruid_word, name], unparsed⟩ 1).data = .value n := hruid
    simp only [this]
    simp [ServiceRequestCommandParser.isValidRequest, TextProtocolParser.getParsedWord]
  have hname : ServiceRequestCommandParser.intendedServiceName
      ⟨⟨[REQUEST_PREFIX, ruid_word, name], unparsed⟩, n⟩ = name := rfl
  unfold handleServiceRequest
  simp [hparse, hname, hreg]

/-- C17: when the input is a service request of at least three tokens, with the marker
`REQUEST` and a RUID that converts, naming a service that is not registered, `ServiceNotFound`
escapes the input handler; the trace of the loop from there holds the `waitForInput` of that
input alone (no reply, no closed pipeline, no event, no further input) and `run()` returns
`false`. -/
theorem executor_unknown_service (p : ServiceEventRequestProtocol σ) (actor n : Nat)
    (service_request ruid_word name : String) (more : List String) (rest : List AnyInputEvent)
    (htokens : tokens service_request = REQUEST_PREFIX :: ruid_word :: name :: more)
    (hruid : stoull ruid_word.data = .value n)
    (hreg : p.isRegistered name = false) :
    InputHandler p (.ServiceRequestEvent actor service_request) =
      ([], .error (.ServiceNotFound name)) ∧
    mainLoop (.ServiceRequestEvent actor service_request :: rest) p =
      ([.waitForInput p.pendingEvents], .returned false) := by
  have hres := result_of_unknown_service p actor n service_request ruid_word name more htokens
    hruid hreg
  have hhandled : InputHandler p (.ServiceRequestEvent actor service_request) =
      ([], .error (.ServiceNotFound name)) := by
    simp only [InputHandler, hres, Thrown.isBadServiceRequest, Bool.false_eq_true, if_false]
  refine ⟨hhandled, ?_⟩
  rw [mainLoop]
  simp only [hhandled]

/-- C17, on a run whose first input is `REQUEST 7 Foo x`: the second input is never fetched. -/
theorem executor_unknown_service_witness :
    run [.ServiceRequestEvent 3 "REQUEST 7 Foo x", .NoneEvent 0] =
      ([.waitForInput 0], .returned false) :=
  (executor_unknown_service ⟨⟨0⟩, [ChatService.service], []⟩ 3 7 "REQUEST 7 Foo x" "7" "Foo"
    ["x"] [.NoneEvent 0] (by decide) (by decide) (by decide)).2

end Executor

namespace ServiceEventRequestProtocol
variable {σ : Type}

/-- C19: in a reachable state where the queue of every registered service is empty,
`pollServiceEvent()` returns empty and leaves the services and the emitters cache exactly as
they were, so a second call does the same. -/
theorem pollServiceEvent_idempotent (p : ServiceEventRequestProtocol σ) (hreach : Reachable p)
    (hempty : ∀ s ∈ p.running_services_, s.events_queue_ = []) :
    p.pollServiceEvent.result = .ok none ∧ p.pollServiceEvent.protocol = p ∧
    p.pollServiceEvent.protocol.pollServiceEvent.result = .ok none ∧
    p.pollServiceEvent.protocol.pollServiceEvent.protocol = p := by
  have hinv := reachable_invariant p hreach
  have hcache : p.latest_se_emitters_cache_ = [] := by
    cases hc : p.latest_se_emitters_cache_ with
    | nil => rfl
    | cons e es =>
      obtain ⟨s, hs, _, hcheck⟩ := hinv.2.2 e (by rw [hc]; exact List.mem_cons_self _ _)
      rw [(checkEvent_eq_none_iff s).2 (hempty s hs)] at hcheck
      exact absurd hcheck (by simp)
  have hscan : cacheEmitters [] p.running_services_ = [] := (scan_eq_nil_iff _).2 hempty
  have hpoll : p.pollServiceEvent = ⟨.ok none, p⟩ := by
    unfold pollServiceEvent selectEmitter
    simp only [hcache, List.isEmpty_nil, Bool.not_true, Bool.false_eq_true, if_false, hscan,
      pollSelected]
    rw [← hcache]
  rw [hpoll]
  simp only [hpoll, and_self]

/-- C19, on the protocol of the chat service right after its construction. -/
theorem pollServiceEvent_idempotent_witness :
    (⟨⟨0⟩, [ChatService.service], []⟩ : ServiceEventRequestProtocol Bool).pollServiceEvent.result
      = .ok none :=
  (pollServiceEvent_idempotent ⟨⟨0⟩, [ChatService.service], []⟩
    Executor.reachable_constructed_chat (by decide)).1

/-- C20: the second token is converted in base 10, not 16.  `ff` raises the format error, `1F`
is taken as RUID 1 (the response is `RESPONSE 1 OK`, while 1F is 31 in base 16), and the decimal
`31` is accepted as RUID 31. -/
theorem handleServiceRequest_ruid_base_ten :
    ((chatProtocol ⟨0⟩ true [] []).handleServiceRequest 3 "REQUEST ff Chat hello").result =
      .error (.BadServiceRequest "Request UID must be an unsigned integer of 64 bits") ∧
    ((chatProtocol ⟨0⟩ true [] []).handleServiceRequest 3 "REQUEST 1F Chat hello").result =
      .ok "RESPONSE 1 OK" ∧
    ((chatProtocol ⟨0⟩ true [] []).handleServiceRequest 3 "REQUEST 31 Chat hello").result =
      .ok "RESPONSE 31 OK" := by
  decide

/-! ## A poll in closed form -/

theorem usedCache_of_ne_nil (p : ServiceEventRequestProtocol σ)
    (hne : p.latest_se_emitters_cache_ ≠ []) : usedCache p = p.latest_se_emitters_cache_ := by
  unfold usedCache
  simp [(isEmpty_eq_false_iff _).2 hne]

theorem usedCache_of_nil (p : ServiceEventRequestProtocol σ)
    (hnil : p.latest_se_emitters_cache_ = []) :
    usedCache p = cacheEmitters [] p.running_services_ := by
  unfold usedCache
  simp [hnil]

theorem selectEmitter_eq (p : ServiceEventRequestProtocol σ) :
    selectEmitter p =
      match cacheTop (usedCache p) with
      | none => (.ok none, { p with latest_se_emitters_cache_ := usedCache p })
      | some top =>
        (.ok (some top.queuedEmitter),
          { p with latest_se_emitters_cache_ := (usedCache p).erase top }) := by
  by_cases hc : p.latest_se_emitters_cache_ = []
  · rw [usedCache_of_nil p hc]
    unfold selectEmitter
    simp only [hc, List.isEmpty_nil, Bool.not_true, Bool.false_eq_true, if_false]
    cases hs : cacheEmitters [] p.running_services_ with
    | nil => simp [cacheTop]
    | cons e es => simp [latestEventEmitter, cacheTop, cachePop]
  · rw [usedCache_of_ne_nil p hc]
    unfold selectEmitter
    simp only [(isEmpty_eq_false_iff _).2 hc, Bool.not_false, if_true]
    obtain ⟨top, htop⟩ := cacheTop_of_ne_nil _ hc
    simp [latestEventEmitter, htop, cachePop]

theorem usedCache_invariant (p : ServiceEventRequestProtocol σ) (hinv : CacheInvariant p) :
    CacheInvariant { p with latest_se_emitters_cache_ := usedCache p } := by
  by_cases hc : p.latest_se_emitters_cache_ = []
  · rw [usedCache_of_nil p hc]
    have := scan_invariant p hinv hc
    rw [hc] at this
    exact this
  · rw [usedCache_of_ne_nil p hc]
    exact hinv

theorem usedCache_eq_nil_iff (p : ServiceEventRequestProtocol σ) (hinv : CacheInvariant p) :
    usedCache p = [] ↔ ∀ s ∈ p.running_services_, s.events_queue_ = [] := by
  by_cases hc : p.latest_se_emitters_cache_ = []
  · rw [usedCache_of_nil p hc]
    exact scan_eq_nil_iff _
  · rw [usedCache_of_ne_nil p hc]
    constructor
    · intro h; exact absurd h hc
    · intro hall
      exfalso
      obtain ⟨e, he⟩ := List.exists_mem_of_ne_nil _ hc
      obtain ⟨s, hs, _, hcheck⟩ := hinv.2.2 e he
      rw [(checkEvent_eq_none_iff s).2 (hall s hs)] at hcheck
      exact absurd hcheck (by simp)

/-- What a poll does in a state that keeps the cache invariant. -/
theorem pollServiceEvent_eq (p : ServiceEventRequestProtocol σ) (hinv : CacheInvariant p) :
    (usedCache p = [] ∧ polledEvent p = none ∧
      p.pollServiceEvent = ⟨.ok none, { p with latest_se_emitters_cache_ := [] }⟩) ∨
    ∃ (top : CachedServiceEventEmitter) (s : Service σ) (event_command : String)
      (rest : List (Nat × String)),
      cacheTop (usedCache p) = some top ∧ top ∈ usedCache p ∧ s ∈ p.running_services_ ∧
      s.name = top.queuedEmitter ∧
      s.events_queue_ = (top.emittedEventId, event_command) :: rest ∧
      polledEvent p = some (s.name, top.emittedEventId, event_command) ∧
      p.pollServiceEvent =
        ⟨.ok (some (EVENT_PREFIX ++ " " ++ s.name ++ " " ++ event_command)),
          ({ p with latest_se_emitters_cache_ := (usedCache p).erase top } :
            ServiceEventRequestProtocol σ).store p.run_context { s with events_queue_ := rest }⟩
    := by
  have hsel := selectEmitter_eq p
  cases htop : cacheTop (usedCache p) with
  | none =>
    left
    have hnil : usedCache p = [] := by
      cases hu : usedCache p with
      | nil => rfl
      | cons e es => simp [hu, cacheTop] at htop
    simp only [htop] at hsel
    refine ⟨hnil, ?_, ?_⟩
    · simp only [polledEvent, hsel]
    · simp only [pollServiceEvent, hsel, pollSelected, hnil]
  | some top =>
    right
    simp only [htop] at hsel
    have htopmem := cacheTop_mem _ _ htop
    obtain ⟨hnames, _, hentries⟩ := usedCache_invariant p hinv
    obtain ⟨s, hs, hsname, hscheck⟩ := hentries top htopmem
    have hs' : s ∈ p.running_services_ := hs
    have hat : at_ p.running_services_ top.queuedEmitter = some s := by
      rw [← hsname]; exact at_of_mem _ s hinv.1 hs'
    have hq : ∃ event_command rest,
        s.events_queue_ = (top.emittedEventId, event_command) :: rest := by
      cases hqueue : s.events_queue_ with
      | nil => simp [Service.checkEvent, hqueue] at hscheck
      | cons ev rest =>
        obtain ⟨id, event_command⟩ := ev
        simp only [Service.checkEvent, hqueue, List.head?_cons, Option.map_some',
          Option.some.injEq] at hscheck
        exact ⟨event_command, rest, by rw [hscheck]⟩
    obtain ⟨event_command, rest, hqueue⟩ := hq
    have hpoll : s.pollEvent = some (event_command, { s with events_queue_ := rest }) := by
      simp [Service.pollEvent, hqueue]
    refine ⟨top, s, event_command, rest, rfl, htopmem, hs', hsname, hqueue, ?_, ?_⟩
    · simp only [polledEvent, hsel, hat, hqueue, List.head?_cons, Option.map_some']
    · simp only [pollServiceEvent, hsel, pollSelected, hat, hpoll]

/-! ## The cache: smallest id, frame of a poll, invariant -/

theorem lt_iff (a b : CachedServiceEventEmitter) :
    a.lt b = true ↔ b.emittedEventId ≤ a.emittedEventId := by
  simp [CachedServiceEventEmitter.lt, CachedServiceEventEmitter.gt]

theorem foldl_top_le (es : List CachedServiceEventEmitter) : ∀ e : CachedServiceEventEmitter,
    (es.foldl (fun best x => if best.lt x then x else best) e).emittedEventId ≤ e.emittedEventId ∧
    ∀ x ∈ es, (es.foldl (fun best x => if best.lt x then x else best) e).emittedEventId ≤
      x.emittedEventId := by
  induction es with
  | nil => intro e; simp
  | cons y ys ih =>
    intro e
    simp only [List.foldl_cons]
    by_cases h : e.lt y = true
    · have hle := (lt_iff e y).1 h
      obtain ⟨h1, h2⟩ := ih y
      simp only [h, if_true]
      refine ⟨le_trans h1 hle, ?_⟩
      intro x hx
      rcases List.mem_cons.1 hx with rfl | hx
      · exact h1
      · exact h2 x hx
    · have h' : e.lt y = false := by simpa using h
      have hlt : e.emittedEventId < y.emittedEventId := by
        by_contra hcon
        exact h ((lt_iff e y).2 (by omega))
      obtain ⟨h1, h2⟩ := ih e
      simp only [h', Bool.false_eq_true, if_false]
      refine ⟨h1, ?_⟩
      intro x hx
      rcases List.mem_cons.1 hx with rfl | hx
      · omega
      · exact h2 x hx

theorem cacheTop_le (cache : List CachedServiceEventEmitter) (top : CachedServiceEventEmitter)
    (h : cacheTop cache = some top) : ∀ e ∈ cache, top.emittedEventId ≤ e.emittedEventId := by
  cases cache with
  | nil => simp [cacheTop] at h
  | cons x xs =>
    simp only [cacheTop, Option.some.injEq] at h
    intro e he
    rw [← h]
    rcases List.mem_cons.1 he with rfl | he
    · exact (foldl_top_le xs e).1
    · exact (foldl_top_le xs x).2 e he

/-- C22: on a cache that is not empty and whose entries have pairwise distinct event ids,
`latestEventEmitter()` returns the service of the entry whose id is smaller than the id of
every other entry, and removes that entry and no other; `operator>` holds when the left id is
the smaller one, `operator<` is its negation, so that of two entries with distinct ids exactly
one is `<` the other. -/
theorem latestEventEmitter_smallest (p : ServiceEventRequestProtocol σ)
    (hne : p.latest_se_emitters_cache_ ≠ [])
    (hids : (p.latest_se_emitters_cache_.map (fun e => e.emittedEventId)).Nodup) :
    (∃ top ∈ p.latest_se_emitters_cache_,
      (∀ e ∈ p.latest_se_emitters_cache_, e ≠ top → top.emittedEventId < e.emittedEventId) ∧
      latestEventEmitter p =
        (.ok (some top.queuedEmitter),
          { p with latest_se_emitters_cache_ := p.latest_se_emitters_cache_.erase top }) ∧
      top ∉ p.latest_se_emitters_cache_.erase top ∧
      ∀ e ∈ p.latest_se_emitters_cache_, e ≠ top → e ∈ p.latest_se_emitters_cache_.erase top) ∧
    ∀ a b : CachedServiceEventEmitter, a.emittedEventId ≠ b.emittedEventId →
      (a.gt b = true ↔ a.emittedEventId < b.emittedEventId) ∧
      (a.lt b = true ↔ b.emittedEventId < a.emittedEventId) ∧
      (a.lt b = true ↔ ¬ a.gt b = true) ∧ (a.lt b = true ↔ ¬ b.lt a = true) := by
  constructor
  · obtain ⟨top, htop⟩ := cacheTop_of_ne_nil _ hne
    have hmem := cacheTop_mem _ _ htop
    have hle := cacheTop_le _ _ htop
    have hnd : p.latest_se_emitters_cache_.Nodup := List.Nodup.of_map _ hids
    refine ⟨top, hmem, ?_, ?_, ?_, ?_⟩
    · intro e he hne'
      have h1 := hle e he
      have h2 : top.emittedEventId ≠ e.emittedEventId := by
        intro heq
        exact hne' (List.inj_on_of_nodup_map hids he hmem heq.symm)
      omega
    · simp [latestEventEmitter, htop, cachePop]
    · intro hcon
      exact ((List.Nodup.mem_erase_iff hnd).1 hcon).1 rfl
    · intro e he hne'
      exact (List.Nodup.mem_erase_iff hnd).2 ⟨hne', he⟩
  · intro a b hab
    have h1 : (a.gt b = true ↔ a.emittedEventId < b.emittedEventId) := by
      simp [CachedServiceEventEmitter.gt]
    have h2 := lt_iff a b
    have h3 := lt_iff b a
    refine ⟨h1, ?_, ?_, ?_⟩
    · rw [h2]; omega
    · rw [h2, h1]; omega
    · rw [h2, h3]; omega

/-- C22, on a cache of three entries pushed with the ids 5, 2 and 9. -/
theorem latestEventEmitter_smallest_witness :
    ∃ top ∈ [(⟨5, "A"⟩ : CachedServiceEventEmitter), ⟨2, "B"⟩, ⟨9, "C"⟩],
      (∀ e ∈ [(⟨5, "A"⟩ : CachedServiceEventEmitter), ⟨2, "B"⟩, ⟨9, "C"⟩], e ≠ top →
        top.emittedEventId < e.emittedEventId) ∧
      latestEventEmitter (⟨⟨10⟩, [], [⟨5, "A"⟩, ⟨2, "B"⟩, ⟨9, "C"⟩]⟩ :
          ServiceEventRequestProtocol Bool) =
        (.ok (some top.queuedEmitter),
          ⟨⟨10⟩, [], [(⟨5, "A"⟩ : CachedServiceEventEmitter), ⟨2, "B"⟩, ⟨9, "C"⟩].erase top⟩) ∧
      top ∉ [(⟨5, "A"⟩ : CachedServiceEventEmitter), ⟨2, "B"⟩, ⟨9, "C"⟩].erase top ∧
      ∀ e ∈ [(⟨5, "A"⟩ : CachedServiceEventEmitter), ⟨2, "B"⟩, ⟨9, "C"⟩], e ≠ top →
        e ∈ [(⟨5, "A"⟩ : CachedServiceEventEmitter), ⟨2, "B"⟩, ⟨9, "C"⟩].erase top :=
  (latestEventEmitter_smallest
    (⟨⟨10⟩, [], [⟨5, "A"⟩, ⟨2, "B"⟩, ⟨9, "C"⟩]⟩ : ServiceEventRequestProtocol Bool)
    (by decide) (by decide)).1

/-- C23: in a reachable state, when `pollServiceEvent()` returns a text, a registered service S
has a pending event and the text is `EVENT`, the name of S and the payload of the oldest event
of S; in the state left the queue of S has lost that event alone and every other registered
service is as it was. -/
theorem pollServiceEvent_frame (p : ServiceEventRequestProtocol σ) (text : String)
    (hreach : Reachable p) (hres : p.pollServiceEvent.result = .ok (some text)) :
    ∃ S ∈ p.running_services_, ∃ (id : Nat) (payload : String) (rest : List (Nat × String)),
      S.events_queue_ = (id, payload) :: rest ∧
      text = "EVENT " ++ S.name ++ " " ++ payload ∧
      (∀ s ∈ p.running_services_, s.name = S.name → s = S) ∧
      p.pollServiceEvent.protocol.running_services_ =
        p.running_services_.map
          (fun s => if s.name == S.name then { S with events_queue_ := rest } else s) ∧
      p.pollServiceEvent.protocol.run_context = p.run_context := by
  have hinv := reachable_invariant p hreach
  rcases pollServiceEvent_eq p hinv with ⟨_, _, hpoll⟩ | ⟨top, s, event_command, rest, _, _, hs,
    _, hqueue, _, hpoll⟩
  · rw [hpoll] at hres
    exact absurd hres (by simp)
  · rw [hpoll] at hres ⊢
    simp only [Except.ok.injEq, Option.some.injEq] at hres
    refine ⟨s, hs, top.emittedEventId, event_command, rest, hqueue, ?_, ?_, rfl, rfl⟩
    · rw [← hres]; rfl
    · intro s' hs' hname
      exact List.inj_on_of_nodup_map hinv.1 hs' hs hname

/-- C23, on the first poll after `A` emitted twice and `B` once. -/
theorem pollServiceEvent_frame_witness :
    ∃ S ∈ relayRun.running_services_, ∃ (id : Nat) (payload : String)
      (rest : List (Nat × String)),
      S.events_queue_ = (id, payload) :: rest ∧
      "EVENT A first" = "EVENT " ++ S.name ++ " " ++ payload ∧
      (∀ s ∈ relayRun.running_services_, s.name = S.name → s = S) ∧
      relayRun.pollServiceEvent.protocol.running_services_ =
        relayRun.running_services_.map
          (fun s => if s.name == S.name then { S with events_queue_ := rest } else s) ∧
      relayRun.pollServiceEvent.protocol.run_context = relayRun.run_context :=
  pollServiceEvent_frame relayRun "EVENT A first" reachable_relayRun (by decide)

/-- C26: in every reachable state no service is cached twice, every cached entry names a
registered service whose queue is not empty and whose `checkEvent()` reports the cached id, the
cache holds no more entries than there are registered services, and `pollServiceEvent()` fails
no assertion: `pollEvent()` is not called on an empty queue. -/
theorem cache_invariant (p : ServiceEventRequestProtocol σ) (hreach : Reachable p) :
    (p.latest_se_emitters_cache_.map (fun e => e.queuedEmitter)).Nodup ∧
    (∀ e ∈ p.latest_se_emitters_cache_, ∃ s ∈ p.running_services_,
      s.name = e.queuedEmitter ∧ s.events_queue_ ≠ [] ∧
      s.checkEvent = some e.emittedEventId) ∧
    p.latest_se_emitters_cache_.length ≤ p.running_services_.length ∧
    ∃ polled, p.pollServiceEvent.result = .ok polled := by
  have hinv := reachable_invariant p hreach
  obtain ⟨hnames, hcache, hentries⟩ := hinv
  refine ⟨hcache, ?_, ?_, ?_⟩
  · intro e he
    obtain ⟨s, hs, hname, hcheck⟩ := hentries e he
    refine ⟨s, hs, hname, ?_, hcheck⟩
    intro hq
    rw [(checkEvent_eq_none_iff s).2 hq] at hcheck
    exact absurd hcheck (by simp)
  · have hsub : p.latest_se_emitters_cache_.map (fun e => e.queuedEmitter) ⊆
        p.running_services_.map (fun s => s.name) := by
      intro name hname
      obtain ⟨e, he, rfl⟩ := List.mem_map.1 hname
      obtain ⟨s, hs, hsname, _⟩ := hentries e he
      exact List.mem_map.2 ⟨s, hs, hsname⟩
    have := (List.subperm_of_subset hcache hsub).length_le
    simpa using this
  · rcases pollServiceEvent_eq p ⟨hnames, hcache, hentries⟩ with ⟨_, _, hpoll⟩ | ⟨_, _, _, _, _, _,
      _, _, _, _, hpoll⟩
    · exact ⟨none, by rw [hpoll]⟩
    · exact ⟨_, by rw [hpoll]⟩

/-- C26, on the state left by the first poll after `A` emitted twice and `B` once. -/
theorem cache_invariant_witness :
    relayRun.pollServiceEvent.protocol.latest_se_emitters_cache_.length ≤
      relayRun.pollServiceEvent.protocol.running_services_.length :=
  (cache_invariant relayRun.pollServiceEvent.protocol
    (Reachable.polled relayRun reachable_relayRun)).2.2.1

/-! ## Staleness of the cache and messages of the chat service -/

theorem cache_emit (p : ServiceEventRequestProtocol σ) (service event_command : String) :
    (p.emit service event_command).latest_se_emitters_cache_ = p.latest_se_emitters_cache_ := by
  unfold emit
  cases at_ p.running_services_ service <;> rfl

theorem cache_handleServiceRequest (p : ServiceEventRequestProtocol σ) (actor : Nat)
    (service_request : String) :
    (p.handleServiceRequest actor service_request).protocol.latest_se_emitters_cache_ =
      p.latest_se_emitters_cache_ := by
  unfold handleServiceRequest
  cases parseServiceRequest service_request with
  | error e => rfl
  | ok q =>
    simp only
    by_cases hreg : p.isRegistered q.intendedServiceName = true
    · simp only [hreg, Bool.not_true, Bool.false_eq_true, if_false]
      cases hat : at_ p.running_services_ q.intendedServiceName with
      | none => rfl
      | some svc =>
        simp only
        cases (svc.handleRequestCommand actor q.commandData svc.state).outcome with
        | error what => rfl
        | ok command_result =>
          by_cases hs : command_result.success = true
          · simp only [hs, if_true]; rfl
          · simp only [hs, Bool.false_eq_true, if_false]; rfl
    · have hreg' : p.isRegistered q.intendedServiceName = false := by simpa using hreg
      simp only [hreg', Bool.not_false, if_true]

theorem pollServiceEvent_of_cache (p : ServiceEventRequestProtocol σ) (hinv : CacheInvariant p)
    (hne : p.latest_se_emitters_cache_ ≠ []) :
    ∃ top ∈ p.latest_se_emitters_cache_, ∃ payload : String,
      p.pollServiceEvent.result =
        .ok (some ("EVENT " ++ top.queuedEmitter ++ " " ++ payload)) ∧
      p.pollServiceEvent.protocol.latest_se_emitters_cache_ =
        p.latest_se_emitters_cache_.erase top := by
  have hused := usedCache_of_ne_nil p hne
  rcases pollServiceEvent_eq p hinv with ⟨hnil, _, _⟩ | ⟨top, s, event_command, rest, _, hmem, _,
    hname, _, _, hpoll⟩
  · rw [hused] at hnil
    exact absurd hnil hne
  · rw [hused] at hmem hpoll
    refine ⟨top, hmem, event_command, ?_, ?_⟩
    · rw [hpoll, hname]; rfl
    · rw [hpoll]; rfl

theorem pollResults_of_cache (actions : List Action) : ∀ p : ServiceEventRequestProtocol σ,
    CacheInvariant p →
    actions.count Action.pollServiceEvent ≤ p.latest_se_emitters_cache_.length →
    ∀ r ∈ pollResults p actions, ∃ e ∈ p.latest_se_emitters_cache_, ∃ payload : String,
      r = .ok (some ("EVENT " ++ e.queuedEmitter ++ " " ++ payload)) := by
  induction actions with
  | nil => intro p _ _ r hr; simp [pollResults] at hr
  | cons action rest ih =>
    intro p hinv hcount r hr
    cases action with
    | emitEvent service event_command =>
      simp only [pollResults, afterAction] at hr
      have hc := cache_emit p service event_command
      have := ih (p.emit service event_command) (emit_invariant p service event_command hinv)
        (by rw [hc]; simpa using hcount) r hr
      rw [hc] at this
      exact this
    | handleServiceRequest actor service_request =>
      simp only [pollResults, afterAction] at hr
      have hc := cache_handleServiceRequest p actor service_request
      have := ih (p.handleServiceRequest actor service_request).protocol
        (handleServiceRequest_invariant p actor service_request hinv)
        (by rw [hc]; simpa using hcount) r hr
      rw [hc] at this
      exact this
    | pollServiceEvent =>
      simp only [List.count_cons_self] at hcount
      have hne : p.latest_se_emitters_cache_ ≠ [] := by
        intro h
        rw [h] at hcount
        simp at hcount
      obtain ⟨top, htop, payload, hres, hcache⟩ := pollServiceEvent_of_cache p hinv hne
      simp only [pollResults, List.mem_cons] at hr
      rcases hr with rfl | hr
      · exact ⟨top, htop, payload, hres⟩
      · have hlen : (p.latest_se_emitters_cache_.erase top).length + 1 =
            p.latest_se_emitters_cache_.length := by
          rw [List.length_erase_of_mem htop]
          have : 0 < p.latest_se_emitters_cache_.length := List.length_pos.2 hne
          omega
        obtain ⟨e, he, payload', hr'⟩ := ih p.pollServiceEvent.protocol
          (pollServiceEvent_spec p hinv).1 (by rw [hcache]; omega) r hr
        rw [hcache] at he
        exact ⟨e, List.mem_of_mem_erase he, payload', hr'⟩

/-- C21: in a reachable state whose emitters cache is not empty, `pollServiceEvent()` takes its
emitter from the cache, which loses that entry and gains none; so, over any sequence of
emissions, requests and polls with no more polls than the cache has entries, every poll returns
an event of a service that was in the cache at the start, whatever the other services emit. -/
theorem cache_staleness (p : ServiceEventRequestProtocol σ) (actions : List Action)
    (hreach : Reachable p)
    (hpolls : actions.count Action.pollServiceEvent ≤ p.latest_se_emitters_cache_.length) :
    (p.latest_se_emitters_cache_ ≠ [] →
      ∃ top ∈ p.latest_se_emitters_cache_, ∃ payload : String,
        p.pollServiceEvent.result =
          .ok (some ("EVENT " ++ top.queuedEmitter ++ " " ++ payload)) ∧
        p.pollServiceEvent.protocol.latest_se_emitters_cache_ =
          p.latest_se_emitters_cache_.erase top) ∧
    ∀ r ∈ pollResults p actions, ∃ e ∈ p.latest_se_emitters_cache_, ∃ payload : String,
      r = .ok (some ("EVENT " ++ e.queuedEmitter ++ " " ++ payload)) :=
  ⟨pollServiceEvent_of_cache p (reachable_invariant p hreach),
    pollResults_of_cache actions p (reachable_invariant p hreach) hpolls⟩

/-- C21, on the state where `B` alone is cached: `A`, which is not cached, holds an older event
and emits one more, and the next poll returns the event of `B`. -/
theorem cache_staleness_witness :
    relayRun.pollServiceEvent.protocol.latest_se_emitters_cache_ = [⟨2, "B"⟩] ∧
    pollResults relayRun.pollServiceEvent.protocol
      [.emitEvent "A" "fourth", .pollServiceEvent] = [.ok (some "EVENT B third")] ∧
    ∀ r ∈ pollResults relayRun.pollServiceEvent.protocol
        [.emitEvent "A" "fourth", .pollServiceEvent],
      ∃ e ∈ relayRun.pollServiceEvent.protocol.latest_se_emitters_cache_, ∃ payload : String,
        r = .ok (some ("EVENT " ++ e.queuedEmitter ++ " " ++ payload)) :=
  ⟨by decide, by decide,
    (cache_staleness relayRun.pollServiceEvent.protocol
      [.emitEvent "A" "fourth", .pollServiceEvent]
      (Reachable.polled relayRun reachable_relayRun) (by decide)).2⟩

theorem parseWords_unparsed (k : Nat) : ∀ (fuel : Nat) (cs : List Char)
    (words : List (List Char)) (unparsed : List Char),
    cs.length ≤ fuel → parseWords k cs = some (words, unparsed) →
    (unparsed ≠ [] ↔ k < (tokensAux fuel cs).length) := by
  induction k with
  | zero =>
    intro fuel cs words unparsed hfuel h
    simp only [parseWords, Option.some.injEq, Prod.mk.injEq] at h
    obtain ⟨_, hu⟩ := h
    by_cases hs : (skipSeparators cs).isEmpty = true
    · have hnil : skipSeparators cs = [] := List.isEmpty_iff.1 hs
      have : tokensAux fuel cs = [] := by
        cases fuel with
        | zero => rfl
        | succ fuel => simp [tokensAux, hs]
      simp [← hu, hnil, this]
    · have hs' : (skipSeparators cs).isEmpty = false := by simpa using hs
      have hne : skipSeparators cs ≠ [] := (List.isEmpty_eq_false).1 hs'
      have hlen := length_afterWord_skipSeparators cs hs'
      cases fuel with
      | zero => omega
      | succ fuel => simp [tokensAux, hs', ← hu, hne]
  | succ k ih =>
    intro fuel cs words unparsed hfuel h
    by_cases hs : (skipSeparators cs).isEmpty = true
    · simp [parseWords, hs] at h
    · have hs' : (skipSeparators cs).isEmpty = false := by simpa using hs
      have hlen := length_afterWord_skipSeparators cs hs'
      cases fuel with
      | zero => omega
      | succ fuel =>
        simp only [parseWords, hs', Bool.false_eq_true, if_false] at h
        cases hp : parseWords k (afterWord (skipSeparators cs)) with
        | none => simp [hp] at h
        | some r =>
          obtain ⟨ws, u⟩ := r
          simp only [hp, Option.some.injEq, Prod.mk.injEq] at h
          have ih' := ih fuel (afterWord (skipSeparators cs)) ws u (by omega) hp
          rw [← h.2, ih']
          simp [tokensAux, hs']

theorem create_unparsed (command : String) (k : Nat) (parsed : TextProtocolParser)
    (h : TextProtocolParser.create command k = .ok parsed) :
    (parsed.unparsed_words_.data ≠ [] ↔ k < (tokens command).length) := by
  unfold TextProtocolParser.create at h
  cases hp : parseWords k command.data with
  | none => simp [hp] at h
  | some r =>
    obtain ⟨words, unparsed⟩ := r
    simp only [hp, Except.ok.injEq] at h
    have := parseWords_unparsed k command.data.length command.data words unparsed (le_refl _) hp
    rw [← h]
    simpa [tokens] using this

end ServiceEventRequestProtocol

namespace ChatService
open ServiceEventRequestProtocol

/-- C24: for every actor and every payload that has a first word other than `/toggle`, the chat
handler, when enabled, returns success and emits the one event `MESSAGE_FROM <actor> <payload>`
(the actor in decimal, the payload as received); when disabled it returns the failure
`Chat disabled by admin.` and emits nothing; the flag `enabled_` is left as it was. -/
theorem chat_message (actor : Nat) (payload first : String) (more : List String)
    (htokens : tokens payload = first :: more) (hfirst : first ≠ "/toggle") :
    handleRequestCommand actor payload true =
      ⟨true, ["MESSAGE_FROM " ++ to_string actor ++ " " ++ payload], .ok ⟨none⟩⟩ ∧
    handleRequestCommand actor payload false =
      ⟨false, [], .ok ⟨some "Chat disabled by admin."⟩⟩ := by
  obtain ⟨unparsed, hcreate⟩ := create_of_tokens payload 1 (by simp [htokens])
  simp only [htokens, List.take_succ_cons, List.take_zero] at hcreate
  have htoggle : isToggle ⟨[first], unparsed⟩ = false := by
    simp [isToggle, TextProtocolParser.getParsedWord, hfirst]
  constructor <;> simp [handleRequestCommand, hcreate, htoggle]

/-- C24, on the message `hello world` of actor 5. -/
theorem chat_message_witness :
    handleRequestCommand 5 "hello world" true =
      ⟨true, ["MESSAGE_FROM " ++ to_string 5 ++ " " ++ "hello world"], .ok ⟨none⟩⟩ :=
  (chat_message 5 "hello world" "hello" ["world"] (by decide) (by decide)).1

/-- C25: for every actor, admin or not, and every payload whose first word is `/toggle` and that
has a further word, the chat handler returns the failure
`Invalid arguments for /toggle: command hasn't any args`, emits nothing and leaves the flag
`enabled_` as it was. -/
theorem chat_toggle_extra_args (actor : Nat) (payload second : String) (more : List String)
    (enabled_ : Bool) (htokens : tokens payload = "/toggle" :: second :: more) :
    handleRequestCommand actor payload enabled_ =
      ⟨enabled_, [], .ok ⟨some "Invalid arguments for /toggle: command hasn't any args"⟩⟩ := by
  obtain ⟨unparsed, hcreate⟩ := create_of_tokens payload 1 (by simp [htokens])
  simp only [htokens, List.take_succ_cons, List.take_zero] at hcreate
  have hun := (create_unparsed payload 1 _ hcreate).2 (by simp [htokens])
  have htoggle : isToggle ⟨["/toggle"], unparsed⟩ = true := by
    simp [isToggle, TextProtocolParser.getParsedWord]
  have hextra : extraArgs ⟨["/toggle"], unparsed⟩ = true := by
    simp only [extraArgs, TextProtocolParser.unparsedWords]
    cases hd : unparsed.data with
    | nil => exact absurd hd hun
    | cons c cs => rfl
  simp [handleRequestCommand, hcreate, htoggle, hextra]

/-- C25, on the admin sending `/toggle now`. -/
theorem chat_toggle_extra_args_witness :
    handleRequestCommand 0 "/toggle now" true =
      ⟨true, [], .ok ⟨some "Invalid arguments for /toggle: command hasn't any args"⟩⟩ :=
  chat_toggle_extra_args 0 "/toggle now" "now" [] true (by decide)

end ChatService
end RpT

/-! ## Polls until the queues are empty -/

namespace RpT
namespace ServiceEventRequestProtocol
variable {σ : Type}

theorem mem_store_self (p : ServiceEventRequestProtocol σ) (ctx : ServiceContext)
    (svc0 svc : Service σ) (hmem : svc0 ∈ p.running_services_) (hname : svc.name = svc0.name) :
    svc ∈ (p.store ctx svc).running_services_ := by
  have := mem_store p ctx svc svc0 hmem
  simpa [hname] using this

theorem drainedEvents_spec (k : Nat) : ∀ p : ServiceEventRequestProtocol σ,
    CacheInvariant p → p.pendingEvents = k →
    pollResults p (List.replicate (k + 1) Action.pollServiceEvent) =
      (drainedEvents k p).map (fun ev => Except.ok (some (eventCommand ev))) ++ [.ok none] ∧
    (drainedEvents k p).length = k ∧
    (∀ S ∈ p.running_services_,
      ((drainedEvents k p).filter (fun ev => ev.1 == S.name)).map (fun ev => ev.2) =
        S.events_queue_) ∧
    ∀ ev ∈ drainedEvents k p, ∃ S ∈ p.running_services_, S.name = ev.1 ∧
      ev.2 ∈ S.events_queue_ := by
  induction k with
  | zero =>
    intro p hinv hzero
    have hall := (pendingEvents_eq_zero_iff p).1 hzero
    have hnil := (usedCache_eq_nil_iff p hinv).2 hall
    rcases pollServiceEvent_eq p hinv with ⟨_, _, hpoll⟩ | ⟨top, _, _, _, _, hmem, _⟩
    · refine ⟨?_, rfl, ?_, ?_⟩
      · simp [pollResults, drainedEvents, hpoll]
      · intro S hS
        simp [drainedEvents, hall S hS]
      · intro ev hev
        simp [drainedEvents] at hev
    · rw [hnil] at hmem
      simp at hmem
  | succ k ih =>
    intro p hinv hpending
    rcases pollServiceEvent_eq p hinv with ⟨hnil, _, _⟩ | ⟨top, s, event_command, rest, _, _, hs,
      _, hqueue, hpolled, hpoll⟩
    · have := (pendingEvents_eq_zero_iff p).2 ((usedCache_eq_nil_iff p hinv).1 hnil)
      omega
    · have hinv' := (pollServiceEvent_spec p hinv).1
      have hpending' : p.pollServiceEvent.protocol.pendingEvents = k := by
        rcases pollServiceEvent_pending p hinv with ⟨hres, _, _⟩ | ⟨_, hdec⟩
        · rw [hpoll] at hres
          exact absurd hres (by simp)
        · omega
      obtain ⟨hresults, hlen, hfifo, hmem⟩ := ih p.pollServiceEvent.protocol hinv' hpending'
      have hdrained : drainedEvents (k + 1) p =
          (s.name, top.emittedEventId, event_command) ::
            drainedEvents k p.pollServiceEvent.protocol := by
        simp only [drainedEvents, hpolled]
      have hservices : p.pollServiceEvent.protocol.running_services_ =
          (({ p with latest_se_emitters_cache_ := (usedCache p).erase top } :
            ServiceEventRequestProtocol σ).store p.run_context
              { s with events_queue_ := rest }).running_services_ := by
        rw [hpoll]
      refine ⟨?_, ?_, ?_, ?_⟩
      · rw [List.replicate_succ, pollResults, hresults, hdrained]
        rw [hpoll]
        rfl
      · rw [hdrained, List.length_cons, hlen]
      · intro S hS
        rw [hdrained]
        by_cases hname : S.name = s.name
        · have hSs : S = s := List.inj_on_of_nodup_map hinv.1 hS hs hname
          subst hSs
          have hin : ({ S with events_queue_ := rest } : Service σ) ∈
              p.pollServiceEvent.protocol.running_services_ := by
            rw [hservices]
            exact mem_store_self _ _ S _ hS rfl
          have := hfifo _ hin
          simp only [List.filter_cons, beq_self_eq_true, if_true, List.map_cons]
          rw [hqueue]
          congr 1
        · have hin : S ∈ p.pollServiceEvent.protocol.running_services_ := by
            rw [hservices]
            exact mem_store_of_ne _ _ _ S hS hname
          have hb : ((s.name == S.name) = false) := by
            simpa using fun h : s.name = S.name => hname h.symm
          simp only [List.filter_cons, hb, Bool.false_eq_true, if_false]
          exact hfifo S hin
      · intro ev hev
        rw [hdrained] at hev
        rcases List.mem_cons.1 hev with rfl | hev
        · exact ⟨s, hs, rfl, by rw [hqueue]; exact List.mem_cons_self _ _⟩
        · obtain ⟨S', hS', hname', hin'⟩ := hmem ev hev
          rw [hservices] at hS'
          obtain ⟨x, hx, hxS⟩ := (mem_store_iff _ _ _ _).1 hS'
          by_cases hxn : x.name = s.name
          · have hxs : x = s := List.inj_on_of_nodup_map hinv.1 hx hs hxn
            subst hxs
            simp only [beq_self_eq_true, if_true] at hxS
            subst hxS
            exact ⟨x, hs, hname', by rw [hqueue]; exact List.mem_cons_of_mem _ hin'⟩
          · have hb : (x.name == s.name) = false := by simpa using hxn
            simp only [hb, Bool.false_eq_true, if_false] at hxS
            subst hxS
            exact ⟨x, hx, hname', hin'⟩

/-- C27: in a reachable state with k events pending over the registered services,
`pollServiceEvent()` called k + 1 times with nothing emitted in between returns a text k times
and then empty; the events returned are k events, each pending in the service it names, and
the events returned for any one service are the queue of that service, in its order. -/
theorem drain_complete (p : ServiceEventRequestProtocol σ) (hreach : Reachable p) :
    pollResults p (List.replicate (p.pendingEvents + 1) Action.pollServiceEvent) =
      (drainedEvents p.pendingEvents p).map (fun ev => Except.ok (some (eventCommand ev))) ++
        [.ok none] ∧
    (drainedEvents p.pendingEvents p).length = p.pendingEvents ∧
    (∀ S ∈ p.running_services_,
      ((drainedEvents p.pendingEvents p).filter (fun ev => ev.1 == S.name)).map
        (fun ev => ev.2) = S.events_queue_) ∧
    ∀ ev ∈ drainedEvents p.pendingEvents p, ∃ S ∈ p.running_services_, S.name = ev.1 ∧
      ev.2 ∈ S.events_queue_ :=
  drainedEvents_spec p.pendingEvents p (reachable_invariant p hreach) rfl

/-- C27, on the state where `A` holds the events of ids 0 and 1 and `B` the event of id 2. -/
theorem drain_complete_witness :
    pollResults relayRun (List.replicate (relayRun.pendingEvents + 1) Action.pollServiceEvent) =
      (drainedEvents relayRun.pendingEvents relayRun).map
        (fun ev => Except.ok (some (eventCommand ev))) ++ [.ok none] ∧
    drainedEvents relayRun.pendingEvents relayRun =
      [("A", 0, "first"), ("B", 2, "third"), ("A", 1, "second")] :=
  ⟨(drain_complete relayRun reachable_relayRun).1, by decide⟩

/-! ## Ids of the pending events -/

theorem emitEvents_queue (events : List String) : ∀ (ctx : ServiceContext) (s : Service σ),
    ctx.events_count_ ≤ (Service.emitEvents ctx s events).1.events_count_ ∧
    ∀ ev ∈ (Service.emitEvents ctx s events).2.events_queue_,
      ev ∈ s.events_queue_ ∨
        (ctx.events_count_ ≤ ev.1 ∧ ev.1 < (Service.emitEvents ctx s events).1.events_count_) := by
  induction events with
  | nil => intro ctx s; exact ⟨le_refl _, fun ev hev => Or.inl hev⟩
  | cons event_command rest ih =>
    intro ctx s
    obtain ⟨h1, h2⟩ := ih (Service.emitEvent ctx s event_command).1
      (Service.emitEvent ctx s event_command).2
    have hc : (Service.emitEvent ctx s event_command).1.events_count_ = ctx.events_count_ + 1 :=
      rfl
    have hq : (Service.emitEvent ctx s event_command).2.events_queue_ =
        s.events_queue_ ++ [(ctx.events_count_, event_command)] := rfl
    unfold Service.emitEvents
    refine ⟨by omega, ?_⟩
    intro ev hev
    rcases h2 ev hev with h | ⟨h3, h4⟩
    · rw [hq] at h
      rcases List.mem_append.1 h with h | h
      · exact Or.inl h
      · simp only [List.mem_singleton] at h
        subst h
        exact Or.inr ⟨le_refl _, by omega⟩
    · exact Or.inr ⟨by omega, h4⟩

theorem store_distinctIds (p : ServiceEventRequestProtocol σ) (ctx : ServiceContext)
    (svc0 svc : Service σ) (hd : DistinctIds p) (hmem : svc0 ∈ p.running_services_)
    (hname : svc.name = svc0.name)
    (hcount : p.run_context.events_count_ ≤ ctx.events_count_)
    (hqueue : ∀ ev ∈ svc.events_queue_, ev ∈ svc0.events_queue_ ∨
      (p.run_context.events_count_ ≤ ev.1 ∧ ev.1 < ctx.events_count_)) :
    DistinctIds (p.store ctx svc) := by
  obtain ⟨hdis, hbound⟩ := hd
  have hkey : ∀ s' ∈ (p.store ctx svc).running_services_, ∀ ev ∈ s'.events_queue_,
      (∃ x ∈ p.running_services_, x.name = s'.name ∧ ev ∈ x.events_queue_) ∨
      (s'.name = svc.name ∧ p.run_context.events_count_ ≤ ev.1 ∧ ev.1 < ctx.events_count_) := by
    intro s' hs' ev hev
    obtain ⟨x, hx, hxs⟩ := (mem_store_iff _ _ _ _).1 hs'
    by_cases hxn : x.name = svc.name
    · simp only [hxn, beq_self_eq_true, if_true] at hxs
      subst hxs
      rcases hqueue ev hev with h | h
      · exact Or.inl ⟨svc0, hmem, hname.symm, h⟩
      · exact Or.inr ⟨rfl, h⟩
    · have hb : (x.name == svc.name) = false := by simpa using hxn
      simp only [hb, Bool.false_eq_true, if_false] at hxs
      subst hxs
      exact Or.inl ⟨x, hx, rfl, hev⟩
  constructor
  · intro s1 hs1 s2 hs2 ev1 hev1 ev2 hev2 hid
    rcases hkey s1 hs1 ev1 hev1 with ⟨x1, hx1, hn1, he1⟩ | ⟨hn1, hlo1, _⟩
    · rcases hkey s2 hs2 ev2 hev2 with ⟨x2, hx2, hn2, he2⟩ | ⟨_, hlo2, _⟩
      · rw [← hn1, ← hn2]
        exact hdis x1 hx1 x2 hx2 ev1 he1 ev2 he2 hid
      · have := hbound x1 hx1 ev1 he1
        omega
    · rcases hkey s2 hs2 ev2 hev2 with ⟨x2, hx2, _, he2⟩ | ⟨hn2, _, _⟩
      · have := hbound x2 hx2 ev2 he2
        omega
      · rw [hn1, hn2]
  · intro s' hs' ev hev
    show ev.1 < ctx.events_count_
    rcases hkey s' hs' ev hev with ⟨x, hx, _, he⟩ | ⟨_, _, hhi⟩
    · have := hbound x hx ev he
      omega
    · exact hhi

theorem emit_distinctIds (p : ServiceEventRequestProtocol σ) (service event_command : String)
    (hd : DistinctIds p) : DistinctIds (p.emit service event_command) := by
  unfold emit
  cases hat : at_ p.running_services_ service with
  | none => exact hd
  | some svc =>
    have hq := emitEvents_queue [event_command] p.run_context svc
    exact store_distinctIds p _ svc _ hd (at_eq_some _ _ _ hat).1 rfl hq.1 hq.2

theorem handleServiceRequest_distinctIds (p : ServiceEventRequestProtocol σ) (actor : Nat)
    (service_request : String) (hd : DistinctIds p) :
    DistinctIds (p.handleServiceRequest actor service_request).protocol := by
  unfold handleServiceRequest
  cases parseServiceRequest service_request with
  | error e => exact hd
  | ok q =>
    simp only
    by_cases hreg : p.isRegistered q.intendedServiceName = true
    · simp only [hreg, Bool.not_true, Bool.false_eq_true, if_false]
      cases hat : at_ p.running_services_ q.intendedServiceName with
      | none => exact hd
      | some svc =>
        have hk := emitEvents_keeps
          (svc.handleRequestCommand actor q.commandData svc.state).emitted p.run_context
          { svc with state := (svc.handleRequestCommand actor q.commandData svc.state).state }
        have hq := emitEvents_queue
          (svc.handleRequestCommand actor q.commandData svc.state).emitted p.run_context
          { svc with state := (svc.handleRequestCommand actor q.commandData svc.state).state }
        have hstore := store_distinctIds p
          (Service.emitEvents p.run_context
            { svc with state := (svc.handleRequestCommand actor q.commandData svc.state).state }
            (svc.handleRequestCommand actor q.commandData svc.state).emitted).1 svc
          (Service.emitEvents p.run_context
            { svc with state := (svc.handleRequestCommand actor q.commandData svc.state).state }
            (svc.handleRequestCommand actor q.commandData svc.state).emitted).2
          hd (at_eq_some _ _ _ hat).1 hk.1 hq.1 hq.2
        simp only
        cases (svc.handleRequestCommand actor q.commandData svc.state).outcome with
        | error what => exact hstore
        | ok command_result =>
          by_cases hs : command_result.success = true
          · simp only [hs, if_true]; exact hstore
          · simp only [hs, Bool.false_eq_true, if_false]; exact hstore
    · have hreg' : p.isRegistered q.intendedServiceName = false := by simpa using hreg
      simp only [hreg', Bool.not_false, if_true]
      exact hd

theorem pollServiceEvent_distinctIds (p : ServiceEventRequestProtocol σ)
    (hinv : CacheInvariant p) (hd : DistinctIds p) :
    DistinctIds p.pollServiceEvent.protocol := by
  rcases pollServiceEvent_eq p hinv with ⟨_, _, hpoll⟩ | ⟨top, s, event_command, rest, _, _, hs,
    _, hqueue, _, hpoll⟩
  · rw [hpoll]
    exact hd
  · rw [hpoll]
    apply store_distinctIds
      ({ p with latest_se_emitters_cache_ := (usedCache p).erase top } :
        ServiceEventRequestProtocol σ) p.run_context s { s with events_queue_ := rest } hd hs rfl
      (le_refl _)
    intro ev hev
    left
    rw [hqueue]
    exact List.mem_cons_of_mem _ hev

theorem reachable_distinctIds (p : ServiceEventRequestProtocol σ) (h : Reachable p) :
    DistinctIds p := by
  induction h with
  | constructed services run_context p hempty hcreate =>
    have hspec := create_spec services run_context
    by_cases hnodup : (services.map (fun s => s.name)).Nodup
    · rw [hspec.1 hnodup] at hcreate
      simp only [Except.ok.injEq] at hcreate
      subst hcreate
      constructor
      · intro s1 hs1 s2 hs2 ev1 hev1
        rw [hempty s1 hs1] at hev1
        simp at hev1
      · intro s hs ev hev
        rw [hempty s hs] at hev
        simp at hev
    · obtain ⟨name, hname⟩ := hspec.2 hnodup
      rw [hname] at hcreate
      exact absurd hcreate (by simp)
  | emitted p service event_command _ ih => exact emit_distinctIds p service event_command ih
  | requested p actor service_request _ ih =>
    exact handleServiceRequest_distinctIds p actor service_request ih
  | polled p hp ih => exact pollServiceEvent_distinctIds p (reachable_invariant p hp) ih

theorem cache_ids_nodup (q : ServiceEventRequestProtocol σ) (hinv : CacheInvariant q)
    (hd : DistinctIds q) :
    (q.latest_se_emitters_cache_.map (fun e => e.emittedEventId)).Nodup := by
  obtain ⟨_, hcache, hentries⟩ := hinv
  apply List.Nodup.map_on _ (List.Nodup.of_map _ hcache)
  intro x hx y hy hid
  obtain ⟨sx, hsx, hxn, hxc⟩ := hentries x hx
  obtain ⟨sy, hsy, hyn, hyc⟩ := hentries y hy
  have hhead : ∀ (s : Service σ) (id : Nat), s.checkEvent = some id →
      ∃ ev ∈ s.events_queue_, ev.1 = id := by
    intro s id hc
    unfold Service.checkEvent at hc
    cases hq : s.events_queue_ with
    | nil => simp [hq] at hc
    | cons ev rest =>
      simp only [hq, List.head?_cons, Option.map_some', Option.some.injEq] at hc
      exact ⟨ev, List.mem_cons_self _ _, hc⟩
  obtain ⟨ex, hex, hexid⟩ := hhead sx _ hxc
  obtain ⟨ey, hey, heyid⟩ := hhead sy _ hyc
  have hnames := hd.1 sx hsx sy hsy ex hex ey hey (by rw [hexid, heyid]; exact hid)
  apply List.inj_on_of_nodup_map hcache hx hy
  show x.queuedEmitter = y.queuedEmitter
  rw [← hxn, ← hyn]
  exact hnames

/-! ## Order of the registry -/

theorem at_perm (l1 l2 : List (Service σ)) (service : String) (hperm : List.Perm l1 l2)
    (hnodup : (l1.map (fun s => s.name)).Nodup) : at_ l1 service = at_ l2 service := by
  have hnodup2 : (l2.map (fun s => s.name)).Nodup :=
    (List.Perm.nodup_iff (hperm.map _)).1 hnodup
  cases h1 : at_ l1 service with
  | none =>
    cases h2 : at_ l2 service with
    | none => rfl
    | some s =>
      obtain ⟨hs, hname⟩ := at_eq_some _ _ _ h2
      have := at_of_mem l1 s hnodup (hperm.mem_iff.2 hs)
      rw [hname, h1] at this
      exact absurd this (by simp)
  | some s =>
    obtain ⟨hs, hname⟩ := at_eq_some _ _ _ h1
    have := at_of_mem l2 s hnodup2 (hperm.mem_iff.1 hs)
    rw [hname] at this
    exact this.symm

theorem isRegistered_perm (p1 p2 : ServiceEventRequestProtocol σ) (service : String)
    (hperm : List.Perm p1.running_services_ p2.running_services_) :
    p1.isRegistered service = p2.isRegistered service := by
  unfold isRegistered count
  rw [hperm.countP_eq]

theorem store_sameUpToOrder (p1 p2 : ServiceEventRequestProtocol σ) (ctx : ServiceContext)
    (svc : Service σ) (h : SameUpToOrder p1 p2) :
    SameUpToOrder (p1.store ctx svc) (p2.store ctx svc) :=
  ⟨rfl, h.2.1.map _, h.2.2⟩

theorem emit_sameUpToOrder (p1 p2 : ServiceEventRequestProtocol σ)
    (service event_command : String) (h : SameUpToOrder p1 p2)
    (hnodup : (p1.running_services_.map (fun s => s.name)).Nodup) :
    SameUpToOrder (p1.emit service event_command) (p2.emit service event_command) := by
  unfold emit
  rw [← at_perm _ _ service h.2.1 hnodup, ← h.1]
  cases at_ p1.running_services_ service with
  | none => exact h
  | some svc => exact store_sameUpToOrder p1 p2 _ _ h

theorem handleServiceRequest_sameUpToOrder (p1 p2 : ServiceEventRequestProtocol σ)
    (actor : Nat) (service_request : String) (h : SameUpToOrder p1 p2)
    (hnodup : (p1.running_services_.map (fun s => s.name)).Nodup) :
    (p1.handleServiceRequest actor service_request).result =
      (p2.handleServiceRequest actor service_request).result ∧
    SameUpToOrder (p1.handleServiceRequest actor service_request).protocol
      (p2.handleServiceRequest actor service_request).protocol := by
  unfold handleServiceRequest
  cases parseServiceRequest service_request with
  | error e => exact ⟨rfl, h⟩
  | ok q =>
    simp only
    rw [← isRegistered_perm p1 p2 _ h.2.1, ← at_perm _ _ _ h.2.1 hnodup, ← h.1]
    by_cases hreg : p1.isRegistered q.intendedServiceName = true
    · simp only [hreg, Bool.not_true, Bool.false_eq_true, if_false]
      cases hat : at_ p1.running_services_ q.intendedServiceName with
      | none => exact ⟨rfl, h⟩
      | some svc =>
        simp only
        cases (svc.handleRequestCommand actor q.commandData svc.state).outcome with
        | error what => exact ⟨rfl, store_sameUpToOrder p1 p2 _ _ h⟩
        | ok command_result =>
          by_cases hs : command_result.success = true
          · simp only [hs, if_true]
            exact ⟨trivial, store_sameUpToOrder p1 p2 _ _ h⟩
          · simp only [hs, Bool.false_eq_true, if_false]
            exact ⟨trivial, store_sameUpToOrder p1 p2 _ _ h⟩
    · have hreg' : p1.isRegistered q.intendedServiceName = false := by simpa using hreg
      simp only [hreg', Bool.not_false, if_true]
      exact ⟨trivial, h⟩

theorem cacheTop_perm (c1 c2 : List CachedServiceEventEmitter) (hperm : List.Perm c1 c2)
    (hids : (c1.map (fun e => e.emittedEventId)).Nodup) : cacheTop c1 = cacheTop c2 := by
  cases h1 : cacheTop c1 with
  | none =>
    have hnil : c1 = [] := by
      cases hc : c1 with
      | nil => rfl
      | cons e es => simp [hc, cacheTop] at h1
    rw [hnil] at hperm
    rw [← hperm.nil_eq]
    rfl
  | some t1 =>
    have hm1 := cacheTop_mem _ _ h1
    have hne2 : c2 ≠ [] := by
      intro hc
      rw [hc] at hperm
      rw [hperm.eq_nil] at hm1
      simp at hm1
    obtain ⟨t2, h2⟩ := cacheTop_of_ne_nil _ hne2
    have hm2 := cacheTop_mem _ _ h2
    have hle1 := cacheTop_le _ _ h1 t2 (hperm.mem_iff.2 hm2)
    have hle2 := cacheTop_le _ _ h2 t1 (hperm.mem_iff.1 hm1)
    have : t1 = t2 :=
      List.inj_on_of_nodup_map hids hm1 (hperm.mem_iff.2 hm2) (le_antisymm hle1 hle2)
    rw [h2, this]

theorem usedCache_perm (p1 p2 : ServiceEventRequestProtocol σ) (h : SameUpToOrder p1 p2) :
    List.Perm (usedCache p1) (usedCache p2) := by
  unfold usedCache
  rw [h.2.2.isEmpty_eq]
  by_cases hc : p2.latest_se_emitters_cache_.isEmpty = true
  · simp only [hc, Bool.not_true, Bool.false_eq_true, if_false, cacheEmitters_eq]
    exact List.Perm.append h.2.2 (h.2.1.filterMap _)
  · have hc' : p2.latest_se_emitters_cache_.isEmpty = false := by simpa using hc
    simp only [hc', Bool.not_false, if_true]
    exact h.2.2

theorem pollServiceEvent_sameUpToOrder (p1 p2 : ServiceEventRequestProtocol σ)
    (h : SameUpToOrder p1 p2) (hinv1 : CacheInvariant p1) (hinv2 : CacheInvariant p2)
    (hd : DistinctIds p1) :
    p1.pollServiceEvent.result = p2.pollServiceEvent.result ∧
    SameUpToOrder p1.pollServiceEvent.protocol p2.pollServiceEvent.protocol := by
  have hused := usedCache_perm p1 p2 h
  have hids : ((usedCache p1).map (fun e => e.emittedEventId)).Nodup :=
    cache_ids_nodup ({ p1 with latest_se_emitters_cache_ := usedCache p1 } :
      ServiceEventRequestProtocol σ) (usedCache_invariant p1 hinv1) hd
  have htop := cacheTop_perm _ _ hused hids
  rcases pollServiceEvent_eq p1 hinv1 with ⟨hnil1, _, hpoll1⟩ | ⟨top1, s1, ec1, rest1, htop1, _,
    hs1, hname1, hq1, _, hpoll1⟩
  · rcases pollServiceEvent_eq p2 hinv2 with ⟨_, _, hpoll2⟩ | ⟨top2, _, _, _, _, hmem2, _⟩
    · rw [hpoll1, hpoll2]
      exact ⟨rfl, h.1, h.2.1, List.Perm.refl _⟩
    · rw [hnil1] at hused
      rw [← hused.nil_eq] at hmem2
      simp at hmem2
  · rcases pollServiceEvent_eq p2 hinv2 with ⟨hnil2, _, _⟩ | ⟨top2, s2, ec2, rest2, htop2, _,
      hs2, hname2, hq2, _, hpoll2⟩
    · rw [hnil2] at htop
      rw [htop] at htop1
      simp [cacheTop] at htop1
    · rw [htop, htop2] at htop1
      simp only [Option.some.injEq] at htop1
      subst htop1
      have hs : s1 = s2 :=
        List.inj_on_of_nodup_map hinv1.1 hs1 (h.2.1.mem_iff.2 hs2) (hname1.trans hname2.symm)
      subst hs
      rw [hq1] at hq2
      simp only [List.cons.injEq, Prod.mk.injEq, true_and] at hq2
      obtain ⟨hec, hrest⟩ := hq2
      subst hec hrest
      rw [hpoll1, hpoll2, h.1]
      refine ⟨rfl, ?_⟩
      exact store_sameUpToOrder _ _ _ _ ⟨rfl, h.2.1, hused.erase _⟩

theorem pollResults_sameUpToOrder (actions : List Action) :
    ∀ p1 p2 : ServiceEventRequestProtocol σ, SameUpToOrder p1 p2 →
    CacheInvariant p1 → CacheInvariant p2 → DistinctIds p1 →
    pollResults p1 actions = pollResults p2 actions := by
  induction actions with
  | nil => intro p1 p2 _ _ _ _; rfl
  | cons action rest ih =>
    intro p1 p2 h hinv1 hinv2 hd
    cases action with
    | emitEvent service event_command =>
      simp only [pollResults, afterAction]
      exact ih _ _ (emit_sameUpToOrder p1 p2 service event_command h hinv1.1)
        (emit_invariant p1 service event_command hinv1)
        (emit_invariant p2 service event_command hinv2)
        (emit_distinctIds p1 service event_command hd)
    | handleServiceRequest actor service_request =>
      simp only [pollResults, afterAction]
      exact ih _ _ (handleServiceRequest_sameUpToOrder p1 p2 actor service_request h hinv1.1).2
        (handleServiceRequest_invariant p1 actor service_request hinv1)
        (handleServiceRequest_invariant p2 actor service_request hinv2)
        (handleServiceRequest_distinctIds p1 actor service_request hd)
    | pollServiceEvent =>
      obtain ⟨hres, hsame⟩ := pollServiceEvent_sameUpToOrder p1 p2 h hinv1 hinv2 hd
      simp only [pollResults]
      rw [hres, ih _ _ hsame (pollServiceEvent_spec p1 hinv1).1 (pollServiceEvent_spec p2 hinv2).1
        (pollServiceEvent_distinctIds p1 hinv1 hd)]

/-- C28: two protocols constructed, in the same context, over the same services listed in
different orders (services with pairwise distinct names that have emitted nothing yet) return
the same results to their `pollServiceEvent()` calls, whatever the sequence of emissions,
requests and polls they both go through. -/
theorem scan_order_independent (services1 services2 : List (Service σ))
    (run_context : ServiceContext) (hperm : List.Perm services1 services2)
    (hnodup : (services1.map (fun s => s.name)).Nodup)
    (hempty : ∀ s ∈ services1, s.events_queue_ = []) :
    ∃ p1 p2, create services1 run_context = .ok p1 ∧ create services2 run_context = .ok p2 ∧
      ∀ actions : List Action, pollResults p1 actions = pollResults p2 actions := by
  have hnodup2 : (services2.map (fun s => s.name)).Nodup :=
    (List.Perm.nodup_iff (hperm.map _)).1 hnodup
  have hempty2 : ∀ s ∈ services2, s.events_queue_ = [] :=
    fun s hs => hempty s (hperm.mem_iff.2 hs)
  have hc1 := (create_spec services1 run_context).1 hnodup
  have hc2 := (create_spec services2 run_context).1 hnodup2
  refine ⟨_, _, hc1, hc2, ?_⟩
  intro actions
  have hr1 := Reachable.constructed services1 run_context _ hempty hc1
  have hr2 := Reachable.constructed services2 run_context _ hempty2 hc2
  exact pollResults_sameUpToOrder actions _ _ ⟨rfl, hperm, List.Perm.refl _⟩
    (reachable_invariant _ hr1) (reachable_invariant _ hr2) (reachable_distinctIds _ hr1)

/-- C28, on the relay services `A` and `B` listed in both orders. -/
theorem scan_order_independent_witness :
    ∃ p1 p2, create [relayService "A", relayService "B"] ⟨0⟩ = .ok p1 ∧
      create [relayService "B", relayService "A"] ⟨0⟩ = .ok p2 ∧
      ∀ actions : List Action, pollResults p1 actions = pollResults p2 actions :=
  scan_order_independent [relayService "A", relayService "B"]
    [relayService "B", relayService "A"] ⟨0⟩ (List.Perm.swap _ _ _) (by decide)
    (by simp [relayService])

end ServiceEventRequestProtocol
end RpT

/-! ## The single run of the handler -/

namespace RpT
namespace ServiceEventRequestProtocol
variable {σ : Type}

end ServiceEventRequestProtocol
end RpT

/-! ## The events output by an iteration of the executor -/

namespace RpT
namespace Executor
open ServiceEventRequestProtocol
variable {σ : Type}

theorem pollEvents_drained (k : Nat) : ∀ p : ServiceEventRequestProtocol σ,
    CacheInvariant p → p.pendingEvents = k →
    ∃ after_events, pollEvents (k + 1) p =
        ((drainedEvents k p).map (fun ev => IOCall.outputEvent (eventCommand ev)),
          some (.ok after_events)) ∧
      after_events.pendingEvents = 0 ∧ (Reachable p → Reachable after_events) := by
  induction k with
  | zero =>
    intro p hinv hzero
    rcases pollServiceEvent_pending p hinv with ⟨hres, _, hzero'⟩ | ⟨_, hdec⟩
    · refine ⟨p.pollServiceEvent.protocol, ?_, hzero', Reachable.polled p⟩
      simp only [pollEvents, hres, drainedEvents, List.map_nil]
    · omega
  | succ k ih =>
    intro p hinv hk
    have hnext := (pollServiceEvent_spec p hinv).1
    rcases pollServiceEvent_pending p hinv with ⟨_, hzero, _⟩ | ⟨⟨text, hres⟩, hdec⟩
    · omega
    · rcases pollServiceEvent_eq p hinv with ⟨_, _, hpoll⟩ |
        ⟨top, s, event_command, rest, _, _, _, _, _, hev, hpoll⟩
      · rw [hpoll] at hres
        simp at hres
      · obtain ⟨after_events, hrec, hz, hreach⟩ :=
          ih p.pollServiceEvent.protocol hnext (by omega)
        have hres' : p.pollServiceEvent.result =
            .ok (some (eventCommand (s.name, top.emittedEventId, event_command))) := by
          rw [hpoll]
          rfl
        refine ⟨after_events, ?_, hz, fun h => hreach (Reachable.polled p h)⟩
        rw [pollEvents]
        simp only [hres', hrec, drainedEvents, hev, List.map_cons]

theorem InputHandler_reachable (p after_input : ServiceEventRequestProtocol σ)
    (input_event : AnyInputEvent) (handled : List IOCall) (hreach : Reachable p)
    (h : InputHandler p input_event = (handled, .ok after_input)) : Reachable after_input := by
  cases input_event
  case ServiceRequestEvent actor service_request =>
    have hafter := Reachable.requested p actor service_request hreach
    unfold InputHandler at h
    cases hres : (p.handleServiceRequest actor service_request).result with
    | ok response =>
      simp only [hres, Prod.mk.injEq, Except.ok.injEq] at h
      rw [← h.2]
      exact hafter
    | error e =>
      simp only [hres] at h
      by_cases hbad : e.isBadServiceRequest = true
      · simp only [hbad, if_true, Prod.mk.injEq, Except.ok.injEq] at h
        rw [← h.2]
        exact hafter
      · simp [hbad] at h
  all_goals
    simp only [InputHandler, Prod.mk.injEq, Except.ok.injEq] at h
    rw [← h.2]
    exact hreach

/-- C18: a run of the executor is its main loop from the state constructed over the chat
service, where nothing is pending.  In an iteration of the loop that starts in a reachable
state with nothing pending and handles its input without a fatal error, the trace is
`waitForInput`, the calls of the handler, then one `outputEvent` for each event pending after
the handling, which are the events emitted while the input was handled, in the order in which
the successive `pollServiceEvent()` calls return them and with every queue output whole and in
its order, and only then the trace of the next iterations, which start in a reachable state
where every queue is empty again.  So in every run no event is pending at any `waitForInput`,
and the run returns. -/
theorem executor_drains_before_next_input (inputs : List AnyInputEvent) :
    ((∀ k, IOCall.waitForInput k ∈ (run inputs).1 → k = 0) ∧
      ∃ done_successfully, (run inputs).2 = .returned done_successfully) ∧
    (run inputs =
        mainLoop inputs (⟨⟨0⟩, [ChatService.service], []⟩ : ServiceEventRequestProtocol Bool) ∧
      Reachable (⟨⟨0⟩, [ChatService.service], []⟩ : ServiceEventRequestProtocol Bool) ∧
      (⟨⟨0⟩, [ChatService.service], []⟩ : ServiceEventRequestProtocol Bool).pendingEvents = 0) ∧
    ∀ (p after_input : ServiceEventRequestProtocol σ) (input_event : AnyInputEvent)
      (handled : List IOCall),
      Reachable p → p.pendingEvents = 0 →
      InputHandler p input_event = (handled, .ok after_input) →
      (∀ S ∈ after_input.running_services_,
        ((drainedEvents after_input.pendingEvents after_input).filter
          (fun ev => ev.1 == S.name)).map (fun ev => ev.2) = S.events_queue_) ∧
      (drainedEvents after_input.pendingEvents after_input).length = after_input.pendingEvents ∧
      pollResults after_input
          (List.replicate (after_input.pendingEvents + 1) Action.pollServiceEvent) =
        (drainedEvents after_input.pendingEvents after_input).map
          (fun ev => Except.ok (some (eventCommand ev))) ++ [.ok none] ∧
      ∃ after_events : ServiceEventRequestProtocol σ,
        Reachable after_events ∧
        (∀ S ∈ after_events.running_services_, S.events_queue_ = []) ∧
        ∀ rest : List AnyInputEvent,
          mainLoop (input_event :: rest) p =
            (IOCall.waitForInput 0 ::
              (handled ++
                (drainedEvents after_input.pendingEvents after_input).map
                  (fun ev => IOCall.outputEvent (eventCommand ev)) ++
                (mainLoop rest after_events).1),
              (mainLoop rest after_events).2) := by
  refine ⟨mainLoop_waits inputs _ (reachable_invariant _ reachable_constructed_chat) rfl,
    ⟨rfl, reachable_constructed_chat, rfl⟩, ?_⟩
  intro p after_input input_event handled hreach hzero hhandled
  have hreach1 := InputHandler_reachable p after_input input_event handled hreach hhandled
  have hinv1 := reachable_invariant after_input hreach1
  obtain ⟨hpolls, hlen, hqueues, _⟩ :=
    drainedEvents_spec after_input.pendingEvents after_input hinv1 rfl
  obtain ⟨after_events, hpoll, hz, hreach2⟩ :=
    pollEvents_drained after_input.pendingEvents after_input hinv1 rfl
  refine ⟨hqueues, hlen, hpolls, after_events, hreach2 hreach1,
    (pendingEvents_eq_zero_iff after_events).1 hz, ?_⟩
  intro rest
  rw [mainLoop]
  simp only [hhandled, hpoll, hzero]

/-- C18, on a run of three inputs: a message of actor 5, the toggle of the administrator and an
input with no effect.  Each event is output right after the reply to the request that emitted
it and before the next `waitForInput`. -/
theorem executor_drains_before_next_input_witness :
    run [.ServiceRequestEvent 5 "REQUEST 1 Chat hi",
        .ServiceRequestEvent 0 "REQUEST 2 Chat /toggle", .NoneEvent 0] =
      ([.waitForInput 0, .replyTo 5 "RESPONSE 1 OK",
          .outputEvent "EVENT Chat MESSAGE_FROM 5 hi",
          .waitForInput 0, .replyTo 0 "RESPONSE 2 OK", .outputEvent "EVENT Chat DISABLED",
          .waitForInput 0],
        .returned true) ∧
    ∃ after_events : ServiceEventRequestProtocol Bool,
      Reachable after_events ∧
      (∀ S ∈ after_events.running_services_, S.events_queue_ = []) ∧
      ∀ rest : List AnyInputEvent,
        mainLoop (.ServiceRequestEvent 5 "REQUEST 1 Chat hi" :: rest)
            (⟨⟨0⟩, [ChatService.service], []⟩ : ServiceEventRequestProtocol Bool) =
          (IOCall.waitForInput 0 ::
            ([.replyTo 5 "RESPONSE 1 OK"] ++
              [.outputEvent "EVENT Chat MESSAGE_FROM 5 hi"] ++
              (mainLoop rest after_events).1),
            (mainLoop rest after_events).2) :=
  ⟨by decide,
    ((executor_drains_before_next_input []).2.2 ⟨⟨0⟩, [ChatService.service], []⟩
      (chatProtocol ⟨1⟩ true [(0, "MESSAGE_FROM 5 hi")] [])
      (.ServiceRequestEvent 5 "REQUEST 1 Chat hi") [.replyTo 5 "RESPONSE 1 OK"]
      reachable_constructed_chat rfl rfl).2.2.2⟩

end Executor
end RpT
